import Mathlib

/-!
# Encrypted local storage and file-location encoding

A shallow embedding of `storage/details/storage_file_utilities.cpp` and of the
`StorageFileLocation` and `DownloadLocation` parts of
`ui/image/image_location.cpp`, followed by the
properties proved about them.

Conventions of the embedding:

* a byte is a `Fin 256`; a buffer whose null-ness is never observed is a
  `List Byte`; a `QByteArray` whose null-ness is observed (record fields, file
  references) is the two-constructor type `QByteArray`;
* machine integers are `Nat` / `Int` with the wrap-around written out;
* hashing, the block cipher, the host byte order and the application version
  are not part of the embedded files: they are the fields of `Env`;
* the file system is a finite map from paths to files; the outcomes of the
  operations that may fail for environmental reasons are explicit arguments.
-/

/-! ## Bytes and integer layouts -/

abbrev Byte := Fin 256

/-- The byte holding `n mod 256`. -/
def byteOfNat (n : Nat) : Byte := ⟨n % 256, Nat.mod_lt _ (by decide)⟩

/-- Big-endian layout of the low `w` bytes of `n`: the integer layout of
`QDataStream`, whose default byte order is big-endian. -/
def beBytes : Nat → Nat → List Byte
  | 0, _ => []
  | w + 1, n => byteOfNat (n / 256 ^ w) :: beBytes w n

/-- Value of a big-endian byte sequence. -/
def beVal (bs : List Byte) : Nat :=
  bs.foldl (fun acc b => acc * 256 + b.val) 0

/-- Two-complement reading of a 32-bit pattern (`qint32` / `int32`). -/
def toInt32 (u : Nat) : Int :=
  if u % 2 ^ 32 < 2 ^ 31 then (u % 2 ^ 32 : Nat) else (u % 2 ^ 32 : Nat) - 2 ^ 32

/-- The 32-bit pattern of an integer (`quint32(x)` / `uint32(x)`). -/
def toUInt32 (i : Int) : Nat := (i % 2 ^ 32).toNat

/-! ## QByteArray -/

/-- A `QByteArray`: null, or a (possibly empty) byte string. -/
inductive QByteArray where
  | null
  | bytes (b : List Byte)
  deriving DecidableEq, Repr

namespace QByteArray

def toList : QByteArray → List Byte
  | null => []
  | bytes b => b

def size (a : QByteArray) : Nat := a.toList.length

def isNull : QByteArray → Bool
  | null => true
  | bytes _ => false

def isEmpty (a : QByteArray) : Bool := a.size == 0

/-- The comparison `operator==(QByteArray, QByteArray)`: sizes and contents,
so that a null array equals an empty one. -/
def eq (a b : QByteArray) : Bool := a.toList == b.toList

end QByteArray

/-! ## Environment: primitives that live outside the embedded files -/

abbrev AuthKey := List Byte

/-- What the embedded code takes from its surroundings. The length laws are
the buffer contracts of the primitives: `hashMd5` fills 16 bytes, `hashSha1`
20 bytes, and the local cipher writes exactly as many bytes as it reads. -/
structure Env where
  /-- Value of `QSysInfo::ByteOrder == QSysInfo::BigEndian`. -/
  bigEndian : Bool
  /-- The constant `AppVersion`. -/
  AppVersion : Int
  /-- The digest `HashMd5` of everything fed to it. -/
  hashMd5 : List Byte → List Byte
  hashSha1 : List Byte → List Byte
  /-- The call `MTP::aesEncryptLocal(src, dst, len, key, key128)`. -/
  aesEncryptLocal : List Byte → AuthKey → List Byte → List Byte
  /-- The call `MTP::aesDecryptLocal(src, dst, len, key, key128)`. -/
  aesDecryptLocal : List Byte → AuthKey → List Byte → List Byte
  /-- Source of `memset_rand`: the byte written at each offset. -/
  randByte : Nat → Byte
  appVersion_int32 : -(2 ^ 31) ≤ AppVersion ∧ AppVersion < 2 ^ 31
  hashMd5_length : ∀ x, (hashMd5 x).length = 16
  hashSha1_length : ∀ x, (hashSha1 x).length = 20
  aesEncryptLocal_length : ∀ d k s, (aesEncryptLocal d k s).length = d.length
  aesDecryptLocal_length : ∀ d k s, (aesDecryptLocal d k s).length = d.length

namespace Env

/-- Layout of the low `w` bytes of `n` in host byte order (a raw memory copy
of an integer variable). -/
def nativeBytes (env : Env) (w n : Nat) : List Byte :=
  if env.bigEndian then beBytes w n else (beBytes w n).reverse

/-- Value of a byte sequence read in host byte order. -/
def nativeVal (env : Env) (bs : List Byte) : Nat :=
  if env.bigEndian then beVal bs else beVal bs.reverse

/-- The property assumed of the local cipher in round trips: decryption under
the same key and seed undoes encryption. -/
def CipherInverts (env : Env) : Prop :=
  ∀ d k s, env.aesDecryptLocal (env.aesEncryptLocal d k s) k s = d

end Env

/-- A small checksum standing in for a hash in evaluations: `n` bytes, byte
`i` folding the input from a start value that depends on `i`. -/
def toyDigest (n : Nat) (x : List Byte) : List Byte :=
  (List.range n).map fun i =>
    byteOfNat (x.foldl (fun a b => (a * 31 + b.val + 1) % 65521) (7 + 13 * i))

/-- The byte a toy cipher adds to every position. -/
def toyPad (k s : List Byte) : Byte :=
  byteOfNat ((k ++ s).foldl (fun a b => (a + b.val) % 256) 1)

/-- An environment for evaluating the model on concrete inputs: little-endian
host, version 2001008, checksums for the hashes and a shift cipher. -/
def toyEnv : Env where
  bigEndian := false
  AppVersion := 2001008
  hashMd5 := toyDigest 16
  hashSha1 := toyDigest 20
  aesEncryptLocal := fun d k s => d.map (· + toyPad k s)
  aesDecryptLocal := fun d k s => d.map (· - toyPad k s)
  randByte := fun i => byteOfNat (i * 37 + 11)
  appVersion_int32 := by decide
  hashMd5_length := by intro x; simp [toyDigest]
  hashSha1_length := by intro x; simp [toyDigest]
  aesEncryptLocal_length := by intro d k s; simp
  aesDecryptLocal_length := by intro d k s; simp

namespace Storage.details

/-! ## EncryptedDescriptor, PrepareEncrypted, DecryptLocal -/

/-- The struct `EncryptedDescriptor`: the byte array and, while the buffer is
open, the position of the buffer the stream is attached to. -/
structure EncryptedDescriptor where
  data : List Byte := []
  pos : Option Nat := none
  deriving DecidableEq, Repr

namespace EncryptedDescriptor

/-- The constructor `EncryptedDescriptor(uint32 size)`: `size` only sizes the
reservation; the array is resized to the four bytes of the size slot and the
buffer is opened and positioned after them. -/
def sized (_size : Nat) : EncryptedDescriptor :=
  { data := List.replicate 4 0, pos := some 4 }

/-- Writing raw bytes through `stream` (the buffer is write-only and
positioned at its end): the bytes are appended. A descriptor whose buffer is
closed has no device and ignores the write. -/
def write (d : EncryptedDescriptor) (p : List Byte) : EncryptedDescriptor :=
  match d.pos with
  | none => d
  | some q => { data := d.data ++ p, pos := some (q + p.length) }

/-- The method `EncryptedDescriptor::finish`. -/
def finish (d : EncryptedDescriptor) : EncryptedDescriptor :=
  { d with pos := none }

end EncryptedDescriptor

/-- The function `PrepareEncrypted`: returns the encrypted bytes and the
descriptor as the call leaves it (finished, padded, size slot filled). -/
def PrepareEncrypted (env : Env) (data : EncryptedDescriptor) (key : AuthKey) :
    List Byte × EncryptedDescriptor :=
  let data := data.finish
  let size := data.data.length % 2 ^ 32
  let fullSize :=
    if size % 16 ≠ 0 then (size + (16 - size % 16)) % 2 ^ 32 else size
  let padded :=
    if size % 16 ≠ 0 then
      data.data ++ (List.range (fullSize - size)).map fun i => env.randByte i
    else data.data
  let toEncrypt := env.nativeBytes 4 size ++ padded.drop 4
  let sha1 := (env.hashSha1 toEncrypt).take 16
  (sha1 ++ env.aesEncryptLocal toEncrypt key sha1, { data with data := toEncrypt })

namespace DecryptLocal

/-- The local `fullLen` of `DecryptLocal`: `uint32 fullLen = encrypted.size() - 16`. -/
def fullLen (encrypted : List Byte) : Nat := (encrypted.length - 16) % 2 ^ 32

/-- The local `decrypted` of `DecryptLocal` after the call of
`aesDecryptLocal`: the bytes after the first 16, decrypted under `key` with
the first 16 bytes as seed. -/
def decrypted (env : Env) (encrypted : List Byte) (key : AuthKey) : List Byte :=
  env.aesDecryptLocal ((encrypted.drop 16).take (fullLen encrypted)) key (encrypted.take 16)

/-- The local `dataLen` of `DecryptLocal`: the leading `uint32` of the
decrypted bytes, in host byte order. -/
def dataLen (env : Env) (encrypted : List Byte) (key : AuthKey) : Nat :=
  env.nativeVal ((decrypted env encrypted key).take 4)

end DecryptLocal

/-- The function `DecryptLocal`: the returned flag and the descriptor
`result` after the call. -/
def DecryptLocal (env : Env) (result : EncryptedDescriptor) (encrypted : List Byte)
    (key : AuthKey) : Bool × EncryptedDescriptor :=
  if encrypted.length ≤ 16 ∨ encrypted.length % 16 ≠ 0 then (false, result)
  else
    let fullLen := DecryptLocal.fullLen encrypted
    let decrypted := DecryptLocal.decrypted env encrypted key
    if (env.hashSha1 decrypted).take 16 ≠ encrypted.take 16 then (false, result)
    else
      let dataLen := DecryptLocal.dataLen env encrypted key
      if dataLen > decrypted.length % 2 ^ 32 ∨ dataLen ≤ (fullLen + 2 ^ 32 - 16) % 2 ^ 32
          ∨ dataLen < 4 then
        (false, result)
      else
        (true, { data := decrypted.take dataLen, pos := some 4 })

end Storage.details

/-! ## QDataStream over a byte array -/

/-- The bytes `QDataStream << QByteArray` appends (stream version 6 or later):
the marker `0xFFFFFFFF` for a null array, otherwise the big-endian 32-bit
length followed by the bytes. -/
def streamBytes : QByteArray → List Byte
  | .null => beBytes 4 0xFFFFFFFF
  | .bytes b => beBytes 4 b.length ++ b

/-- A `QDataStream` reading from a byte array: the bytes of the device, the
read position and whether `status()` is `Ok`. -/
structure ReadStream where
  data : List Byte
  pos : Nat
  ok : Bool := true
  deriving DecidableEq, Repr

namespace ReadStream

/-- The call `readRawData(buf, n)`: the bytes obtained (fewer than `n` at the
end of the device) and the advanced stream. -/
def readRawData (s : ReadStream) (n : Nat) : List Byte × ReadStream :=
  ((s.data.drop s.pos).take n, { s with pos := s.pos + ((s.data.drop s.pos).take n).length })

/-- Reading a `w`-byte unsigned integer: big-endian value, or 0 with the
status set to `ReadPastEnd` when fewer than `w` bytes are left. -/
def readUInt (s : ReadStream) (w : Nat) : Nat × ReadStream :=
  if ((s.readRawData w).1).length = w then (beVal (s.readRawData w).1, (s.readRawData w).2)
  else (0, { (s.readRawData w).2 with ok := false })

/-- The operator `QDataStream >> QByteArray`: a length word, the null array
for the marker `0xFFFFFFFF`, otherwise that many bytes; a short read clears
the array and sets the status to `ReadPastEnd`. -/
def readByteArray (s : ReadStream) : QByteArray × ReadStream :=
  if (s.readUInt 4).1 = 0xFFFFFFFF then (.null, (s.readUInt 4).2)
  else if (((s.readUInt 4).2.readRawData (s.readUInt 4).1).1).length = (s.readUInt 4).1 then
    (.bytes ((s.readUInt 4).2.readRawData (s.readUInt 4).1).1,
      ((s.readUInt 4).2.readRawData (s.readUInt 4).1).2)
  else (.null, { ((s.readUInt 4).2.readRawData (s.readUInt 4).1).2 with ok := false })

end ReadStream

/-! ## File system -/

/-- A file: its bytes, its modification time and whether it can be opened for
reading. -/
structure File where
  content : List Byte
  lastModified : Nat
  readable : Bool := true
  deriving DecidableEq, Repr

/-- The files present, by path. -/
abbrev FileSystem := String → Option File

namespace FileSystem

def empty : FileSystem := fun _ => none

/-- The call `QFile::remove(path)`. -/
def remove (fs : FileSystem) (path : String) : FileSystem :=
  fun q => if q = path then none else fs q

/-- Creating or replacing the file at `path`. -/
def write (fs : FileSystem) (path : String) (f : File) : FileSystem :=
  fun q => if q = path then some f else fs q

end FileSystem

namespace Storage.details

/-- The constant `TdfMagic`: the characters `T`, `D`, `F`, `$`. -/
def TdfMagic : List Byte := [84, 68, 70, 36]

/-! ## FileWriteDescriptor -/

/-- The class `FileWriteDescriptor`: `md5` holds the bytes fed so far to the
running `HashMd5`, `device` whether `_stream` has a device. -/
structure FileWriteDescriptor where
  basePath : String
  base : String
  safeData : List Byte := []
  md5 : List Byte := []
  fullSize : Int := 0
  device : Bool := true

/-- Byte swap of a 32-bit value (`qbswap`). -/
def qbswap (len : Nat) : Nat := beVal (beBytes 4 len).reverse

namespace FileWriteDescriptor

/-- The constructor from a name and a base path, with `init`. -/
def create (name basePath : String) : FileWriteDescriptor :=
  { basePath := basePath, base := basePath ++ name }

/-- The method `path(postfix)`. -/
def path (w : FileWriteDescriptor) (postfix_ : Char) : String := w.base.push postfix_

/-- The method `writeData`. -/
def writeData (env : Env) (w : FileWriteDescriptor) (data : QByteArray) :
    FileWriteDescriptor :=
  if !w.device then w
  else
    let len := if data.isNull then 0xffffffff else data.size % 2 ^ 32
    let len := if !env.bigEndian then qbswap len else len
    { w with
      safeData := w.safeData ++ streamBytes data
      md5 := w.md5 ++ env.nativeBytes 4 len ++ data.toList
      fullSize := w.fullSize + (4 + data.size) }

/-- How the environment answers the steps of `finish` that can fail. -/
structure Outcome where
  /-- The `QSaveFile` on the `s` path opens for writing. -/
  saveOpens : Bool
  /-- The call `save.commit()` succeeds. -/
  saveCommits : Bool
  /-- The plain `QFile` on the `0` path opens for writing. -/
  plainOpens : Bool
  /-- The call `RenameWithOverwrite(simple, safe)` succeeds. -/
  renames : Bool
  deriving DecidableEq, Repr

/-- The bytes `finish` writes to a file: header (magic, version), staged
payload, footer (digest of everything fed, 16 bytes). -/
def record (env : Env) (w : FileWriteDescriptor) : List Byte :=
  TdfMagic ++ env.nativeBytes 4 (toUInt32 env.AppVersion) ++ w.safeData
    ++ (env.hashMd5 (w.md5 ++ env.nativeBytes 4 (toUInt32 w.fullSize)
        ++ env.nativeBytes 4 (toUInt32 env.AppVersion) ++ TdfMagic)).take 16

/-- The method `finish`, at time `now` and with the environment answering
`io`: the descriptor and the file system after the call, where every
`QFile::remove` takes effect and the writes to the plain file go through
(`finishWith` leaves these to the environment as well). A file just written
can be opened for reading. -/
def finish (env : Env) (w : FileWriteDescriptor) (io : Outcome) (now : Nat)
    (fs : FileSystem) : FileWriteDescriptor × FileSystem :=
  if !w.device then (w, fs)
  else
    let done : FileWriteDescriptor :=
      { w with
        device := false
        md5 := w.md5 ++ env.nativeBytes 4 (toUInt32 w.fullSize)
          ++ env.nativeBytes 4 (toUInt32 env.AppVersion) ++ TdfMagic }
    let safe := w.path 's'
    let simple := w.path '0'
    let backup := w.path '1'
    let file : File := { content := record env w, lastModified := now }
    if io.saveOpens && io.saveCommits then
      (done, ((fs.write safe file).remove simple).remove backup)
    else if io.plainOpens then
      if io.renames then
        (done, ((((fs.write simple file).remove backup).write safe file).remove simple))
      else
        (done, (((fs.write simple file).remove backup).remove safe))
    else (done, fs)

/-- How the environment answers the calls of `finish` whose results the source
drops: the calls of `QFile::remove` and the writes to the plain file. -/
structure Effects where
  /-- The call `QFile::remove(simple)` removes the `0` file. -/
  removesSimple : Bool
  /-- The call `QFile::remove(backup)` removes the `1` file. -/
  removesBackup : Bool
  /-- The call `QFile::remove(safe)` removes the `s` file. -/
  removesSafe : Bool
  /-- How many bytes of the record the writes to the plain `0` file put into
  it: all of them when this is at least the length of the record. -/
  plainWritten : Nat
  deriving DecidableEq, Repr

/-- The method `finish` with every call that can fail answered by the
environment: `io` for the calls whose results the source tests, `fx` for the
ones whose results it drops. A `QFile::remove` that fails leaves the file; a
write to the plain file that stops early leaves the bytes written so far. The
writes to the `QSaveFile` need no answer of their own: `commit` fails after a
write that failed. -/
def finishWith (env : Env) (w : FileWriteDescriptor) (io : Outcome) (fx : Effects)
    (now : Nat) (fs : FileSystem) : FileWriteDescriptor × FileSystem :=
  if !w.device then (w, fs)
  else
    let done : FileWriteDescriptor :=
      { w with
        device := false
        md5 := w.md5 ++ env.nativeBytes 4 (toUInt32 w.fullSize)
          ++ env.nativeBytes 4 (toUInt32 env.AppVersion) ++ TdfMagic }
    let safe := w.path 's'
    let simple := w.path '0'
    let backup := w.path '1'
    if io.saveOpens && io.saveCommits then
      let fs := fs.write safe { content := record env w, lastModified := now }
      let fs := if fx.removesSimple then fs.remove simple else fs
      let fs := if fx.removesBackup then fs.remove backup else fs
      (done, fs)
    else if io.plainOpens then
      let plain : File := { content := (record env w).take fx.plainWritten, lastModified := now }
      let fs := fs.write simple plain
      let fs := if fx.removesBackup then fs.remove backup else fs
      if io.renames then (done, (fs.write safe plain).remove simple)
      else (done, if fx.removesSafe then fs.remove safe else fs)
    else (done, fs)

end FileWriteDescriptor

/-! ## FileReadDescriptor, ReadFile, ReadEncryptedFile -/

/-- The struct `FileReadDescriptor`: `pos` is the position of `buffer` while
it is open with `stream` attached to it, `ok` whether the status of `stream`
is `Ok`. -/
structure FileReadDescriptor where
  version : Int := 0
  data : List Byte := []
  pos : Option Nat := none
  ok : Bool := true
  deriving DecidableEq, Repr

namespace FileReadDescriptor

/-- The stream of the descriptor as a reader over `data`; a stream without a
device reads nothing. -/
def stream (r : FileReadDescriptor) : ReadStream :=
  match r.pos with
  | some p => { data := r.data, pos := p, ok := r.ok }
  | none => { data := [], pos := 0, ok := r.ok }

/-- The statement `result.stream >> bytes`: the array read and the descriptor
afterwards. -/
def readByteArray (r : FileReadDescriptor) : QByteArray × FileReadDescriptor :=
  match r.pos with
  | some _ =>
    ((r.stream.readByteArray).1,
      { r with pos := some (r.stream.readByteArray).2.pos, ok := (r.stream.readByteArray).2.ok })
  | none => (.null, r)

end FileReadDescriptor

namespace ReadFile

/-- The version field of a file: bytes 4 to 7 as a host-order `qint32`. -/
def storedVersion (env : Env) (f : File) : Int :=
  toInt32 (env.nativeVal ((f.content.drop 4).take 4))

/-- The body of the loop of `ReadFile` up to the signature check, for the file
found at the candidate path (none when there is no such file): the version
and the payload when every check passes. -/
def check (env : Env) : Option File → Option (Int × List Byte)
  | none => none
  | some f =>
    if !f.readable then none
    else if (f.content.take 4).length ≠ 4 then none
    else if f.content.take 4 ≠ TdfMagic then none
    else if ((f.content.drop 4).take 4).length ≠ 4 then none
    else if storedVersion env f > env.AppVersion then none
    else
      let bytes := f.content.drop 8
      let dataSize : Int := (bytes.length : Int) - 16
      if dataSize < 0 then none
      else if (env.hashMd5 (bytes.take dataSize.toNat ++ env.nativeBytes 4 (toUInt32 dataSize)
            ++ env.nativeBytes 4 (toUInt32 (storedVersion env f)) ++ f.content.take 4)).take 16
          ≠ (bytes.drop dataSize.toNat).take 16 then none
      else some (storedVersion env f, bytes.take dataSize.toNat)

/-- The order of read attempts: the array `toTry`, an empty string standing
for an unused slot. -/
def toTry (fs : FileSystem) (name basePath : String) : String × String :=
  let base := basePath ++ name
  if (fs (base.push 's')).isSome then (base.push 's', "")
  else
    match fs (base.push '0') with
    | some toTry0 =>
      match fs ((basePath ++ name).push '1') with
      | some toTry1 =>
        if toTry0.lastModified < toTry1.lastModified then
          ((basePath ++ name).push '1', base.push '0')
        else (base.push '0', (basePath ++ name).push '1')
      | none => (base.push '0', "")
    | none => (base.push '1', "")

/-- The descriptor `result` after a candidate has been accepted. -/
def accept (result : FileReadDescriptor) (version : Int) (payload : List Byte) :
    FileReadDescriptor :=
  { result with version := version, data := payload, pos := some 0 }

end ReadFile

/-- The function `ReadFile`: the returned flag, the descriptor `result` and
the file system after the call. -/
def ReadFile (env : Env) (result : FileReadDescriptor) (fs : FileSystem)
    (name basePath : String) : Bool × FileReadDescriptor × FileSystem :=
  let toTry := ReadFile.toTry fs name basePath
  if toTry.1 = "" then (false, result, fs)
  else
    match ReadFile.check env (fs toTry.1) with
    | some (version, payload) =>
      (true, ReadFile.accept result version payload,
        if toTry.2 ≠ "" then fs.remove toTry.2 else fs)
    | none =>
      if toTry.2 = "" then (false, result, fs)
      else
        match ReadFile.check env (fs toTry.2) with
        | some (version, payload) =>
          (true, ReadFile.accept result version payload, fs.remove toTry.1)
        | none => (false, result, fs)

/-- The function `ReadEncryptedFile` (overload taking a name). -/
def ReadEncryptedFile (env : Env) (result : FileReadDescriptor) (fs : FileSystem)
    (name basePath : String) (key : AuthKey) : Bool × FileReadDescriptor × FileSystem :=
  match ReadFile env result fs name basePath with
  | (false, result, fs) => (false, result, fs)
  | (true, result, fs) =>
    match DecryptLocal env {} (result.readByteArray).1.toList key with
    | (false, _) =>
      (false, { (result.readByteArray).2 with pos := none, data := [], version := 0 }, fs)
    | (true, data) =>
      (true, { (result.readByteArray).2 with data := data.data, pos := data.pos }, fs)

end Storage.details

/-! ## StorageFileLocation -/

/-- The struct `Storage::Cache::Key`. -/
structure Storage.Cache.Key where
  high : Nat := 0
  low : Nat := 0
  deriving DecidableEq, Repr

/-- Modelled from the spec: the class declaration of `StorageFileLocation`
(in `ui/image/image_location.h`) is not among the sources. The fields are the
ones the member functions use, with the widths the serialized form gives them:
a 16-bit dc id, an 8-bit type tag, an 8-bit size letter, a signed 32-bit local
id, three 64-bit ids, two signed 32-bit in-message fields and the file
reference. The default value is the one of the default constructor: all zero,
type `Legacy`, null reference. -/
structure StorageFileLocation where
  _dcId : Nat := 0
  _type : Nat := 0
  _sizeLetter : Nat := 0
  _localId : Int := 0
  _id : Nat := 0
  _accessHash : Nat := 0
  _volumeId : Nat := 0
  _inMessagePeerId : Int := 0
  _inMessageId : Int := 0
  _fileReference : QByteArray := .null
  deriving DecidableEq, Repr

namespace StorageFileLocation

/-- Modelled from the spec: the enumeration `StorageFileLocation::Type` (8-bit)
is declared in the missing header; its enumerators are numbered in the order
in which the spec lists the variants. -/
abbrev Type_ := Nat

namespace Type_
@[match_pattern] def Legacy : Type_ := 0
@[match_pattern] def Encrypted : Type_ := 1
@[match_pattern] def Document : Type_ := 2
@[match_pattern] def Secure : Type_ := 3
@[match_pattern] def Takeout : Type_ := 4
@[match_pattern] def Photo : Type_ := 5
@[match_pattern] def PeerPhoto : Type_ := 6
@[match_pattern] def StickerSetThumb : Type_ := 7
end Type_

def kSerializeTypeShift : Nat := 0x08

def kNonStorageLocationToken : Nat := 0x10

/-- Every field holds a value of its C++ type. -/
def wellTyped (x : StorageFileLocation) : Prop :=
  x._dcId < 2 ^ 16 ∧ x._type < 2 ^ 8 ∧ x._sizeLetter < 2 ^ 8
  ∧ (-(2 ^ 31) ≤ x._localId ∧ x._localId < 2 ^ 31)
  ∧ x._id < 2 ^ 64 ∧ x._accessHash < 2 ^ 64 ∧ x._volumeId < 2 ^ 64
  ∧ (-(2 ^ 31) ≤ x._inMessagePeerId ∧ x._inMessagePeerId < 2 ^ 31)
  ∧ (-(2 ^ 31) ≤ x._inMessageId ∧ x._inMessageId < 2 ^ 31)
  ∧ x._fileReference.size < 2 ^ 31

instance (x : StorageFileLocation) : Decidable x.wellTyped := by
  unfold wellTyped; infer_instance

/-- The method `valid`. -/
def valid (x : StorageFileLocation) : Bool :=
  match x._type with
  | Type_.Legacy => (x._dcId != 0) && (x._volumeId != 0) && (x._localId != 0)
  | Type_.Encrypted | Type_.Secure | Type_.Document => (x._dcId != 0) && (x._id != 0)
  | Type_.Photo => (x._dcId != 0) && (x._id != 0) && (x._sizeLetter != 0)
  | Type_.Takeout => true
  | Type_.PeerPhoto | Type_.StickerSetThumb => (x._dcId != 0) && (x._id != 0)
  | _ => false

/-- The method `serialize`. -/
def serialize (x : StorageFileLocation) : QByteArray :=
  if x.valid then
    .bytes (beBytes 2 x._dcId
      ++ beBytes 1 (kSerializeTypeShift ||| (x._type % 2 ^ 8))
      ++ beBytes 1 x._sizeLetter
      ++ beBytes 4 (toUInt32 x._localId)
      ++ beBytes 8 x._id
      ++ beBytes 8 x._accessHash
      ++ beBytes 8 x._volumeId
      ++ beBytes 4 (toUInt32 x._inMessagePeerId)
      ++ beBytes 4 (toUInt32 x._inMessageId)
      ++ streamBytes x._fileReference)
  else .null

/-- The static method `FromSerialized`. -/
def FromSerialized (serialized : QByteArray) : Option StorageFileLocation :=
  if serialized.isEmpty then some {}
  else
    let stream : ReadStream := { data := serialized.toList, pos := 0 }
    let dcId := (stream.readUInt 2).1
    let stream := (stream.readUInt 2).2
    let type := (stream.readUInt 1).1
    let stream := (stream.readUInt 1).2
    if type = kNonStorageLocationToken then none
    else
      let sizeLetter := (stream.readUInt 1).1
      let stream := (stream.readUInt 1).2
      let localId := toInt32 (stream.readUInt 4).1
      let stream := (stream.readUInt 4).2
      let id := (stream.readUInt 8).1
      let stream := (stream.readUInt 8).2
      let accessHash := (stream.readUInt 8).1
      let stream := (stream.readUInt 8).2
      let volumeId := (stream.readUInt 8).1
      let stream := (stream.readUInt 8).2
      let shifted := type &&& kSerializeTypeShift ≠ 0
      let inMessagePeerId := if shifted then toInt32 (stream.readUInt 4).1 else 0
      let stream' := if shifted then (stream.readUInt 4).2 else stream
      let inMessageId := if shifted then toInt32 (stream'.readUInt 4).1 else 0
      let stream := if shifted then (stream'.readUInt 4).2 else stream
      let type := if shifted then type &&& 0xF7 else type
      let fileReference := (stream.readByteArray).1
      let stream := (stream.readByteArray).2
      let result : StorageFileLocation :=
        { _dcId := dcId, _type := type, _sizeLetter := sizeLetter, _localId := localId,
          _id := id, _accessHash := accessHash, _volumeId := volumeId,
          _inMessagePeerId := inMessagePeerId, _inMessageId := inMessageId,
          _fileReference := fileReference }
      if stream.ok && result.valid then some result else none

/-- The method `cacheKey`, over the function `Data::DocumentCacheKey` of the
dc id and the document id. -/
def cacheKey (DocumentCacheKey : Nat → Nat → Storage.Cache.Key) (x : StorageFileLocation) :
    Storage.Cache.Key :=
  let shifted := ((x._type + 3) <<< 8) % 2 ^ 64
  let sliced := x._dcId &&& 0xFF
  match x._type with
  | Type_.Legacy | Type_.PeerPhoto | Type_.StickerSetThumb =>
    { high := shifted ||| sliced ||| (toUInt32 x._localId <<< 16), low := x._volumeId }
  | Type_.Encrypted | Type_.Secure => { high := shifted ||| sliced, low := x._id }
  | Type_.Document =>
    if x._sizeLetter = 0 then DocumentCacheKey x._dcId x._id
    else { high := shifted ||| sliced ||| (x._sizeLetter <<< 16), low := x._id }
  | Type_.Photo => { high := shifted ||| sliced ||| (x._sizeLetter <<< 16), low := x._id }
  | Type_.Takeout => { high := shifted, low := 0 }
  | _ => {}

/-- The method `fileReference`. -/
def fileReference (x : StorageFileLocation) : QByteArray := x._fileReference

/-- The method `refreshFileReference(const QByteArray &data)`: the returned
flag and the location after the call. -/
def refreshFileReference (x : StorageFileLocation) (data : QByteArray) :
    Bool × StorageFileLocation :=
  if data.isEmpty || x._fileReference.eq data then (false, x)
  else (true, { x with _fileReference := data })

/-- Comparison `<` of two `std::tie` tuples: lexicographic. -/
def tieLt : List Int → List Int → Bool
  | a :: as, b :: bs => decide (a < b) || (!decide (b < a) && tieLt as bs)
  | _, _ => false

/-- The comparison `operator==`. The switch has a case for every type a valid
location can have. -/
def eq (a b : StorageFileLocation) : Bool :=
  let valid := a.valid
  if valid != b.valid then false
  else if !valid then true
  else
    let type := a._type
    if type != b._type then false
    else
      match type with
      | Type_.Legacy =>
        (a._dcId == b._dcId) && (a._volumeId == b._volumeId) && (a._localId == b._localId)
      | Type_.Encrypted | Type_.Secure => (a._dcId == b._dcId) && (a._id == b._id)
      | Type_.Photo | Type_.Document =>
        (a._dcId == b._dcId) && (a._id == b._id) && (a._sizeLetter == b._sizeLetter)
      | Type_.Takeout => true
      | Type_.PeerPhoto =>
        (a._dcId == b._dcId) && (a._volumeId == b._volumeId) && (a._localId == b._localId)
          && (a._id == b._id) && (a._sizeLetter == b._sizeLetter)
      | Type_.StickerSetThumb =>
        (a._dcId == b._dcId) && (a._volumeId == b._volumeId) && (a._localId == b._localId)
          && (a._id == b._id)
      | _ => false

/-- The comparison `operator<`. The switch has a case for every type a valid
location can have. -/
def lt (a b : StorageFileLocation) : Bool :=
  let valid := a.valid
  if valid != b.valid then !valid
  else if !valid then false
  else
    let type := a._type
    if type != b._type then decide (type < b._type)
    else
      match type with
      | Type_.Legacy =>
        tieLt [a._localId, a._volumeId, a._dcId] [b._localId, b._volumeId, b._dcId]
      | Type_.Encrypted | Type_.Secure => tieLt [a._id, a._dcId] [b._id, b._dcId]
      | Type_.Photo | Type_.Document =>
        tieLt [a._id, a._dcId, a._sizeLetter] [b._id, b._dcId, b._sizeLetter]
      | Type_.Takeout => false
      | Type_.PeerPhoto =>
        tieLt [a._id, a._sizeLetter, a._localId, a._volumeId, a._dcId]
          [b._id, b._sizeLetter, b._localId, b._volumeId, b._dcId]
      | Type_.StickerSetThumb =>
        tieLt [a._id, a._localId, a._volumeId, a._dcId]
          [b._id, b._localId, b._volumeId, b._dcId]
      | _ => false

/-- The Photo location of the scenario: id 7, access hash 9, size letter `a`,
in dc 2. -/
def scenarioPhoto : StorageFileLocation :=
  { _dcId := 2, _type := Type_.Photo, _sizeLetter := 97, _id := 7, _accessHash := 9 }

/-- A stand-in for `Data::DocumentCacheKey` in evaluations. -/
def toyDocumentCacheKey (dcId id : Nat) : Storage.Cache.Key :=
  { high := (dcId <<< 8) ||| 1, low := id }

end StorageFileLocation

/-! ## DownloadLocation -/

/-- Modelled from the spec: the class `WebFileLocation` is declared in the
missing header `ui/image/image_location.h`; it carries the url bytes and an
access hash, and is null when the url is empty. -/
structure WebFileLocation where
  _url : QByteArray := .null
  _accessHash : Nat := 0
  deriving DecidableEq, Repr

namespace WebFileLocation

def isNull (x : WebFileLocation) : Bool := x._url.isEmpty

def url (x : WebFileLocation) : QByteArray := x._url

def accessHash (x : WebFileLocation) : Nat := x._accessHash

end WebFileLocation

/-- Modelled from the spec: the struct `GeoPointLocation` of the missing
header. The two coordinates are 64-bit floating point values; the code only
stores and copies them, so each is kept as its 64-bit pattern. The other
fields are a 64-bit access hash and four signed 32-bit integers. -/
structure GeoPointLocation where
  lat : Nat := 0
  lon : Nat := 0
  access : Nat := 0
  width : Int := 0
  height : Int := 0
  zoom : Int := 0
  scale : Int := 0
  deriving DecidableEq, Repr

/-- Modelled from the spec: the struct `PlainUrlLocation` of the missing
header, holding the url as a `QString`. -/
structure PlainUrlLocation where
  url : String := ""
  deriving DecidableEq, Repr

/-- Modelled from the spec: the struct `InMemoryLocation` of the missing
header, holding the bytes. -/
structure InMemoryLocation where
  bytes : QByteArray := .null
  deriving DecidableEq, Repr

/-- The conversions between `QString` and UTF-8 bytes, `QString::toUtf8` and
`base::FromUtf8Safe`, which live outside the embedded files. -/
structure Utf8Codec where
  toUtf8 : String → QByteArray
  FromUtf8Safe : QByteArray → String

/-- Modelled from the spec: the variant held by a `DownloadLocation`, declared
in the missing header, with its five alternatives. -/
inductive DownloadLocation.Variant where
  | storage (data : StorageFileLocation)
  | web (data : WebFileLocation)
  | geo (data : GeoPointLocation)
  | plainUrl (data : PlainUrlLocation)
  | inMemory (data : InMemoryLocation)
  deriving DecidableEq, Repr

/-- The class `DownloadLocation`. -/
structure DownloadLocation where
  data : DownloadLocation.Variant := .storage {}
  deriving DecidableEq, Repr

namespace DownloadLocation

/-- The enumeration `NonStorageLocationType`. -/
abbrev NonStorageLocationType := Nat

namespace NonStorageLocationType
@[match_pattern] def Web : NonStorageLocationType := 0
@[match_pattern] def Geo : NonStorageLocationType := 1
@[match_pattern] def Url : NonStorageLocationType := 2
@[match_pattern] def Memory : NonStorageLocationType := 3
end NonStorageLocationType

/-- The test `v::is<StorageFileLocation>(data)`. -/
def isStorage (x : DownloadLocation) : Bool :=
  match x.data with
  | .storage _ => true
  | _ => false

/-- The method `valid`. -/
def valid (x : DownloadLocation) : Bool :=
  match x.data with
  | .geo _ => true
  | .storage data => data.valid
  | .web data => !data.isNull
  | .plainUrl data => !data.url.isEmpty
  | .inMemory data => !data.bytes.isEmpty

/-- The method `serialize`. The result is none where the source reads the
variant as an alternative it does not hold (`v::get` on another alternative)
or reaches `Unexpected`. -/
def serialize (codec : Utf8Codec) (x : DownloadLocation) : Option QByteArray :=
  if !x.valid || x.isStorage then
    match x.data with
    | .storage data => some data.serialize
    | _ => none
  else
    let header := beBytes 2 0 ++ beBytes 1 StorageFileLocation.kNonStorageLocationToken
    match x.data with
    | .storage _ => none
    | .web data =>
      some (.bytes (header ++ beBytes 1 NonStorageLocationType.Web
        ++ streamBytes data.url ++ beBytes 8 data.accessHash))
    | .geo data =>
      some (.bytes (header ++ beBytes 1 NonStorageLocationType.Geo
        ++ beBytes 8 data.lat ++ beBytes 8 data.lon ++ beBytes 8 data.access
        ++ beBytes 4 (toUInt32 data.width) ++ beBytes 4 (toUInt32 data.height)
        ++ beBytes 4 (toUInt32 data.zoom) ++ beBytes 4 (toUInt32 data.scale)))
    | .plainUrl data =>
      some (.bytes (header ++ beBytes 1 NonStorageLocationType.Url
        ++ streamBytes (codec.toUtf8 data.url)))
    | .inMemory data =>
      some (.bytes (header ++ beBytes 1 NonStorageLocationType.Memory
        ++ streamBytes data.bytes))

namespace FromSerialized

/-- The case `NonStorageLocationType::Web` of the switch of `FromSerialized`. -/
def web (stream : ReadStream) : Option DownloadLocation :=
  let url := (stream.readByteArray).1
  let stream := (stream.readByteArray).2
  let accessHash := (stream.readUInt 8).1
  let stream := (stream.readUInt 8).2
  if stream.ok then some { data := .web { _url := url, _accessHash := accessHash } }
  else none

/-- The case `NonStorageLocationType::Geo` of the switch of `FromSerialized`. -/
def geo (stream : ReadStream) : Option DownloadLocation :=
  let lat := (stream.readUInt 8).1
  let stream := (stream.readUInt 8).2
  let lon := (stream.readUInt 8).1
  let stream := (stream.readUInt 8).2
  let access := (stream.readUInt 8).1
  let stream := (stream.readUInt 8).2
  let width := toInt32 (stream.readUInt 4).1
  let stream := (stream.readUInt 4).2
  let height := toInt32 (stream.readUInt 4).1
  let stream := (stream.readUInt 4).2
  let zoom := toInt32 (stream.readUInt 4).1
  let stream := (stream.readUInt 4).2
  let scale := toInt32 (stream.readUInt 4).1
  let stream := (stream.readUInt 4).2
  if stream.ok then
    some { data := .geo { lat := lat, lon := lon, access := access, width := width,
                          height := height, zoom := zoom, scale := scale } }
  else none

/-- The case `NonStorageLocationType::Url` of the switch of `FromSerialized`. -/
def plainUrl (codec : Utf8Codec) (stream : ReadStream) : Option DownloadLocation :=
  let utf := (stream.readByteArray).1
  let stream := (stream.readByteArray).2
  let url := codec.FromUtf8Safe utf
  if stream.ok then some { data := .plainUrl { url := url } } else none

/-- The case `NonStorageLocationType::Memory` of the switch of
`FromSerialized`. -/
def inMemory (stream : ReadStream) : Option DownloadLocation :=
  let bytes := (stream.readByteArray).1
  let stream := (stream.readByteArray).2
  if stream.ok then some { data := .inMemory { bytes := bytes } } else none

/-- The switch of `FromSerialized` over the type tag read after the token,
with the stream positioned after the tag. -/
def tagged (codec : Utf8Codec) (type : Nat) (stream : ReadStream) :
    Option DownloadLocation :=
  match type with
  | NonStorageLocationType.Web => web stream
  | NonStorageLocationType.Geo => geo stream
  | NonStorageLocationType.Url => plainUrl codec stream
  | NonStorageLocationType.Memory => inMemory stream
  | _ => none

end FromSerialized

/-- The static method `FromSerialized`. -/
def FromSerialized (codec : Utf8Codec) (serialized : QByteArray) : Option DownloadLocation :=
  let stream : ReadStream := { data := serialized.toList, pos := 0 }
  let dcId := (stream.readUInt 2).1
  let stream := (stream.readUInt 2).2
  let token := (stream.readUInt 1).1
  let stream := (stream.readUInt 1).2
  if dcId ≠ 0 ∨ token ≠ StorageFileLocation.kNonStorageLocationToken then
    match StorageFileLocation.FromSerialized serialized with
    | some storage => some { data := .storage storage }
    | none => none
  else FromSerialized.tagged codec (stream.readUInt 1).1 (stream.readUInt 1).2

/-- Every field of the alternative held is a value of its C++ type, and the
byte arrays written have a size a `QByteArray` can have. -/
def wellTyped (codec : Utf8Codec) (x : DownloadLocation) : Prop :=
  match x.data with
  | .storage data => data.wellTyped
  | .web data => data._url.size < 2 ^ 31 ∧ data._accessHash < 2 ^ 64
  | .geo data =>
    data.lat < 2 ^ 64 ∧ data.lon < 2 ^ 64 ∧ data.access < 2 ^ 64
    ∧ (-(2 ^ 31) ≤ data.width ∧ data.width < 2 ^ 31)
    ∧ (-(2 ^ 31) ≤ data.height ∧ data.height < 2 ^ 31)
    ∧ (-(2 ^ 31) ≤ data.zoom ∧ data.zoom < 2 ^ 31)
    ∧ (-(2 ^ 31) ≤ data.scale ∧ data.scale < 2 ^ 31)
  | .plainUrl data => (codec.toUtf8 data.url).size < 2 ^ 31
  | .inMemory data => data.bytes.size < 2 ^ 31

/-- A codec for evaluations, exact on strings of characters below 256: one
byte per character. -/
def toyCodec : Utf8Codec where
  toUtf8 := fun s => if s.isEmpty then .null else .bytes (s.data.map fun c => byteOfNat c.toNat)
  FromUtf8Safe := fun b => String.mk (b.toList.map fun c => Char.ofNat c.val)

/-- A Web location for evaluations. -/
def scenarioWeb : DownloadLocation :=
  { data := .web { _url := .bytes [104, 116, 116, 112], _accessHash := 77 } }

/-- A Geo location for evaluations; the coordinates are the patterns of the
doubles 1.5 and -2.0. -/
def scenarioGeo : DownloadLocation :=
  { data := .geo { lat := 0x3FF8000000000000, lon := 0xC000000000000000, access := 5,
                   width := 640, height := 480, zoom := 13, scale := -1 } }

/-- A Url location for evaluations. -/
def scenarioUrl : DownloadLocation := { data := .plainUrl { url := "t.me/x" } }

/-- An InMemory location for evaluations. -/
def scenarioMemory : DownloadLocation := { data := .inMemory { bytes := .bytes [1, 2, 3] } }

end DownloadLocation

namespace Storage.details

/-! ## Concrete inputs used in evaluations -/

/-- The bytes of the word `alpha`. -/
def alpha : List Byte := [97, 108, 112, 104, 97]

/-- The fields of the scenario: `alpha`, the empty string, a null blob. -/
def scenarioFields : List QByteArray := [.bytes alpha, .bytes [], .null]

/-- An environment answer in which every step of `finish` succeeds. -/
def allSucceed : FileWriteDescriptor.Outcome :=
  { saveOpens := true, saveCommits := true, plainOpens := true, renames := true }

/-- The record `finish` writes for the scenario fields. -/
def scenarioRecord : List Byte :=
  FileWriteDescriptor.record toyEnv
    (scenarioFields.foldl (FileWriteDescriptor.writeData toyEnv)
      (FileWriteDescriptor.create "0123456789ABCDEF" "/tdata/"))

/-- The file system after the scenario fields were written and committed to
the `s` file. -/
def scenarioFs : FileSystem :=
  (FileWriteDescriptor.finish toyEnv
    (scenarioFields.foldl (FileWriteDescriptor.writeData toyEnv)
      (FileWriteDescriptor.create "0123456789ABCDEF" "/tdata/"))
    allSucceed 5 FileSystem.empty).2

/-- A file system holding a valid `0` copy of the scenario record next to an
`s` copy in which byte 12 (inside the payload) was changed. -/
def flippedSafeFs : FileSystem :=
  (FileSystem.empty.write "/tdata/0123456789ABCDEF0"
      { content := scenarioRecord, lastModified := 5 }).write "/tdata/0123456789ABCDEFs"
    { content := scenarioRecord.set 12 (scenarioRecord.getD 12 0 + 1), lastModified := 6 }

/-- A file system holding a valid `1` copy of the scenario record next to an
`s` copy cut after 20 bytes. -/
def truncatedSafeFs : FileSystem :=
  (FileSystem.empty.write "/tdata/0123456789ABCDEF1"
      { content := scenarioRecord, lastModified := 5 }).write "/tdata/0123456789ABCDEFs"
    { content := scenarioRecord.take 20, lastModified := 6 }

/-- A file system holding a valid `1` copy of the scenario record next to a
newer `0` copy in which byte 12 was changed, and no `s` copy. -/
def flippedSimpleFs : FileSystem :=
  (FileSystem.empty.write "/tdata/0123456789ABCDEF1"
      { content := scenarioRecord, lastModified := 5 }).write "/tdata/0123456789ABCDEF0"
    { content := scenarioRecord.set 12 (scenarioRecord.getD 12 0 + 1), lastModified := 6 }

/-- The file system after a record whose only field is the encryption, under
the key `9`, of a sized descriptor holding `1, 2, 3` was committed. -/
def encryptedFs : FileSystem :=
  (FileWriteDescriptor.finish toyEnv
    (FileWriteDescriptor.writeData toyEnv
      (FileWriteDescriptor.create "0123456789ABCDEF" "/tdata/")
      (.bytes (PrepareEncrypted toyEnv ((EncryptedDescriptor.sized 3).write [1, 2, 3]) [9]).1))
    allSucceed 5 FileSystem.empty).2

/-- A 32-byte plaintext whose size field says 8: size field, then 28 bytes. -/
def shortSizePlain : List Byte := toyEnv.nativeBytes 4 8 ++ List.replicate 28 5

/-- The bytes `hash prefix ++ cipher text` of a plaintext under the key `9`
of the evaluation environment. -/
def toyEncrypted (plain : List Byte) : List Byte :=
  (toyEnv.hashSha1 plain).take 16
    ++ toyEnv.aesEncryptLocal plain [9] ((toyEnv.hashSha1 plain).take 16)

/-- A 32-byte plaintext whose size field says 20: size field, 16 payload
bytes, 12 padding bytes. -/
def goodSizePlain : List Byte :=
  toyEnv.nativeBytes 4 20 ++ List.replicate 16 7 ++ List.replicate 12 5

end Storage.details

namespace Storage.details

/-! ## File keys -/

namespace ToFilePart

/-- The character `ToFilePart` pushes for the nibble `v`:
`(v < 0x0A) ? ('0' + v) : ('A' + (v - 0x0A))`. -/
def digit (v : Nat) : Char :=
  if v < 0x0A then Char.ofNat (48 + v) else Char.ofNat (65 + (v - 0x0A))

/-- The loop of `ToFilePart` with `n` iterations left. -/
def loop : Nat → Nat → String → String
  | 0, _, result => result
  | n + 1, val, result => loop n (val >>> 4) (result.push (digit (val &&& 0x0F)))

end ToFilePart

/-- The function `ToFilePart` on a `FileKey` (a 64-bit unsigned integer). -/
def ToFilePart (val : Nat) : String := ToFilePart.loop 0x10 val ""

/-- The function `KeyAlreadyUsed`. The source appends the postfix `0` to
`name` and then overwrites that last character with `1` and with `s`; the
three paths probed are `name` followed by each postfix. -/
def KeyAlreadyUsed (fs : FileSystem) (name : String) : Bool :=
  if (fs (name.push '0')).isSome then true
  else if (fs (name.push '1')).isSome then true
  else if (fs (name.push 's')).isSome then true
  else false

/-- The function `GenerateKey`: `rand i` is the `i`-th value `rand_value`
returns, `fuel` bounds the number of iterations of the loop, which the source
leaves unbounded; the result is none when the bound is reached. -/
def GenerateKey (rand : Nat → Nat) (fs : FileSystem) (basePath : String) :
    Nat → Nat → Option Nat
  | 0, _ => none
  | fuel + 1, i =>
    let result := rand i % 2 ^ 64
    let path := basePath ++ ToFilePart result
    if result = 0 ∨ KeyAlreadyUsed fs path = true then
      GenerateKey rand fs basePath fuel (i + 1)
    else some result

/-! ## Key derivation -/

/-- Modelled from the spec: the hashing helpers of `base/openssl_help.h`, the
OpenSSL function `PKCS5_PBKDF2_HMAC` with digest `EVP_sha512` and the size of
`MTP::AuthKey::Data` are not among the sources. `Sha512` hashes the
concatenation of its arguments; `PKCS5_PBKDF2_HMAC_sha512 pass salt iter
keylen` is PBKDF2-HMAC-SHA512. -/
structure Openssl where
  Sha512 : List Byte → List Byte
  PKCS5_PBKDF2_HMAC_sha512 : List Byte → List Byte → Nat → Nat → List Byte
  keySize : Nat

def kStrongIterationsCount : Nat := 100000

/-- The local `iterationsCount` of `CreateLocalKey`. -/
def CreateLocalKey.iterationsCount (passcode : QByteArray) : Nat :=
  if passcode.isEmpty then 1 else kStrongIterationsCount

/-- The function `CreateLocalKey`. -/
def CreateLocalKey (lib : Openssl) (passcode salt : QByteArray) : AuthKey :=
  let s := salt.toList
  let hash := lib.Sha512 (s ++ passcode.toList ++ s)
  lib.PKCS5_PBKDF2_HMAC_sha512 hash s (CreateLocalKey.iterationsCount passcode) lib.keySize

/-! ## The order of read attempts in the words of the specification -/

/-- The candidates of a read as the specification words them: the `s` file
alone when it exists; otherwise the more recently modified of `0` and `1`
first (`0` when the times are equal) and the other second; otherwise the one
of `0` and `1` that exists. -/
def ReadFile.candidateOrder (fs : FileSystem) (name basePath : String) : List String :=
  match fs ((basePath ++ name).push 's'), fs ((basePath ++ name).push '0'),
      fs ((basePath ++ name).push '1') with
  | some _, _, _ => [(basePath ++ name).push 's']
  | none, some f0, some f1 =>
    if f1.lastModified > f0.lastModified then
      [(basePath ++ name).push '1', (basePath ++ name).push '0']
    else [(basePath ++ name).push '0', (basePath ++ name).push '1']
  | none, some _, none => [(basePath ++ name).push '0']
  | none, none, some _ => [(basePath ++ name).push '1']
  | none, none, none => []

/-- The outcome of a read in the words of the specification: the version and
payload of the first candidate, in the given order, that passes validation. -/
def ReadFile.firstValid (env : Env) (fs : FileSystem) : List String → Option (Int × List Byte)
  | [] => none
  | path :: rest =>
    match ReadFile.check env (fs path) with
    | some r => some r
    | none => ReadFile.firstValid env fs rest

/-- A stand-in for the OpenSSL functions in evaluations: checksums, a key of
256 bytes. -/
def toyOpenssl : Openssl where
  Sha512 := toyDigest 64
  PKCS5_PBKDF2_HMAC_sha512 := fun pass salt iter keylen =>
    toyDigest keylen (pass ++ salt ++ beBytes 4 iter)
  keySize := 256

/-- The hexadecimal digits in the words of the specification: `0` to `9`,
then uppercase `A` to `F`. -/
def hexDigits : List Char :=
  ['0', '1', '2', '3', '4', '5', '6', '7', '8', '9', 'A', 'B', 'C', 'D', 'E', 'F']

/-! ## More concrete inputs -/

/-- A sequence of random values: zero, then the key 255 twice, then 4096. -/
def scenarioRand : Nat → Nat
  | 0 => 0
  | 1 => 255
  | 2 => 255
  | _ => 4096

/-- A file system in which the key 255 is taken: its `1` file exists. -/
def takenFs : FileSystem :=
  FileSystem.empty.write "/tdata/FF000000000000001" { content := [], lastModified := 1 }

/-- An environment answer in which the safe write fails, the plain write
succeeds and the rename fails. -/
def degraded : FileWriteDescriptor.Outcome :=
  { saveOpens := true, saveCommits := false, plainOpens := true, renames := false }

/-- Answers under which every removal takes effect and the whole record
reaches the plain file. -/
def allEffective : FileWriteDescriptor.Effects :=
  { removesSimple := true, removesBackup := true, removesSafe := true, plainWritten := 4096 }

/-- Answers under which the `s` file cannot be removed; everything else takes
effect. -/
def safeStuck : FileWriteDescriptor.Effects :=
  { removesSimple := true, removesBackup := true, removesSafe := false, plainWritten := 4096 }

/-- A file system holding an older record under the `s` name and a stale
`1` file. -/
def staleFs : FileSystem :=
  (FileSystem.empty.write "/tdata/0123456789ABCDEFs"
      { content := FileWriteDescriptor.record toyEnv
          (FileWriteDescriptor.writeData toyEnv
            (FileWriteDescriptor.create "0123456789ABCDEF" "/tdata/") (.bytes [1])),
        lastModified := 2 }).write "/tdata/0123456789ABCDEF1"
    { content := [], lastModified := 1 }

end Storage.details

/-! ## Sizes, big-file cache keys, image locations -/

/-- Modelled from the spec: the helper `Serialize::bytearraySize` of
`storage/serialize_common.h` is not among the sources; the size it declares
for a byte array is the 4 bytes of the length word plus the length of the
array, a null array counting as length 0. -/
def Serialize.bytearraySize (arr : QByteArray) : Nat := 4 + arr.size

namespace StorageFileLocation

def kDocumentBaseCacheTag : Nat := 0x0000000000010000

def kDocumentBaseCacheMask : Nat := 0x000000000000FF00

def kPhotoBaseCacheTag : Nat := 0x0000000000020000

def kPhotoBaseCacheMask : Nat := 0x000000000000FF00

/-- The method `serializeSize`. -/
def serializeSize (x : StorageFileLocation) : Nat :=
  if x.valid then 8 * 5 + Serialize.bytearraySize x._fileReference else 0

/-- The postcondition `Ensures((low & 0xFFULL) == 0)`: the key is returned
only when the assertion holds. -/
def ensuresLow (key : Storage.Cache.Key) : Option Storage.Cache.Key :=
  if key.low &&& 0xFF = 0 then some key else none

/-- The method `bigFileBaseCacheKey`; none where the source reaches
`Unexpected` or an assertion fails. -/
def bigFileBaseCacheKey (x : StorageFileLocation) : Option Storage.Cache.Key :=
  match x._type with
  | Type_.Document =>
    ensuresLow
      { high := kDocumentBaseCacheTag
          ||| (((x._dcId <<< 16) % 2 ^ 64) &&& kDocumentBaseCacheMask)
          ||| (x._id >>> 48),
        low := (x._id <<< 16) % 2 ^ 64 }
  | Type_.StickerSetThumb =>
    ensuresLow
      { high := ((toUInt32 x._localId <<< 24) % 2 ^ 64)
          ||| (((x._type + 1) <<< 16) % 2 ^ 64)
          ||| (((x._dcId &&& 0xFF) <<< 8) % 2 ^ 64)
          ||| (x._volumeId >>> 56),
        low := (x._volumeId <<< 8) % 2 ^ 64 }
  | Type_.Photo =>
    ensuresLow
      { high := kPhotoBaseCacheTag
          ||| (((x._dcId <<< 16) % 2 ^ 64) &&& kPhotoBaseCacheMask)
          ||| (x._id >>> 48),
        low := (x._id <<< 16) % 2 ^ 64 }
  | _ => none

end StorageFileLocation

/-- Modelled from the spec: the class `StorageImageLocation` is declared in
the missing header; it holds a file location and a width and a height, both
of type `int`. -/
structure StorageImageLocation where
  _file : StorageFileLocation := {}
  _width : Int := 0
  _height : Int := 0
  deriving DecidableEq, Repr

namespace StorageImageLocation

/-- The method `serialize`. -/
def serialize (x : StorageImageLocation) : QByteArray :=
  let result := x._file.serialize
  if !result.isEmpty || decide (x._width > 0) || decide (x._height > 0) then
    .bytes (result.toList ++ beBytes 4 (toUInt32 x._width) ++ beBytes 4 (toUInt32 x._height))
  else result

/-- The method `serializeSize`. -/
def serializeSize (x : StorageImageLocation) : Nat :=
  let partial_ := x._file.serializeSize
  if decide (partial_ > 0) || decide (x._width > 0) || decide (x._height > 0) then
    partial_ + 2 * 4
  else 0

/-- The static method `FromSerialized`. -/
def FromSerialized (serialized : QByteArray) : Option StorageImageLocation :=
  match StorageFileLocation.FromSerialized serialized with
  | some file =>
    let my := 2 * 4
    let full := serialized.size
    if full = 0 then some { _file := file, _width := 0, _height := 0 }
    else if full ≥ my then
      let stream : ReadStream := { data := serialized.toList.drop (full - my), pos := 0 }
      let width := toInt32 (stream.readUInt 4).1
      let stream := (stream.readUInt 4).2
      let height := toInt32 (stream.readUInt 4).1
      let stream := (stream.readUInt 4).2
      if stream.ok then some { _file := file, _width := width, _height := height }
      else none
    else none
  | none => none

/-- An image location without a file but with dimensions 5 by 7. -/
def dimensionsOnly : StorageImageLocation := { _file := {}, _width := 5, _height := 7 }

/-- The scenario Photo location with dimensions 640 by 480. -/
def scenarioImage : StorageImageLocation :=
  { _file := StorageFileLocation.scenarioPhoto, _width := 640, _height := 480 }

end StorageImageLocation

namespace DownloadLocation

/-- The method `serializeSize`. The result is none where the source reads the
variant as an alternative it does not hold or reaches `Unexpected`. -/
def serializeSize (codec : Utf8Codec) (x : DownloadLocation) : Option Nat :=
  if !x.valid || x.isStorage then
    match x.data with
    | .storage data => some data.serializeSize
    | _ => none
  else
    let result := 2 + 1 + 1
    match x.data with
    | .storage _ => none
    | .web data => some (result + (Serialize.bytearraySize data.url + 8))
    | .geo _ => some (result + (2 * 8 + 8 + 4 * 4))
    | .plainUrl data => some (result + Serialize.bytearraySize (codec.toUtf8 data.url))
    | .inMemory data => some (result + Serialize.bytearraySize data.bytes)

/-- A null web location, a url location with an empty url and an in-memory
location without bytes. -/
def nullWeb : DownloadLocation := { data := .web {} }

def emptyUrl : DownloadLocation := { data := .plainUrl {} }

def emptyMemory : DownloadLocation := { data := .inMemory {} }

end DownloadLocation

namespace StorageFileLocation

/-- The validity of a location in the words of the specification: Legacy
needs a nonzero dc id, volume id and local id; Photo a nonzero dc id, id and
size letter; Encrypted, Secure, Document, PeerPhoto and StickerSetThumb a
nonzero dc id and id; Takeout nothing; any other type tag is never valid. -/
def validInWords (x : StorageFileLocation) : Prop :=
  (x._type = Type_.Legacy ∧ x._dcId ≠ 0 ∧ x._volumeId ≠ 0 ∧ x._localId ≠ 0)
  ∨ (x._type = Type_.Photo ∧ x._dcId ≠ 0 ∧ x._id ≠ 0 ∧ x._sizeLetter ≠ 0)
  ∨ ((x._type = Type_.Encrypted ∨ x._type = Type_.Secure ∨ x._type = Type_.Document
      ∨ x._type = Type_.PeerPhoto ∨ x._type = Type_.StickerSetThumb)
    ∧ x._dcId ≠ 0 ∧ x._id ≠ 0)
  ∨ x._type = Type_.Takeout

end StorageFileLocation

/-! ## The protocol form of a location -/

/-- Modelled from the spec: the type `MTPInputPeer` is generated from the API
scheme, which is not among the sources. The constructors and their fields are
the ones `GenerateInputPeer` and the constructor of `StorageFileLocation` use;
an `MTPint` holds a signed 32-bit value and an `MTPlong` a 64-bit value. -/
inductive MTPInputPeer where
  | inputPeerEmpty
  | inputPeerSelf
  | inputPeerChat (chat_id : Int)
  | inputPeerUser (user_id : Int) (access_hash : Nat)
  | inputPeerChannel (channel_id : Int) (access_hash : Nat)
  | inputPeerUserFromMessage (peer : MTPInputPeer) (msg_id : Int) (user_id : Int)
  | inputPeerChannelFromMessage (peer : MTPInputPeer) (msg_id : Int) (channel_id : Int)
  deriving DecidableEq, Repr

/-- Modelled from the spec: the generated type `MTPInputStickerSet`, with the
constructors the constructor of `StorageFileLocation` matches on. -/
inductive MTPInputStickerSet where
  | inputStickerSetEmpty
  | inputStickerSetID (id : Nat) (access_hash : Nat)
  | inputStickerSetShortName (short_name : QByteArray)
  | inputStickerSetAnimatedEmoji
  | inputStickerSetDice (emoticon : QByteArray)
  deriving DecidableEq, Repr

/-- Modelled from the spec: the generated type `MTPInputFileLocation`, with the
constructors and fields `StorageFileLocation::tl` builds and the constructor
of `StorageFileLocation` reads. The flags of `inputPeerPhotoFileLocation` hold
the one flag `big`; a string is its bytes. -/
inductive MTPInputFileLocation where
  | inputFileLocation (volume_id : Nat) (local_id : Int) (secret : Nat)
      (file_reference : QByteArray)
  | inputEncryptedFileLocation (id : Nat) (access_hash : Nat)
  | inputDocumentFileLocation (id : Nat) (access_hash : Nat) (file_reference : QByteArray)
      (thumb_size : QByteArray)
  | inputSecureFileLocation (id : Nat) (access_hash : Nat)
  | inputTakeoutFileLocation
  | inputPhotoFileLocation (id : Nat) (access_hash : Nat) (file_reference : QByteArray)
      (thumb_size : QByteArray)
  | inputPhotoLegacyFileLocation (id : Nat) (access_hash : Nat) (file_reference : QByteArray)
      (volume_id : Nat) (local_id : Int) (secret : Nat)
  | inputPeerPhotoFileLocation (big : Bool) (peer : MTPInputPeer) (volume_id : Nat)
      (local_id : Int)
  | inputStickerSetThumb (stickerset : MTPInputStickerSet) (volume_id : Nat) (local_id : Int)
  deriving DecidableEq, Repr

def PeerIdMask : Nat := 0xFFFFFFFF
def PeerIdTypeMask : Nat := 0xF00000000
def PeerIdUserShift : Nat := 0x000000000
def PeerIdChatShift : Nat := 0x100000000
def PeerIdChannelShift : Nat := 0x200000000

def peerIsUser (id : Nat) : Bool := id &&& PeerIdTypeMask == PeerIdUserShift

def peerIsChat (id : Nat) : Bool := id &&& PeerIdTypeMask == PeerIdChatShift

def peerIsChannel (id : Nat) : Bool := id &&& PeerIdTypeMask == PeerIdChannelShift

def peerFromUser (user_id : Int) : Nat := PeerIdUserShift ||| toUInt32 user_id

def peerFromChat (chat_id : Int) : Nat := PeerIdChatShift ||| toUInt32 chat_id

def peerFromChannel (channel_id : Int) : Nat := PeerIdChannelShift ||| toUInt32 channel_id

def peerToBareInt (id : Nat) : Int := toInt32 (id &&& PeerIdMask)

def peerToBareMTPInt (id : Nat) : Int := peerToBareInt id

/-- The branches of `GenerateInputPeer` that do not call it again: the ones a
call with `inMessagePeerId = 0` and `inMessageId = 0` reaches. -/
def GenerateInputPeer.plain_ (id accessHash : Nat) (self : Int) : MTPInputPeer :=
  if id = 0 then .inputPeerEmpty
  else if id = peerFromUser self then .inputPeerSelf
  else if peerIsUser id then .inputPeerUser (peerToBareMTPInt id) accessHash
  else if peerIsChat id then .inputPeerChat (peerToBareMTPInt id)
  else if peerIsChannel id then .inputPeerChannel (peerToBareMTPInt id) accessHash
  else .inputPeerEmpty

/-- The function `GenerateInputPeer`. Its two calls of itself pass 0 for both
in-message arguments, so that they reach the branches without a further call.
The negation of the 32-bit `inMessagePeerId` wraps. -/
def GenerateInputPeer (id accessHash : Nat) (inMessagePeerId inMessageId self : Int) :
    MTPInputPeer :=
  if inMessagePeerId > 0 ∧ inMessageId ≠ 0 then
    .inputPeerUserFromMessage (GenerateInputPeer.plain_ id accessHash self)
      inMessageId inMessagePeerId
  else if inMessagePeerId < 0 ∧ inMessageId ≠ 0 then
    .inputPeerChannelFromMessage (GenerateInputPeer.plain_ id accessHash self)
      inMessageId (toInt32 (toUInt32 (-inMessagePeerId)))
  else GenerateInputPeer.plain_ id accessHash self

namespace StorageFileLocation

/-- The overload set `fillPeer` of the constructor: the five constructors of
`MTPInputPeer` it handles; none for the two it does not. -/
def fillPeer (self : Int) (r : StorageFileLocation) : MTPInputPeer → Option StorageFileLocation
  | .inputPeerEmpty => some { r with _id := 0 }
  | .inputPeerSelf => some { r with _id := peerFromUser self }
  | .inputPeerChat chat_id => some { r with _id := peerFromChat chat_id }
  | .inputPeerUser user_id access_hash =>
    some { r with _id := peerFromUser user_id, _accessHash := access_hash }
  | .inputPeerChannel channel_id access_hash =>
    some { r with _id := peerFromChannel channel_id, _accessHash := access_hash }
  | _ => none

/-- The match on the peer inside a from-message peer: `fillPeer`, and zero id
and access hash for anything else ("Bad data provided"). -/
def fillInner (self : Int) (r : StorageFileLocation) (peer : MTPInputPeer) :
    StorageFileLocation :=
  match fillPeer self r peer with
  | some r => r
  | none => { r with _id := 0, _accessHash := 0 }

/-- The match on the peer of an `inputPeerPhotoFileLocation`. -/
def fillOuter (self : Int) (r : StorageFileLocation) (peer : MTPInputPeer) :
    StorageFileLocation :=
  match peer with
  | .inputPeerUserFromMessage peer msg_id user_id =>
    { fillInner self r peer with _inMessagePeerId := user_id, _inMessageId := msg_id }
  | .inputPeerChannelFromMessage peer msg_id channel_id =>
    { fillInner self r peer with
      _inMessagePeerId := toInt32 (toUInt32 (-channel_id)), _inMessageId := msg_id }
  | peer => fillInner self r peer

/-- The first byte of a string as a size letter, 0 for the empty string. -/
def thumbLetter (thumb_size : QByteArray) : Nat :=
  match thumb_size.toList with
  | [] => 0
  | b :: _ => b.val

/-- The constructor `StorageFileLocation(dcId, self, tl)`; none where it
reaches `Unexpected`. The 32-bit `dcId` is stored in the 16-bit field. -/
def fromTl (dcId self : Int) (tl : MTPInputFileLocation) : Option StorageFileLocation :=
  let d := toUInt32 dcId % 2 ^ 16
  match tl with
  | .inputFileLocation volume_id local_id secret file_reference =>
    some { _dcId := d, _type := Type_.Legacy, _volumeId := volume_id, _localId := local_id,
           _accessHash := secret, _fileReference := file_reference }
  | .inputEncryptedFileLocation id access_hash =>
    some { _dcId := d, _type := Type_.Encrypted, _id := id, _accessHash := access_hash }
  | .inputDocumentFileLocation id access_hash file_reference thumb_size =>
    some { _dcId := d, _type := Type_.Document, _id := id, _accessHash := access_hash,
           _fileReference := file_reference, _sizeLetter := thumbLetter thumb_size }
  | .inputSecureFileLocation id access_hash =>
    some { _dcId := d, _type := Type_.Secure, _id := id, _accessHash := access_hash }
  | .inputTakeoutFileLocation => some { _dcId := d, _type := Type_.Takeout }
  | .inputPhotoFileLocation id access_hash file_reference thumb_size =>
    some { _dcId := d, _type := Type_.Photo, _id := id, _accessHash := access_hash,
           _fileReference := file_reference, _sizeLetter := thumbLetter thumb_size }
  | .inputPhotoLegacyFileLocation _ _ file_reference volume_id local_id secret =>
    some { _dcId := d, _type := Type_.Legacy, _volumeId := volume_id, _localId := local_id,
           _accessHash := secret, _fileReference := file_reference }
  | .inputPeerPhotoFileLocation big peer volume_id local_id =>
    some { fillOuter self { _dcId := d, _type := Type_.PeerPhoto } peer with
           _volumeId := volume_id, _localId := local_id,
           _sizeLetter := if big then 99 else 97 }
  | .inputStickerSetThumb stickerset volume_id local_id =>
    match stickerset with
    | .inputStickerSetEmpty =>
      some { _dcId := d, _type := Type_.StickerSetThumb, _id := 0, _volumeId := volume_id,
             _localId := local_id }
    | .inputStickerSetID id access_hash =>
      some { _dcId := d, _type := Type_.StickerSetThumb, _id := id,
             _accessHash := access_hash, _volumeId := volume_id, _localId := local_id }
    | _ => none

/-- The method `dcId`. -/
def dcId (x : StorageFileLocation) : Int := x._dcId

/-- The method `tl`; none where it reaches `Unexpected`. -/
def tl (x : StorageFileLocation) (self : Int) : Option MTPInputFileLocation :=
  match x._type with
  | Type_.Legacy =>
    some (.inputFileLocation x._volumeId x._localId x._accessHash x._fileReference)
  | Type_.Encrypted => some (.inputSecureFileLocation x._id x._accessHash)
  | Type_.Document =>
    some (.inputDocumentFileLocation x._id x._accessHash x._fileReference
      (if x._sizeLetter ≠ 0 then .bytes [byteOfNat x._sizeLetter] else .bytes []))
  | Type_.Secure => some (.inputSecureFileLocation x._id x._accessHash)
  | Type_.Takeout => some .inputTakeoutFileLocation
  | Type_.Photo =>
    some (.inputPhotoFileLocation x._id x._accessHash x._fileReference
      (.bytes [byteOfNat x._sizeLetter]))
  | Type_.PeerPhoto =>
    some (.inputPeerPhotoFileLocation (x._sizeLetter == 99)
      (GenerateInputPeer x._id x._accessHash x._inMessagePeerId x._inMessageId self)
      x._volumeId x._localId)
  | Type_.StickerSetThumb =>
    some (.inputStickerSetThumb (.inputStickerSetID x._id x._accessHash) x._volumeId
      x._localId)
  | _ => none

/-- A PeerPhoto location with the size letter `b`: user 5 in dc 2. -/
def peerPhotoB : StorageFileLocation :=
  { _dcId := 2, _type := Type_.PeerPhoto, _sizeLetter := 98, _id := 5, _volumeId := 11,
    _localId := 13 }

/-- A PeerPhoto location of the channel 5 with the size letter `c`, taken from
the message 21 of the channel 9. -/
def peerPhotoChannel : StorageFileLocation :=
  { _dcId := 2, _type := Type_.PeerPhoto, _sizeLetter := 99, _id := 0x200000005,
    _accessHash := 3, _volumeId := 11, _localId := 13, _inMessagePeerId := -9,
    _inMessageId := 21 }

/-- An Encrypted location: id 7 in dc 2. -/
def scenarioEncrypted : StorageFileLocation :=
  { _dcId := 2, _type := Type_.Encrypted, _id := 7, _accessHash := 9 }

end StorageFileLocation

/-! # Properties -/

/-! ## Integer layouts -/

theorem beBytes_length (w n : Nat) : (beBytes w n).length = w := by
  induction w with
  | zero => rfl
  | succ w ih => simp [beBytes, ih]

theorem beVal_foldl (w n acc : Nat) :
    (beBytes w n).foldl (fun acc b => acc * 256 + b.val) acc = acc * 256 ^ w + n % 256 ^ w := by
  induction w generalizing acc with
  | zero => simp [beBytes, Nat.mod_one]
  | succ w ih =>
    simp only [beBytes, List.foldl_cons, ih, byteOfNat]
    rw [Nat.mod_pow_succ, pow_succ]
    ring

theorem beVal_beBytes (w n : Nat) : beVal (beBytes w n) = n % 256 ^ w := by
  simp [beVal, beVal_foldl]

theorem Env.nativeBytes_length (env : Env) (w n : Nat) : (env.nativeBytes w n).length = w := by
  unfold Env.nativeBytes
  split <;> simp [beBytes_length]

theorem Env.nativeVal_nativeBytes (env : Env) (w n : Nat) :
    env.nativeVal (env.nativeBytes w n) = n % 256 ^ w := by
  unfold Env.nativeVal Env.nativeBytes
  split <;> simp [beVal_beBytes]

namespace Storage.details

/-! ## Encrypted block codec -/

/-- The plaintext `PrepareEncrypted` encrypts for a descriptor made by the
sized constructor and holding `p`: size field, payload, random padding. -/
theorem PrepareEncrypted_sized (env : Env) (size : Nat) (p : List Byte) (key : AuthKey)
    (hp : p.length + 36 ≤ 2 ^ 31) :
    ∃ pad : List Byte,
      (4 + p.length + pad.length) % 16 = 0 ∧ pad.length < 16 ∧
      PrepareEncrypted env ((EncryptedDescriptor.sized size).write p) key =
        ((env.hashSha1 (env.nativeBytes 4 (4 + p.length) ++ p ++ pad)).take 16 ++
            env.aesEncryptLocal (env.nativeBytes 4 (4 + p.length) ++ p ++ pad) key
              ((env.hashSha1 (env.nativeBytes 4 (4 + p.length) ++ p ++ pad)).take 16),
          { data := env.nativeBytes 4 (4 + p.length) ++ p ++ pad, pos := none }) := by
  have hn : (4 + p.length) % 2 ^ 32 = 4 + p.length := Nat.mod_eq_of_lt (by omega)
  have hd : ((EncryptedDescriptor.sized size).write p).finish
      = { data := List.replicate 4 0 ++ p, pos := none } := rfl
  have hl : (List.replicate 4 (0 : Byte) ++ p).length = 4 + p.length := by
    rw [List.length_append, List.length_replicate]
  have hdrop : ∀ q : List Byte, List.drop 4 (List.replicate 4 (0 : Byte) ++ q) = q := by
    intro q; exact List.drop_left' (by simp)
  by_cases h16 : (4 + p.length) % 16 = 0
  · refine ⟨[], by simpa using h16, by simp, ?_⟩
    simp only [PrepareEncrypted, hd, hl, hn, h16, ne_eq, not_true_eq_false, if_false, hdrop,
      List.append_nil]
  · refine ⟨(List.range (16 - (4 + p.length) % 16)).map fun i => env.randByte i, ?_, ?_, ?_⟩
    · simp only [List.length_map, List.length_range]; omega
    · simp only [List.length_map, List.length_range]; omega
    · have hfull : (4 + p.length + (16 - (4 + p.length) % 16)) % 2 ^ 32
          = 4 + p.length + (16 - (4 + p.length) % 16) := Nat.mod_eq_of_lt (by omega)
      simp only [PrepareEncrypted, hd, hl, hn, h16, ne_eq, not_false_eq_true, if_true, hfull,
        Nat.add_sub_cancel_left, List.append_assoc, hdrop]

/-- What `DecryptLocal` does with `hash prefix ++ cipher text` of a plaintext
`plain` whose length is a positive multiple of 16, when decryption undoes
encryption: the outcome is decided by the leading size field alone. -/
theorem DecryptLocal_encrypted (env : Env) (hinv : env.CipherInverts)
    (result : EncryptedDescriptor) (plain : List Byte) (key : AuthKey)
    (hlen : plain.length % 16 = 0) (hpos : 16 ≤ plain.length) (hmax : plain.length < 2 ^ 31) :
    DecryptLocal env result
        ((env.hashSha1 plain).take 16 ++
          env.aesEncryptLocal plain key ((env.hashSha1 plain).take 16)) key =
      if env.nativeVal (plain.take 4) > plain.length
          ∨ env.nativeVal (plain.take 4) ≤ plain.length - 16
          ∨ env.nativeVal (plain.take 4) < 4 then (false, result)
      else (true, { data := plain.take (env.nativeVal (plain.take 4)), pos := some 4 }) := by
  have hsha : ((env.hashSha1 plain).take 16).length = 16 := by
    simp [env.hashSha1_length]
  have henc := env.aesEncryptLocal_length plain key ((env.hashSha1 plain).take 16)
  have hfull : (16 + plain.length - 16) % 2 ^ 32 = plain.length := by
    rw [Nat.add_sub_cancel_left]; exact Nat.mod_eq_of_lt (by omega)
  have hplain : plain.length % 4294967296 = plain.length := Nat.mod_eq_of_lt (by omega)
  have hsub : (plain.length + 4294967280) % 4294967296 = plain.length - 16 := by omega
  have htake : List.take 16 ((env.hashSha1 plain).take 16 ++
      env.aesEncryptLocal plain key ((env.hashSha1 plain).take 16))
      = (env.hashSha1 plain).take 16 := by
    rw [List.take_append_of_le_length (by omega), List.take_of_length_le (by omega)]
  have hdrop : List.drop 16 ((env.hashSha1 plain).take 16 ++
      env.aesEncryptLocal plain key ((env.hashSha1 plain).take 16))
      = env.aesEncryptLocal plain key ((env.hashSha1 plain).take 16) := by
    rw [List.drop_append_of_le_length (by omega), List.drop_of_length_le (by omega)]
    rfl
  have hcond : ¬ (((env.hashSha1 plain).take 16 ++
      env.aesEncryptLocal plain key ((env.hashSha1 plain).take 16)).length ≤ 16 ∨
      ((env.hashSha1 plain).take 16 ++
      env.aesEncryptLocal plain key ((env.hashSha1 plain).take 16)).length % 16 ≠ 0) := by
    rw [List.length_append, hsha, henc]; omega
  have hall : List.take plain.length
      (env.aesEncryptLocal plain key ((env.hashSha1 plain).take 16))
      = env.aesEncryptLocal plain key ((env.hashSha1 plain).take 16) :=
    List.take_of_length_le (by omega)
  have hdec : DecryptLocal.decrypted env ((env.hashSha1 plain).take 16 ++
      env.aesEncryptLocal plain key ((env.hashSha1 plain).take 16)) key = plain := by
    simp only [DecryptLocal.decrypted, DecryptLocal.fullLen, htake, hdrop, List.length_append,
      hsha, henc, hfull, hall]
    exact hinv _ _ _
  unfold DecryptLocal
  rw [if_neg hcond]
  simp only [DecryptLocal.dataLen, hdec, htake]
  simp [DecryptLocal.fullLen, hsha, henc, hplain, hsub]

end Storage.details

theorem toyEnv_cipherInverts : toyEnv.CipherInverts := by
  intro d k s
  show (d.map (· + toyPad k s)).map (· - toyPad k s) = d
  simp [List.map_map, Function.comp_def]

namespace Storage.details

/-- C1: encrypt/decrypt round trip. For a descriptor made by the sized
constructor and holding the payload `p` (of a size a `QByteArray` can have),
under a cipher whose decryption undoes its encryption, `DecryptLocal` of
`PrepareEncrypted` returns true, `result.data` is the size field followed by
`p`, the read position is 4, and the bytes after the size field are `p`. -/
theorem DecryptLocal_PrepareEncrypted (env : Env) (hinv : env.CipherInverts) (size : Nat)
    (p : List Byte) (key : AuthKey) (result : EncryptedDescriptor)
    (hp : p.length + 36 ≤ 2 ^ 31) :
    (DecryptLocal env result
        (PrepareEncrypted env ((EncryptedDescriptor.sized size).write p) key).1 key).1 = true
    ∧ (DecryptLocal env result
        (PrepareEncrypted env ((EncryptedDescriptor.sized size).write p) key).1 key).2.data
        = env.nativeBytes 4 (4 + p.length) ++ p
    ∧ (DecryptLocal env result
        (PrepareEncrypted env ((EncryptedDescriptor.sized size).write p) key).1 key).2.pos
        = some 4
    ∧ (DecryptLocal env result
        (PrepareEncrypted env ((EncryptedDescriptor.sized size).write p) key).1 key).2.data.drop 4
        = p := by
  obtain ⟨pad, hmod, hpad, heq⟩ := PrepareEncrypted_sized env size p key hp
  have hnat := env.nativeBytes_length 4 (4 + p.length)
  have hlen : (env.nativeBytes 4 (4 + p.length) ++ p ++ pad).length
      = 4 + p.length + pad.length := by
    simp only [List.length_append, hnat]
  have htake4 : (env.nativeBytes 4 (4 + p.length) ++ p ++ pad).take 4
      = env.nativeBytes 4 (4 + p.length) := by
    rw [List.append_assoc]; exact List.take_left' hnat
  have hval : env.nativeVal ((env.nativeBytes 4 (4 + p.length) ++ p ++ pad).take 4)
      = 4 + p.length := by
    rw [htake4, Env.nativeVal_nativeBytes]; exact Nat.mod_eq_of_lt (by omega)
  have hdec := DecryptLocal_encrypted env hinv result
    (env.nativeBytes 4 (4 + p.length) ++ p ++ pad) key (by rw [hlen]; exact hmod)
    (by rw [hlen]; omega) (by rw [hlen]; omega)
  rw [hval, hlen, if_neg (by omega)] at hdec
  have hdata : (env.nativeBytes 4 (4 + p.length) ++ p ++ pad).take (4 + p.length)
      = env.nativeBytes 4 (4 + p.length) ++ p :=
    List.take_left' (by simp only [List.length_append, hnat])
  rw [heq, hdec, hdata]
  exact ⟨rfl, rfl, rfl, List.drop_left' hnat⟩

/-- Witness of C1 in the evaluation environment: payload `1, 2, 3`, key `9`. -/
theorem DecryptLocal_PrepareEncrypted_witness :
    (DecryptLocal toyEnv {}
        (PrepareEncrypted toyEnv ((EncryptedDescriptor.sized 3).write [1, 2, 3]) [9]).1 [9]).1
      = true
    ∧ (DecryptLocal toyEnv {}
        (PrepareEncrypted toyEnv ((EncryptedDescriptor.sized 3).write [1, 2, 3]) [9]).1 [9]).2.data
      = toyEnv.nativeBytes 4 (4 + ([1, 2, 3] : List Byte).length) ++ [1, 2, 3]
    ∧ (DecryptLocal toyEnv {}
        (PrepareEncrypted toyEnv ((EncryptedDescriptor.sized 3).write [1, 2, 3]) [9]).1 [9]).2.pos
      = some 4
    ∧ (DecryptLocal toyEnv {}
        (PrepareEncrypted toyEnv ((EncryptedDescriptor.sized 3).write [1, 2, 3]) [9]).1
          [9]).2.data.drop 4
      = [1, 2, 3] :=
  DecryptLocal_PrepareEncrypted toyEnv toyEnv_cipherInverts 3 [1, 2, 3] [9] {} (by norm_num)

end Storage.details

namespace Storage.details

/-- Length of the decrypted bytes when the length check has passed. -/
theorem DecryptLocal.decrypted_length (env : Env) (encrypted : List Byte) (key : AuthKey) :
    (DecryptLocal.decrypted env encrypted key).length = DecryptLocal.fullLen encrypted := by
  unfold DecryptLocal.decrypted
  rw [env.aesDecryptLocal_length, List.length_take, List.length_drop]
  exact Nat.min_eq_left (Nat.mod_le _ _)

/-- C9 as stated fails: in the evaluation environment the ciphertext of
`shortSizePlain` passes the length check and the hash check, and its size
field 8 lies between 4 and the padded size 32, yet `DecryptLocal` returns
false. -/
theorem DecryptLocal_size_counterexample :
    ¬ ((toyEncrypted shortSizePlain).length ≤ 16 ∨ (toyEncrypted shortSizePlain).length % 16 ≠ 0)
    ∧ (toyEnv.hashSha1 (DecryptLocal.decrypted toyEnv (toyEncrypted shortSizePlain) [9])).take 16
        = (toyEncrypted shortSizePlain).take 16
    ∧ 4 ≤ DecryptLocal.dataLen toyEnv (toyEncrypted shortSizePlain) [9]
    ∧ DecryptLocal.dataLen toyEnv (toyEncrypted shortSizePlain) [9]
        ≤ (DecryptLocal.decrypted toyEnv (toyEncrypted shortSizePlain) [9]).length
    ∧ (DecryptLocal toyEnv {} (toyEncrypted shortSizePlain) [9]).1 = false := by
  set_option maxRecDepth 100000 in decide

/-- C9 (amended): for a ciphertext (of a size a `QByteArray` can have) that
passes the length check and the SHA1-prefix check, `DecryptLocal` succeeds
exactly when the size field is at least 4, at most the padded size and more
than the padded size minus 16; on success `result.data` is the plaintext
truncated to the size field and the stream is positioned after it. -/
theorem DecryptLocal_size_check (env : Env) (result : EncryptedDescriptor)
    (encrypted : List Byte) (key : AuthKey)
    (hlen : ¬ (encrypted.length ≤ 16 ∨ encrypted.length % 16 ≠ 0))
    (hsha : (env.hashSha1 (DecryptLocal.decrypted env encrypted key)).take 16
      = encrypted.take 16)
    (hmax : encrypted.length < 2 ^ 31) :
    ((DecryptLocal env result encrypted key).1 = true ↔
      4 ≤ DecryptLocal.dataLen env encrypted key
      ∧ (DecryptLocal.decrypted env encrypted key).length
          < DecryptLocal.dataLen env encrypted key + 16
      ∧ DecryptLocal.dataLen env encrypted key
          ≤ (DecryptLocal.decrypted env encrypted key).length)
    ∧ ((DecryptLocal env result encrypted key).1 = true →
      (DecryptLocal env result encrypted key).2 =
        { data := (DecryptLocal.decrypted env encrypted key).take
            (DecryptLocal.dataLen env encrypted key),
          pos := some 4 }) := by
  have hdl := DecryptLocal.decrypted_length env encrypted key
  have hfl : DecryptLocal.fullLen encrypted = encrypted.length - 16 :=
    Nat.mod_eq_of_lt (by omega)
  have hmod : (DecryptLocal.decrypted env encrypted key).length % 2 ^ 32
      = encrypted.length - 16 := by rw [hdl, hfl]; exact Nat.mod_eq_of_lt (by omega)
  have hsub : (DecryptLocal.fullLen encrypted + 2 ^ 32 - 16) % 2 ^ 32
      = encrypted.length - 32 := by rw [hfl]; omega
  unfold DecryptLocal
  rw [if_neg hlen]
  simp only [hsha, ne_eq, not_true_eq_false, if_false, hmod, hsub]
  rw [hdl, hfl]
  by_cases hc : DecryptLocal.dataLen env encrypted key > encrypted.length - 16
      ∨ DecryptLocal.dataLen env encrypted key ≤ encrypted.length - 32
      ∨ DecryptLocal.dataLen env encrypted key < 4
  · rw [if_pos hc]
    refine ⟨⟨fun h => by simp at h, fun h => ?_⟩, fun h => by simp at h⟩
    omega
  · rw [if_neg hc]
    refine ⟨⟨fun _ => ?_, fun _ => rfl⟩, fun _ => rfl⟩
    omega

/-- Witness of the amended C9: the ciphertext of `goodSizePlain`, whose size
field 20 exceeds 32 - 16. -/
theorem DecryptLocal_size_check_witness :
    ((DecryptLocal toyEnv {} (toyEncrypted goodSizePlain) [9]).1 = true ↔
      4 ≤ DecryptLocal.dataLen toyEnv (toyEncrypted goodSizePlain) [9]
      ∧ (DecryptLocal.decrypted toyEnv (toyEncrypted goodSizePlain) [9]).length
          < DecryptLocal.dataLen toyEnv (toyEncrypted goodSizePlain) [9] + 16
      ∧ DecryptLocal.dataLen toyEnv (toyEncrypted goodSizePlain) [9]
          ≤ (DecryptLocal.decrypted toyEnv (toyEncrypted goodSizePlain) [9]).length)
    ∧ ((DecryptLocal toyEnv {} (toyEncrypted goodSizePlain) [9]).1 = true →
      (DecryptLocal toyEnv {} (toyEncrypted goodSizePlain) [9]).2 =
        { data := (DecryptLocal.decrypted toyEnv (toyEncrypted goodSizePlain) [9]).take
            (DecryptLocal.dataLen toyEnv (toyEncrypted goodSizePlain) [9]),
          pos := some 4 }) :=
  DecryptLocal_size_check toyEnv {} (toyEncrypted goodSizePlain) [9]
    (by set_option maxRecDepth 100000 in decide)
    (by set_option maxRecDepth 100000 in decide)
    (by set_option maxRecDepth 100000 in decide)

/-- C10: `DecryptLocal` returns false and leaves `result` unchanged whenever
the ciphertext length is at most 16, or is not a multiple of 16, or the first
16 bytes of SHA1 over the decrypted bytes differ from the first 16 bytes of
the ciphertext; and whenever it returns true the length is a multiple of 16
above 16 and the two 16-byte prefixes agree. -/
theorem DecryptLocal_rejects (env : Env) (result : EncryptedDescriptor)
    (encrypted : List Byte) (key : AuthKey) :
    ((encrypted.length ≤ 16 ∨ encrypted.length % 16 ≠ 0
        ∨ (env.hashSha1 (DecryptLocal.decrypted env encrypted key)).take 16
            ≠ encrypted.take 16) →
      DecryptLocal env result encrypted key = (false, result))
    ∧ ((DecryptLocal env result encrypted key).1 = true →
      16 < encrypted.length ∧ encrypted.length % 16 = 0
      ∧ (env.hashSha1 (DecryptLocal.decrypted env encrypted key)).take 16
          = encrypted.take 16) := by
  constructor
  · intro h
    unfold DecryptLocal
    by_cases hlen : encrypted.length ≤ 16 ∨ encrypted.length % 16 ≠ 0
    · rw [if_pos hlen]
    · rw [if_neg hlen]
      have hne : (env.hashSha1 (DecryptLocal.decrypted env encrypted key)).take 16
          ≠ encrypted.take 16 := by
        rcases h with h | h | h
        · exact absurd (Or.inl h) hlen
        · exact absurd (Or.inr h) hlen
        · exact h
      simp only [hne, ne_eq, not_false_eq_true, if_true]
  · intro h
    unfold DecryptLocal at h
    by_cases hlen : encrypted.length ≤ 16 ∨ encrypted.length % 16 ≠ 0
    · rw [if_pos hlen] at h; simp at h
    · rw [if_neg hlen] at h
      by_cases hne : (env.hashSha1 (DecryptLocal.decrypted env encrypted key)).take 16
          = encrypted.take 16
      · exact ⟨by omega, by omega, hne⟩
      · simp only [hne, ne_eq, not_false_eq_true, if_true] at h
        simp at h

/-- Witness of C10: the ciphertext of `goodSizePlain` decrypted under the
wrong key `8` fails the hash check, so `DecryptLocal` returns false and the
descriptor is as before. -/
theorem DecryptLocal_rejects_witness :
    (toyEnv.hashSha1 (DecryptLocal.decrypted toyEnv (toyEncrypted goodSizePlain) [8])).take 16
        ≠ (toyEncrypted goodSizePlain).take 16
    ∧ DecryptLocal toyEnv {} (toyEncrypted goodSizePlain) [8] = (false, {}) :=
  ⟨by set_option maxRecDepth 100000 in decide,
    (DecryptLocal_rejects toyEnv {} (toyEncrypted goodSizePlain) [8]).1
      (Or.inr (Or.inr (by set_option maxRecDepth 100000 in decide)))⟩

end Storage.details

/-! ## More on integer layouts -/

theorem beVal_foldl_acc (bs : List Byte) (acc : Nat) :
    bs.foldl (fun acc b => acc * 256 + b.val) acc = acc * 256 ^ bs.length + beVal bs := by
  induction bs generalizing acc with
  | nil => simp [beVal]
  | cons b tl ih =>
    simp only [List.foldl_cons, beVal, List.length_cons]
    rw [ih, ih (0 * 256 + b.val), pow_succ]
    ring

theorem beVal_cons (b : Byte) (tl : List Byte) :
    beVal (b :: tl) = b.val * 256 ^ tl.length + beVal tl := by
  simp only [beVal, List.foldl_cons]
  rw [beVal_foldl_acc]
  simp [beVal]

theorem beVal_lt (bs : List Byte) : beVal bs < 256 ^ bs.length := by
  induction bs with
  | nil => simp [beVal]
  | cons b tl ih =>
    rw [beVal_cons, List.length_cons, pow_succ]
    have hb := b.isLt
    nlinarith

theorem beBytes_add_mul (w m k : Nat) : beBytes w (m + 256 ^ w * k) = beBytes w m := by
  induction w generalizing k with
  | zero => rfl
  | succ w ih =>
    simp only [beBytes]
    have h1 : m + 256 ^ (w + 1) * k = m + 256 ^ w * (256 * k) := by rw [pow_succ]; ring
    rw [h1, ih (256 * k)]
    congr 1
    simp only [byteOfNat, Fin.mk.injEq]
    rw [Nat.add_mul_div_left _ _ (by positivity)]
    omega

theorem beBytes_mod (w n : Nat) : beBytes w (n % 256 ^ w) = beBytes w n := by
  conv_rhs => rw [← Nat.mod_add_div n (256 ^ w)]
  rw [beBytes_add_mul]

theorem beBytes_beVal (bs : List Byte) : beBytes bs.length (beVal bs) = bs := by
  induction bs with
  | nil => rfl
  | cons b tl ih =>
    simp only [List.length_cons, beBytes]
    have hlt := beVal_lt tl
    congr 1
    · rw [beVal_cons]
      apply Fin.ext
      simp only [byteOfNat]
      rw [Nat.add_comm, Nat.add_mul_div_right _ _ (by positivity), Nat.div_eq_of_lt hlt]
      simp [Nat.mod_eq_of_lt b.isLt]
    · rw [beVal_cons, Nat.add_comm, Nat.mul_comm, beBytes_add_mul, ih]

theorem Env.nativeBytes_qbswap (env : Env) (len : Nat) :
    env.nativeBytes 4 (if !env.bigEndian then Storage.details.qbswap len else len)
      = beBytes 4 len := by
  unfold Env.nativeBytes Storage.details.qbswap
  cases env.bigEndian
  · have h := beBytes_beVal (beBytes 4 len).reverse
    rw [List.length_reverse, beBytes_length] at h
    simp [h]
  · simp

theorem toInt32_toUInt32 (i : Int) (h : -(2 ^ 31) ≤ i ∧ i < 2 ^ 31) :
    toInt32 (toUInt32 i) = i := by
  unfold toInt32 toUInt32
  have h1 : ((i % 2 ^ 32).toNat % 2 ^ 32 : Nat) = (i % 2 ^ 32).toNat := by
    apply Nat.mod_eq_of_lt
    omega
  rw [h1]
  split <;> omega

theorem Env.storedInt32 (env : Env) (i : Int) (h : -(2 ^ 31) ≤ i ∧ i < 2 ^ 31) :
    toInt32 (env.nativeVal (env.nativeBytes 4 (toUInt32 i))) = i := by
  rw [Env.nativeVal_nativeBytes]
  have h1 : toUInt32 i % 256 ^ 4 = toUInt32 i := by
    apply Nat.mod_eq_of_lt
    unfold toUInt32
    omega
  rw [h1, toInt32_toUInt32 i h]

/-! ## Streams -/

theorem streamBytes_length (f : QByteArray) : (streamBytes f).length = 4 + f.size := by
  cases f <;> simp [streamBytes, beBytes_length, QByteArray.size, QByteArray.toList]

theorem String.push_ne_empty (s : String) (c : Char) : s.push c ≠ "" := by
  intro h
  have := congrArg String.data h
  simp at this

theorem String.push_ne_push (s : String) (a b : Char) (h : a ≠ b) : s.push a ≠ s.push b := by
  intro he
  have := congrArg String.data he
  simp at this
  exact h this

namespace FileSystem

@[simp] theorem write_same (fs : FileSystem) (p : String) (f : File) : fs.write p f p = some f := by
  simp [FileSystem.write]

@[simp] theorem remove_same (fs : FileSystem) (p : String) : fs.remove p p = none := by
  simp [FileSystem.remove]

theorem write_other (fs : FileSystem) (p q : String) (f : File) (h : q ≠ p) :
    fs.write p f q = fs q := by
  simp [FileSystem.write, h]

theorem remove_other (fs : FileSystem) (p q : String) (h : q ≠ p) :
    fs.remove p q = fs q := by
  simp [FileSystem.remove, h]

end FileSystem

namespace Storage.details

/-! ## Writer -/

/-- What a sequence of `writeData` calls leaves in an open descriptor: the
staged payload and the bytes fed to the digest both grow by the stream form of
the fields, and `fullSize` by its length. -/
theorem FileWriteDescriptor.foldl_writeData (env : Env) (fields : List QByteArray)
    (w : FileWriteDescriptor) (hdev : w.device = true) :
    (fields.foldl (FileWriteDescriptor.writeData env) w).safeData
        = w.safeData ++ fields.flatMap streamBytes
    ∧ (fields.foldl (FileWriteDescriptor.writeData env) w).md5
        = w.md5 ++ fields.flatMap streamBytes
    ∧ (fields.foldl (FileWriteDescriptor.writeData env) w).fullSize
        = w.fullSize + ((fields.flatMap streamBytes).length : Int)
    ∧ (fields.foldl (FileWriteDescriptor.writeData env) w).device = true
    ∧ (fields.foldl (FileWriteDescriptor.writeData env) w).base = w.base := by
  induction fields generalizing w with
  | nil => simp [hdev]
  | cons f tl ih =>
    have hstep : FileWriteDescriptor.writeData env w f =
        { w with
          safeData := w.safeData ++ streamBytes f
          md5 := w.md5 ++ streamBytes f
          fullSize := w.fullSize + (4 + f.size) } := by
      unfold FileWriteDescriptor.writeData
      simp only [hdev, Bool.not_true, Bool.false_eq_true, if_false]
      rw [Env.nativeBytes_qbswap]
      cases f with
      | null => simp [streamBytes, QByteArray.isNull, QByteArray.toList]
      | bytes b =>
        have := beBytes_mod 4 b.length
        simp only [QByteArray.isNull, Bool.false_eq_true, if_false, QByteArray.size,
          QByteArray.toList, streamBytes, List.append_assoc]
        rw [show (2 : Nat) ^ 32 = 256 ^ 4 by norm_num, this]
    simp only [List.foldl_cons, List.flatMap_cons]
    obtain ⟨h1, h2, h3, h4, h5⟩ := ih (FileWriteDescriptor.writeData env w f)
      (by rw [hstep]; exact hdev)
    rw [h1, h2, h3, h4, h5, hstep]
    simp only [List.append_assoc, List.length_append, streamBytes_length, true_and, and_true]
    push_cast
    ring

/-! ## Reader -/

/-- The record `finish` writes passes every check of `ReadFile` and yields
the staged payload, when the digest was fed the staged payload and `fullSize`
is its length. -/
theorem ReadFile.check_record (env : Env) (w : FileWriteDescriptor) (now : Nat)
    (hmd5 : w.md5 = w.safeData) (hsize : w.fullSize = (w.safeData.length : Int)) :
    ReadFile.check env
        (some { content := FileWriteDescriptor.record env w, lastModified := now })
      = some (env.AppVersion, w.safeData) := by
  have hmagic : TdfMagic.length = 4 := rfl
  have hver := env.nativeBytes_length 4 (toUInt32 env.AppVersion)
  have hdig : ((env.hashMd5 (w.md5 ++ env.nativeBytes 4 (toUInt32 w.fullSize)
      ++ env.nativeBytes 4 (toUInt32 env.AppVersion) ++ TdfMagic)).take 16).length = 16 := by
    simp [env.hashMd5_length]
  have htake4 : (FileWriteDescriptor.record env w).take 4 = TdfMagic := by
    simp only [FileWriteDescriptor.record, List.append_assoc]
    exact List.take_left' hmagic
  have hdrop4 : (FileWriteDescriptor.record env w).drop 4
      = env.nativeBytes 4 (toUInt32 env.AppVersion) ++ (w.safeData
        ++ (env.hashMd5 (w.md5 ++ env.nativeBytes 4 (toUInt32 w.fullSize)
          ++ env.nativeBytes 4 (toUInt32 env.AppVersion) ++ TdfMagic)).take 16) := by
    simp only [FileWriteDescriptor.record, List.append_assoc]
    exact List.drop_left' hmagic
  have hdrop8 : (FileWriteDescriptor.record env w).drop 8
      = w.safeData ++ (env.hashMd5 (w.md5 ++ env.nativeBytes 4 (toUInt32 w.fullSize)
          ++ env.nativeBytes 4 (toUInt32 env.AppVersion) ++ TdfMagic)).take 16 := by
    have : (FileWriteDescriptor.record env w).drop 8
        = ((FileWriteDescriptor.record env w).drop 4).drop 4 := by
      rw [List.drop_drop]
    rw [this, hdrop4]
    exact List.drop_left' hver
  have hsv : ReadFile.storedVersion env
      { content := FileWriteDescriptor.record env w, lastModified := now } = env.AppVersion := by
    simp only [ReadFile.storedVersion, hdrop4]
    rw [List.take_left' hver]
    exact env.storedInt32 _ env.appVersion_int32
  simp only [ReadFile.check, hsv, htake4, hdrop4, hdrop8, hmagic, List.length_append, hdig,
    List.take_left' hver, hver]
  simp only [Bool.not_true, Bool.false_eq_true, if_false, ne_eq, not_true_eq_false, gt_iff_lt,
    lt_self_iff_false, Nat.cast_add, Nat.cast_ofNat, add_sub_cancel_right, Int.toNat_ofNat]
  rw [if_neg (by omega), List.take_left' rfl, List.drop_left' rfl, hmd5, hsize]
  simp [env.hashMd5_length]

end Storage.details

namespace Storage.details

/-- When the `s` file exists and passes the checks, `ReadFile` accepts it and
removes nothing. -/
theorem ReadFile_of_safe (env : Env) (result : FileReadDescriptor) (fs : FileSystem)
    (name basePath : String) (f : File) (v : Int) (d : List Byte)
    (hs : fs ((basePath ++ name).push 's') = some f)
    (hc : ReadFile.check env (some f) = some (v, d)) :
    ReadFile env result fs name basePath = (true, ReadFile.accept result v d, fs) := by
  have ht : ReadFile.toTry fs name basePath = ((basePath ++ name).push 's', "") := by
    simp [ReadFile.toTry, hs]
  simp [ReadFile, ht, String.push_ne_empty, hs, hc]

/-- When only the `0` file exists and passes the checks, `ReadFile` accepts it
and removes nothing. -/
theorem ReadFile_of_simple (env : Env) (result : FileReadDescriptor) (fs : FileSystem)
    (name basePath : String) (f : File) (v : Int) (d : List Byte)
    (hs : fs ((basePath ++ name).push 's') = none)
    (h0 : fs ((basePath ++ name).push '0') = some f)
    (h1 : fs ((basePath ++ name).push '1') = none)
    (hc : ReadFile.check env (some f) = some (v, d)) :
    ReadFile env result fs name basePath = (true, ReadFile.accept result v d, fs) := by
  have ht : ReadFile.toTry fs name basePath = ((basePath ++ name).push '0', "") := by
    simp [ReadFile.toTry, hs, h0, h1]
  simp [ReadFile, ht, String.push_ne_empty, h0, hc]

end Storage.details

namespace Storage.details

/-- A candidate that passes the checks of `ReadFile` is readable, carries the
magic, and the version reported is its stored version, not above
`AppVersion`. -/
theorem ReadFile.check_some (env : Env) (f : File) (v : Int) (d : List Byte)
    (h : ReadFile.check env (some f) = some (v, d)) :
    v = ReadFile.storedVersion env f ∧ v ≤ env.AppVersion ∧ f.content.take 4 = TdfMagic := by
  unfold ReadFile.check at h
  simp only [] at h
  split_ifs at h with h1 h2 h3 h4 h5 h6 h7
  simp only [Option.some.injEq, Prod.mk.injEq] at h
  refine ⟨h.1.symm, ?_, by simpa using h3⟩
  rw [← h.1]; omega

/-- A failing `ReadFile` leaves the descriptor and the file system alone. -/
theorem ReadFile_false (env : Env) (result : FileReadDescriptor) (fs : FileSystem)
    (name basePath : String) (h : (ReadFile env result fs name basePath).1 = false) :
    ReadFile env result fs name basePath = (false, result, fs) := by
  unfold ReadFile at h ⊢
  by_cases h1 : (ReadFile.toTry fs name basePath).1 = ""
  · simp only [h1, if_true]
  · simp only [h1, if_false] at h ⊢
    cases hc : ReadFile.check env (fs (ReadFile.toTry fs name basePath).1) with
    | some vd => rw [hc] at h; simp at h
    | none =>
      rw [hc] at h
      simp only [] at h ⊢
      by_cases h2 : (ReadFile.toTry fs name basePath).2 = ""
      · simp only [h2, if_true]
      · simp only [h2, if_false] at h ⊢
        cases hc2 : ReadFile.check env (fs (ReadFile.toTry fs name basePath).2) with
        | some vd => rw [hc2] at h; simp at h
        | none => rfl

/-- A succeeding `ReadFile` accepted one of its candidates: the first, or
the second after the first failed the checks. -/
theorem ReadFile_true (env : Env) (result : FileReadDescriptor) (fs : FileSystem)
    (name basePath : String) (h : (ReadFile env result fs name basePath).1 = true) :
    ∃ path v d, (path = (ReadFile.toTry fs name basePath).1
        ∨ (path = (ReadFile.toTry fs name basePath).2
          ∧ ReadFile.check env (fs (ReadFile.toTry fs name basePath).1) = none))
      ∧ ReadFile.check env (fs path) = some (v, d)
      ∧ (ReadFile env result fs name basePath).2.1 = ReadFile.accept result v d := by
  unfold ReadFile at h ⊢
  by_cases h1 : (ReadFile.toTry fs name basePath).1 = ""
  · simp only [h1, if_true] at h; simp at h
  · simp only [h1, if_false] at h ⊢
    cases hc : ReadFile.check env (fs (ReadFile.toTry fs name basePath).1) with
    | some vd => exact ⟨_, vd.1, vd.2, Or.inl rfl, hc, rfl⟩
    | none =>
      rw [hc] at h
      simp only [] at h ⊢
      by_cases h2 : (ReadFile.toTry fs name basePath).2 = ""
      · simp only [h2, if_true] at h; simp at h
      · simp only [h2, if_false] at h ⊢
        cases hc2 : ReadFile.check env (fs (ReadFile.toTry fs name basePath).2) with
        | some vd => exact ⟨_, vd.1, vd.2, Or.inr ⟨rfl, trivial⟩, hc2, rfl⟩
        | none => rw [hc2] at h; simp at h

/-- C5: version gate. A file whose stored version exceeds `AppVersion` fails
the checks of `ReadFile` whatever its magic and digest, and whenever
`ReadFile` returns true the accepted candidate is an existing file whose
stored version is `result.version`, which is at most `AppVersion`. -/
theorem ReadFile_version_gate (env : Env) (result : FileReadDescriptor) (fs : FileSystem)
    (name basePath : String) :
    (∀ f : File, ReadFile.storedVersion env f > env.AppVersion →
      ReadFile.check env (some f) = none)
    ∧ ((ReadFile env result fs name basePath).1 = true →
      (ReadFile env result fs name basePath).2.1.version ≤ env.AppVersion
      ∧ ∃ path f, (path = (ReadFile.toTry fs name basePath).1
            ∨ path = (ReadFile.toTry fs name basePath).2)
          ∧ fs path = some f
          ∧ ReadFile.storedVersion env f = (ReadFile env result fs name basePath).2.1.version
          ∧ ReadFile.check env (some f)
            = some ((ReadFile env result fs name basePath).2.1.version,
                (ReadFile env result fs name basePath).2.1.data)) := by
  constructor
  · intro f hf
    cases hc : ReadFile.check env (some f) with
    | none => rfl
    | some vd =>
      obtain ⟨h1, h2, _⟩ := ReadFile.check_some env f vd.1 vd.2 hc
      omega
  · intro h
    obtain ⟨path, v, d, hp, hc, hr⟩ := ReadFile_true env result fs name basePath h
    cases hf : fs path with
    | none => rw [hf] at hc; simp [ReadFile.check] at hc
    | some f =>
      rw [hf] at hc
      obtain ⟨h1, h2, _⟩ := ReadFile.check_some env f v d hc
      rw [hr]
      refine ⟨h2, path, f, ?_, hf, h1.symm, hc⟩
      rcases hp with hp | hp
      · exact Or.inl hp
      · exact Or.inr hp.1

/-- Witness of C5: reading back the scenario record. -/
theorem ReadFile_version_gate_witness :
    (ReadFile toyEnv {} scenarioFs "0123456789ABCDEF" "/tdata/").1 = true
    ∧ (ReadFile toyEnv {} scenarioFs "0123456789ABCDEF" "/tdata/").2.1.version
        ≤ toyEnv.AppVersion :=
  ⟨by set_option maxRecDepth 100000 in decide,
    ((ReadFile_version_gate toyEnv {} scenarioFs "0123456789ABCDEF" "/tdata/").2
      (by set_option maxRecDepth 100000 in decide)).1⟩

end Storage.details

namespace Storage.details

/-- C4 as stated fails: with a valid `0` copy next to an `s` copy in which one
byte was changed, and with a valid `1` copy next to a truncated `s` copy,
`ReadFile` returns false. -/
theorem ReadFile_corrupted_safe_counterexample :
    (ReadFile.check toyEnv (flippedSafeFs "/tdata/0123456789ABCDEFs") = none
      ∧ ReadFile.check toyEnv (flippedSafeFs "/tdata/0123456789ABCDEF0")
          = some (2001008, scenarioFields.flatMap streamBytes)
      ∧ (ReadFile toyEnv {} flippedSafeFs "0123456789ABCDEF" "/tdata/").1 = false)
    ∧ (ReadFile.check toyEnv (truncatedSafeFs "/tdata/0123456789ABCDEFs") = none
      ∧ ReadFile.check toyEnv (truncatedSafeFs "/tdata/0123456789ABCDEF1")
          = some (2001008, scenarioFields.flatMap streamBytes)
      ∧ (ReadFile toyEnv {} truncatedSafeFs "0123456789ABCDEF" "/tdata/").1 = false) := by
  set_option maxRecDepth 100000 in decide

/-- When no `s` copy exists and both the `0` and the `1` copy exist, one
failing the checks and the other passing them, `ReadFile` returns true with
the descriptor of the accepted copy; when the `s` copy exists and fails the
checks, `ReadFile` returns false. -/
theorem ReadFile_corruption_accept (env : Env) (result : FileReadDescriptor) (fs : FileSystem)
    (name basePath : String) :
    (fs ((basePath ++ name).push 's') = none →
      ∀ f0 f1 v d, fs ((basePath ++ name).push '0') = some f0 →
        fs ((basePath ++ name).push '1') = some f1 →
        ((ReadFile.check env (some f0) = some (v, d) ∧ ReadFile.check env (some f1) = none)
          ∨ (ReadFile.check env (some f0) = none
            ∧ ReadFile.check env (some f1) = some (v, d))) →
        (ReadFile env result fs name basePath).1 = true
        ∧ (ReadFile env result fs name basePath).2.1 = ReadFile.accept result v d)
    ∧ (∀ fS, fs ((basePath ++ name).push 's') = some fS →
        ReadFile.check env (some fS) = none →
        (ReadFile env result fs name basePath).1 = false) := by
  constructor
  · intro hs f0 f1 v d h0 h1 hv
    by_cases hm : f0.lastModified < f1.lastModified
    · have ht : ReadFile.toTry fs name basePath
          = ((basePath ++ name).push '1', (basePath ++ name).push '0') := by
        simp [ReadFile.toTry, hs, h0, h1, hm]
      rcases hv with ⟨hc0, hc1⟩ | ⟨hc0, hc1⟩
      · simp [ReadFile, ht, String.push_ne_empty, h0, h1, hc0, hc1]
      · simp [ReadFile, ht, String.push_ne_empty, h0, h1, hc0, hc1]
    · have ht : ReadFile.toTry fs name basePath
          = ((basePath ++ name).push '0', (basePath ++ name).push '1') := by
        simp [ReadFile.toTry, hs, h0, h1, hm]
      rcases hv with ⟨hc0, hc1⟩ | ⟨hc0, hc1⟩
      · simp [ReadFile, ht, String.push_ne_empty, h0, h1, hc0, hc1]
      · simp [ReadFile, ht, String.push_ne_empty, h0, h1, hc0, hc1]
  · intro fS hs hc
    have ht : ReadFile.toTry fs name basePath = ((basePath ++ name).push 's', "") := by
      simp [ReadFile.toTry, hs]
    simp [ReadFile, ht, String.push_ne_empty, hs, hc]

/-- The descriptor after a candidate was accepted holds its version and its
payload, with the stream at the start of the payload. -/
theorem ReadFile.accept_fields (result : FileReadDescriptor) (v : Int) (d : List Byte) :
    (ReadFile.accept result v d).version = v ∧ (ReadFile.accept result v d).data = d
    ∧ (ReadFile.accept result v d).stream = { data := d, pos := 0, ok := result.ok } :=
  ⟨rfl, rfl, rfl⟩

/-- C4 (amended): when no `s` copy exists and both the `0` and the `1` copy
exist, one failing the checks and the other passing them, `ReadFile` returns
true and exposes the version and payload of the copy that passes:
`result.version` is that version, `result.data` that payload, and
`result.stream` reads that payload from its start. When the `s` copy exists
it is the only candidate, so if it fails the checks `ReadFile` returns false
and leaves the descriptor as it was, whatever the `0` and `1` copies hold. -/
theorem ReadFile_corruption (env : Env) (result : FileReadDescriptor) (fs : FileSystem)
    (name basePath : String) :
    (fs ((basePath ++ name).push 's') = none →
      ∀ f0 f1 v d, fs ((basePath ++ name).push '0') = some f0 →
        fs ((basePath ++ name).push '1') = some f1 →
        ((ReadFile.check env (some f0) = some (v, d) ∧ ReadFile.check env (some f1) = none)
          ∨ (ReadFile.check env (some f0) = none
            ∧ ReadFile.check env (some f1) = some (v, d))) →
        (ReadFile env result fs name basePath).1 = true
        ∧ (ReadFile env result fs name basePath).2.1.version = v
        ∧ (ReadFile env result fs name basePath).2.1.data = d
        ∧ (ReadFile env result fs name basePath).2.1.stream
            = { data := d, pos := 0, ok := result.ok })
    ∧ (∀ fS, fs ((basePath ++ name).push 's') = some fS →
        ReadFile.check env (some fS) = none →
        (ReadFile env result fs name basePath).1 = false
        ∧ (ReadFile env result fs name basePath).2.1 = result) := by
  constructor
  · intro hs f0 f1 v d h0 h1 hv
    obtain ⟨ht, hacc⟩ :=
      (ReadFile_corruption_accept env result fs name basePath).1 hs f0 f1 v d h0 h1 hv
    rw [hacc]
    exact ⟨ht, ReadFile.accept_fields result v d⟩
  · intro fS hs hc
    have hf := (ReadFile_corruption_accept env result fs name basePath).2 fS hs hc
    refine ⟨hf, ?_⟩
    rw [ReadFile_false env result fs name basePath hf]

/-- Witness of the amended C4: a valid `1` copy next to a newer `0` copy with
a changed byte; the version and the payload of the `1` copy are read. -/
theorem ReadFile_corruption_witness :
    (ReadFile toyEnv {} flippedSimpleFs "0123456789ABCDEF" "/tdata/").1 = true
    ∧ (ReadFile toyEnv {} flippedSimpleFs "0123456789ABCDEF" "/tdata/").2.1.version = 2001008
    ∧ (ReadFile toyEnv {} flippedSimpleFs "0123456789ABCDEF" "/tdata/").2.1.data
        = scenarioFields.flatMap streamBytes
    ∧ (ReadFile toyEnv {} flippedSimpleFs "0123456789ABCDEF" "/tdata/").2.1.stream
        = { data := scenarioFields.flatMap streamBytes, pos := 0, ok := true } :=
  (ReadFile_corruption toyEnv {} flippedSimpleFs "0123456789ABCDEF" "/tdata/").1
    (by set_option maxRecDepth 100000 in decide)
    { content := scenarioRecord.set 12 (scenarioRecord.getD 12 0 + 1), lastModified := 6 }
    { content := scenarioRecord, lastModified := 5 }
    2001008 (scenarioFields.flatMap streamBytes)
    (by set_option maxRecDepth 100000 in decide)
    (by set_option maxRecDepth 100000 in decide)
    (Or.inr (by set_option maxRecDepth 100000 in decide))

/-- C8 as stated fails: called with a fresh descriptor, `ReadEncryptedFile`
gives the same flag and the same descriptor when no record exists and when a
valid record exists whose first field fails to decrypt under the given key. -/
theorem ReadEncryptedFile_counterexample :
    (ReadFile toyEnv {} FileSystem.empty "0123456789ABCDEF" "/tdata/").1 = false
    ∧ (ReadFile toyEnv {} encryptedFs "0123456789ABCDEF" "/tdata/").1 = true
    ∧ (DecryptLocal toyEnv {}
        ((ReadFile toyEnv {} encryptedFs "0123456789ABCDEF"
          "/tdata/").2.1.readByteArray).1.toList [8]).1 = false
    ∧ (ReadEncryptedFile toyEnv {} FileSystem.empty "0123456789ABCDEF" "/tdata/" [8]).1
        = (ReadEncryptedFile toyEnv {} encryptedFs "0123456789ABCDEF" "/tdata/" [8]).1
    ∧ (ReadEncryptedFile toyEnv {} FileSystem.empty "0123456789ABCDEF" "/tdata/" [8]).2.1
        = (ReadEncryptedFile toyEnv {} encryptedFs "0123456789ABCDEF" "/tdata/" [8]).2.1 := by
  set_option maxRecDepth 100000 in decide

/-- C8 (amended): `ReadEncryptedFile` returns false both when `ReadFile` finds
no valid candidate, leaving the descriptor and the files as they were, and
when a valid record was found but `DecryptLocal` of its first field fails,
leaving the descriptor reset (version 0, empty data, stream detached). -/
theorem ReadEncryptedFile_failure (env : Env) (result : FileReadDescriptor) (fs : FileSystem)
    (name basePath : String) (key : AuthKey) :
    ((ReadFile env result fs name basePath).1 = false →
      ReadEncryptedFile env result fs name basePath key = (false, result, fs))
    ∧ ((ReadFile env result fs name basePath).1 = true →
      (DecryptLocal env {}
        ((ReadFile env result fs name basePath).2.1.readByteArray).1.toList key).1 = false →
      (ReadEncryptedFile env result fs name basePath key).1 = false
      ∧ (ReadEncryptedFile env result fs name basePath key).2.1.version = 0
      ∧ (ReadEncryptedFile env result fs name basePath key).2.1.data = []
      ∧ (ReadEncryptedFile env result fs name basePath key).2.1.pos = none) := by
  constructor
  · intro h
    have hr := ReadFile_false env result fs name basePath h
    simp [ReadEncryptedFile, hr]
  · intro h hd
    unfold ReadEncryptedFile
    rcases hrf : ReadFile env result fs name basePath with ⟨b, r, fs'⟩
    rw [hrf] at h hd
    simp only at h hd
    subst h
    simp only []
    rcases hdl : DecryptLocal env {} (r.readByteArray).1.toList key with ⟨b2, data⟩
    rw [hdl] at hd
    simp only at hd
    subst hd
    exact ⟨rfl, rfl, rfl, rfl⟩

/-- Witness of the amended C8: the encrypted record read under the wrong key
`8`. -/
theorem ReadEncryptedFile_failure_witness :
    (ReadEncryptedFile toyEnv {} encryptedFs "0123456789ABCDEF" "/tdata/" [8]).1 = false
    ∧ (ReadEncryptedFile toyEnv {} encryptedFs "0123456789ABCDEF" "/tdata/" [8]).2.1.version = 0
    ∧ (ReadEncryptedFile toyEnv {} encryptedFs "0123456789ABCDEF" "/tdata/" [8]).2.1.data = []
    ∧ (ReadEncryptedFile toyEnv {} encryptedFs "0123456789ABCDEF" "/tdata/" [8]).2.1.pos
        = none :=
  (ReadEncryptedFile_failure toyEnv {} encryptedFs "0123456789ABCDEF" "/tdata/" [8]).2
    (by set_option maxRecDepth 100000 in decide)
    (by set_option maxRecDepth 100000 in decide)

end Storage.details

/-! ## Reading at a position -/

theorem ReadStream.readUInt_at (L : List Byte) (p w n : Nat) (rest : List Byte) (ok : Bool)
    (h : L.drop p = beBytes w n ++ rest) :
    ReadStream.readUInt ⟨L, p, ok⟩ w = (n % 256 ^ w, ⟨L, p + w, ok⟩) ∧ L.drop (p + w) = rest := by
  have htake : (L.drop p).take w = beBytes w n := by
    rw [h]; exact List.take_left' (beBytes_length w n)
  constructor
  · simp only [ReadStream.readUInt, ReadStream.readRawData, htake, beBytes_length, if_true,
      beVal_beBytes]
  · rw [← List.drop_drop, h]
    exact List.drop_left' (beBytes_length w n)

theorem ReadStream.readByteArray_at (L : List Byte) (p : Nat) (f : QByteArray)
    (rest : List Byte) (ok : Bool) (hf : f.size < 2 ^ 31)
    (h : L.drop p = streamBytes f ++ rest) :
    ReadStream.readByteArray ⟨L, p, ok⟩ = (f, ⟨L, p + (4 + f.size), ok⟩) := by
  cases f with
  | null =>
    have h1 := ReadStream.readUInt_at L p 4 0xFFFFFFFF rest ok (by simpa [streamBytes] using h)
    unfold ReadStream.readByteArray
    rw [h1.1]
    simp [QByteArray.size, QByteArray.toList]
  | bytes b =>
    have hb : b.length < 2 ^ 31 := hf
    have h1 := ReadStream.readUInt_at L p 4 b.length (b ++ rest) ok
      (by simpa [streamBytes] using h)
    have hmod : b.length % 256 ^ 4 = b.length := Nat.mod_eq_of_lt (by omega)
    have htake : (L.drop (p + 4)).take b.length = b := by
      rw [h1.2]; exact List.take_left' rfl
    unfold ReadStream.readByteArray
    rw [h1.1, hmod]
    have hne : b.length ≠ 0xFFFFFFFF := by omega
    simp only [hne, if_false, ReadStream.readRawData, htake, if_true, QByteArray.size,
      QByteArray.toList]
    simp [Nat.add_assoc]

/-! ## StorageFileLocation -/

namespace StorageFileLocation

/-- A valid location has one of the eight types. -/
theorem type_lt_of_valid (x : StorageFileLocation) (h : x.valid = true) : x._type < 8 := by
  unfold valid at h
  split at h <;> simp_all [Type_.Legacy, Type_.Encrypted, Type_.Secure,
    Type_.Document, Type_.Photo, Type_.Takeout, Type_.PeerPhoto, Type_.StickerSetThumb]

/-- The comparison `operator==` is reflexive. -/
theorem eq_self (x : StorageFileLocation) : eq x x = true := by
  cases hv : x.valid with
  | false => simp [eq, hv]
  | true =>
    have ht := type_lt_of_valid x hv
    obtain ⟨d, t, sl, li, id, ah, vi, ip, im, fr⟩ := x
    simp only at ht
    unfold eq
    rw [hv]
    interval_cases t <;> simp

end StorageFileLocation

namespace StorageFileLocation

theorem typeByte_facts (t : Nat) (ht : t < 8) :
    (kSerializeTypeShift ||| (t % 2 ^ 8)) % 256 ^ 1 ≠ kNonStorageLocationToken
    ∧ ((kSerializeTypeShift ||| (t % 2 ^ 8)) % 256 ^ 1) &&& kSerializeTypeShift ≠ 0
    ∧ ((kSerializeTypeShift ||| (t % 2 ^ 8)) % 256 ^ 1) &&& 0xF7 = t := by
  interval_cases t <;> decide

/-- A valid location whose fields hold values of their types is read back
field by field from its serialized form. -/
theorem FromSerialized_serialize_valid (x : StorageFileLocation) (hw : x.wellTyped)
    (hv : x.valid = true) : FromSerialized x.serialize = some x := by
  obtain ⟨hd, -, hsl, hli, hid, hah, hvi, hip, him, hfr⟩ := hw
  have ht := type_lt_of_valid x hv
  obtain ⟨htok, hshift, hmask⟩ := typeByte_facts x._type ht
  have hser : x.serialize = .bytes (beBytes 2 x._dcId
      ++ (beBytes 1 (kSerializeTypeShift ||| (x._type % 2 ^ 8))
      ++ (beBytes 1 x._sizeLetter
      ++ (beBytes 4 (toUInt32 x._localId)
      ++ (beBytes 8 x._id
      ++ (beBytes 8 x._accessHash
      ++ (beBytes 8 x._volumeId
      ++ (beBytes 4 (toUInt32 x._inMessagePeerId)
      ++ (beBytes 4 (toUInt32 x._inMessageId)
      ++ (streamBytes x._fileReference ++ [])))))))))) := by
    simp only [serialize, hv, if_true, List.append_assoc, List.append_nil]
  generalize hL : (beBytes 2 x._dcId
      ++ (beBytes 1 (kSerializeTypeShift ||| (x._type % 2 ^ 8))
      ++ (beBytes 1 x._sizeLetter
      ++ (beBytes 4 (toUInt32 x._localId)
      ++ (beBytes 8 x._id
      ++ (beBytes 8 x._accessHash
      ++ (beBytes 8 x._volumeId
      ++ (beBytes 4 (toUInt32 x._inMessagePeerId)
      ++ (beBytes 4 (toUInt32 x._inMessageId)
      ++ (streamBytes x._fileReference ++ [])))))))))) = L at hser
  have hne : (QByteArray.bytes L).isEmpty = false := by
    have : 0 < L.length := by
      rw [← hL]; simp only [List.length_append, beBytes_length]; omega
    simp only [QByteArray.isEmpty, QByteArray.size, QByteArray.toList, beq_eq_false_iff_ne]
    omega
  have r1 := ReadStream.readUInt_at L 0 2 _ _ true (by rw [List.drop_zero]; exact hL.symm)
  have r2 := ReadStream.readUInt_at L (0 + 2) 1 _ _ true r1.2
  have r3 := ReadStream.readUInt_at L (0 + 2 + 1) 1 _ _ true r2.2
  have r4 := ReadStream.readUInt_at L (0 + 2 + 1 + 1) 4 _ _ true r3.2
  have r5 := ReadStream.readUInt_at L (0 + 2 + 1 + 1 + 4) 8 _ _ true r4.2
  have r6 := ReadStream.readUInt_at L (0 + 2 + 1 + 1 + 4 + 8) 8 _ _ true r5.2
  have r7 := ReadStream.readUInt_at L (0 + 2 + 1 + 1 + 4 + 8 + 8) 8 _ _ true r6.2
  have r8 := ReadStream.readUInt_at L (0 + 2 + 1 + 1 + 4 + 8 + 8 + 8) 4 _ _ true r7.2
  have r9 := ReadStream.readUInt_at L (0 + 2 + 1 + 1 + 4 + 8 + 8 + 8 + 4) 4 _ _ true r8.2
  have r10 := ReadStream.readByteArray_at L (0 + 2 + 1 + 1 + 4 + 8 + 8 + 8 + 4 + 4)
    x._fileReference [] true hfr r9.2
  have e1 : x._dcId % 256 ^ 2 = x._dcId := Nat.mod_eq_of_lt (by omega)
  have e3 : x._sizeLetter % 256 ^ 1 = x._sizeLetter := Nat.mod_eq_of_lt (by omega)
  have e5 : x._id % 256 ^ 8 = x._id := Nat.mod_eq_of_lt (by omega)
  have e6 : x._accessHash % 256 ^ 8 = x._accessHash := Nat.mod_eq_of_lt (by omega)
  have e7 : x._volumeId % 256 ^ 8 = x._volumeId := Nat.mod_eq_of_lt (by omega)
  have i32 : ∀ i : Int, -(2 ^ 31) ≤ i ∧ i < 2 ^ 31 → toInt32 (toUInt32 i % 256 ^ 4) = i := by
    intro i hi
    have : toUInt32 i % 256 ^ 4 = toUInt32 i := by
      apply Nat.mod_eq_of_lt; unfold toUInt32; omega
    rw [this, toInt32_toUInt32 i hi]
  rw [hser]
  unfold FromSerialized
  rw [hne]
  simp only [QByteArray.toList, Bool.false_eq_true, if_false]
  rw [r1.1]
  simp only []
  rw [r2.1]
  simp only [htok, if_false]
  rw [r3.1]
  simp only []
  rw [r4.1]
  simp only []
  rw [r5.1]
  simp only []
  rw [r6.1]
  simp only []
  rw [r7.1]
  simp only [hshift, ne_eq, not_false_eq_true, if_true]
  rw [r8.1]
  simp only []
  rw [r9.1]
  simp only []
  rw [r10]
  simp only [hmask, e1, e3, e5, e6, e7, i32 _ hli, i32 _ hip, i32 _ him, hv, Bool.and_self,
    if_true]

/-- C3: location serialization round trip. For every `StorageFileLocation`
whose fields hold values of their types, `FromSerialized` of `serialize`
returns a value, and that value is equal to the original under `operator==`. -/
theorem FromSerialized_serialize (x : StorageFileLocation) (hw : x.wellTyped) :
    ∃ y, FromSerialized x.serialize = some y ∧ eq y x = true := by
  cases hv : x.valid with
  | true => exact ⟨x, FromSerialized_serialize_valid x hw hv, eq_self x⟩
  | false =>
    refine ⟨{}, by simp [FromSerialized, serialize, hv, QByteArray.isEmpty, QByteArray.size,
      QByteArray.toList], ?_⟩
    have hd : ({} : StorageFileLocation).valid = false := rfl
    simp [eq, hv, hd]

/-- Witness of C3: the Photo location with id 7, access hash 9 and size
letter `a` (in dc 2). -/
theorem FromSerialized_serialize_witness :
    scenarioPhoto.wellTyped
    ∧ ∃ y, FromSerialized scenarioPhoto.serialize = some y ∧ eq y scenarioPhoto = true :=
  ⟨by decide, FromSerialized_serialize scenarioPhoto (by decide)⟩

end StorageFileLocation

namespace StorageFileLocation

/-- C6: equality and ordering ignore the file reference. Replacing the file
reference of `a` by `r1` and that of `b` by `r2` changes neither the result of
`operator==` nor the result of `operator<`. -/
theorem eq_lt_ignore_fileReference (a b : StorageFileLocation) (r1 r2 : QByteArray) :
    eq { a with _fileReference := r1 } { b with _fileReference := r2 } = eq a b
    ∧ lt { a with _fileReference := r1 } { b with _fileReference := r2 } = lt a b :=
  ⟨rfl, rfl⟩

/-- C7: `refreshFileReference(data)` returns false and leaves the location
unchanged when `data` is empty or equal to the current reference; otherwise
it returns true, `fileReference()` becomes `data`, every other field is
unchanged, `cacheKey()` is the same as before, and the refreshed location
compares equal to the original. -/
theorem refreshFileReference_spec (DocumentCacheKey : Nat → Nat → Storage.Cache.Key)
    (x : StorageFileLocation) (data : QByteArray) :
    ((data.isEmpty = true ∨ x._fileReference.eq data = true) →
      x.refreshFileReference data = (false, x))
    ∧ (¬ (data.isEmpty = true ∨ x._fileReference.eq data = true) →
      (x.refreshFileReference data).1 = true
      ∧ (x.refreshFileReference data).2.fileReference = data
      ∧ (x.refreshFileReference data).2 = { x with _fileReference := data }
      ∧ cacheKey DocumentCacheKey (x.refreshFileReference data).2 = cacheKey DocumentCacheKey x
      ∧ eq (x.refreshFileReference data).2 x = true) := by
  constructor
  · intro h
    have hc : (data.isEmpty || x._fileReference.eq data) = true := by
      simpa [Bool.or_eq_true] using h
    simp [refreshFileReference, hc]
  · intro h
    have hc : (data.isEmpty || x._fileReference.eq data) = false := by
      rw [Bool.eq_false_iff, ne_eq, Bool.or_eq_true]; exact h
    have hr : x.refreshFileReference data = (true, { x with _fileReference := data }) := by
      simp [refreshFileReference, hc]
    rw [hr]
    refine ⟨rfl, rfl, rfl, rfl, ?_⟩
    have h1 : eq { x with _fileReference := data } x = eq x x := rfl
    simp only [h1, eq_self]

/-- Witness of C7: the scenario Photo location, whose reference is null,
refreshed with the empty array (no change) and with the bytes `1, 2`. -/
theorem refreshFileReference_spec_witness :
    scenarioPhoto.refreshFileReference (.bytes []) = (false, scenarioPhoto)
    ∧ (scenarioPhoto.refreshFileReference (.bytes [1, 2])).1 = true
    ∧ (scenarioPhoto.refreshFileReference (.bytes [1, 2])).2.fileReference = .bytes [1, 2]
    ∧ (scenarioPhoto.refreshFileReference (.bytes [1, 2])).2
        = { scenarioPhoto with _fileReference := .bytes [1, 2] }
    ∧ cacheKey toyDocumentCacheKey (scenarioPhoto.refreshFileReference (.bytes [1, 2])).2
        = cacheKey toyDocumentCacheKey scenarioPhoto
    ∧ eq (scenarioPhoto.refreshFileReference (.bytes [1, 2])).2 scenarioPhoto = true :=
  ⟨(refreshFileReference_spec toyDocumentCacheKey scenarioPhoto (.bytes [])).1
      (Or.inl (by decide)),
    (refreshFileReference_spec toyDocumentCacheKey scenarioPhoto (.bytes [1, 2])).2
      (by decide)⟩

end StorageFileLocation

namespace Storage.details

/-- C11: encrypted blob wire format. For a descriptor whose unpadded buffer
has `n >= 4` bytes (and a size a `QByteArray` can have), `PrepareEncrypted`
encrypts a padded plaintext of `m` bytes, `m` being `n` rounded up to a
multiple of 16, whose first 4 bytes are `n`, whose bytes 4 to `n - 1` are the
bytes 4 to `n - 1` of the descriptor, and whose bytes `n` to `m - 1` come from
the random source; the output is the first 16 bytes of SHA1 of the padded
plaintext followed by the `m` bytes of `aesEncryptLocal` of it under the key
and those 16 bytes, so its length is `16 + m`, above 16 and a multiple
of 16. -/
theorem PrepareEncrypted_format (env : Env) (d : EncryptedDescriptor) (key : AuthKey)
    (h4 : 4 ≤ d.data.length) (hmax : d.data.length + 32 ≤ 2 ^ 31) :
    ∃ plain : List Byte,
      (plain.length % 16 = 0 ∧ d.data.length ≤ plain.length
        ∧ plain.length < d.data.length + 16)
      ∧ plain.take 4 = env.nativeBytes 4 d.data.length
      ∧ (plain.take d.data.length).drop 4 = d.data.drop 4
      ∧ plain.drop d.data.length
          = (List.range (plain.length - d.data.length)).map (fun i => env.randByte i)
      ∧ (PrepareEncrypted env d key).2.data = plain
      ∧ (PrepareEncrypted env d key).1
          = (env.hashSha1 plain).take 16
            ++ env.aesEncryptLocal plain key ((env.hashSha1 plain).take 16)
      ∧ (PrepareEncrypted env d key).1.take 16 = (env.hashSha1 plain).take 16
      ∧ (PrepareEncrypted env d key).1.drop 16
          = env.aesEncryptLocal plain key ((env.hashSha1 plain).take 16)
      ∧ (PrepareEncrypted env d key).1.length = 16 + plain.length
      ∧ 16 < (PrepareEncrypted env d key).1.length
      ∧ (PrepareEncrypted env d key).1.length % 16 = 0 := by
  have hn : d.data.length % 2 ^ 32 = d.data.length := Nat.mod_eq_of_lt (by omega)
  have hnat := env.nativeBytes_length 4 d.data.length
  have hfin : d.finish.data = d.data := rfl
  -- the padding `PrepareEncrypted` appends
  obtain ⟨pad, hpadlen, hpadmod, hpad, hprep⟩ : ∃ pad : List Byte,
      pad.length < 16 ∧ (d.data.length + pad.length) % 16 = 0
      ∧ pad = (List.range pad.length).map (fun i => env.randByte i)
      ∧ PrepareEncrypted env d key =
        ((env.hashSha1 (env.nativeBytes 4 d.data.length ++ (d.data ++ pad).drop 4)).take 16
          ++ env.aesEncryptLocal (env.nativeBytes 4 d.data.length ++ (d.data ++ pad).drop 4) key
            ((env.hashSha1 (env.nativeBytes 4 d.data.length
              ++ (d.data ++ pad).drop 4)).take 16),
          { d.finish with data := env.nativeBytes 4 d.data.length ++ (d.data ++ pad).drop 4 }) := by
    by_cases h16 : d.data.length % 16 = 0
    · refine ⟨[], by simp, by simpa using h16, rfl, ?_⟩
      simp only [PrepareEncrypted, hfin, hn, h16, ne_eq, not_true_eq_false, if_false,
        List.append_nil]
    · have hfull : (d.data.length + (16 - d.data.length % 16)) % 2 ^ 32
          = d.data.length + (16 - d.data.length % 16) := Nat.mod_eq_of_lt (by omega)
      refine ⟨(List.range (16 - d.data.length % 16)).map fun i => env.randByte i,
        ?_, ?_, ?_, ?_⟩
      · simp only [List.length_map, List.length_range]; omega
      · simp only [List.length_map, List.length_range]; omega
      · simp only [List.length_map, List.length_range]
      · simp only [PrepareEncrypted, hfin, hn, h16, ne_eq, not_false_eq_true, if_true, hfull,
          Nat.add_sub_cancel_left]
  have hdroplen : ((d.data ++ pad).drop 4).length = d.data.length + pad.length - 4 := by
    simp only [List.length_drop, List.length_append]
  have hdrop4 : (d.data ++ pad).drop 4 = d.data.drop 4 ++ pad :=
    List.drop_append_of_le_length h4
  have hplen : (env.nativeBytes 4 d.data.length ++ (d.data ++ pad).drop 4).length
      = d.data.length + pad.length := by
    rw [List.length_append, hnat, hdroplen]; omega
  have hsha : ((env.hashSha1 (env.nativeBytes 4 d.data.length
      ++ (d.data ++ pad).drop 4)).take 16).length = 16 := by
    simp [env.hashSha1_length]
  have henc := env.aesEncryptLocal_length
    (env.nativeBytes 4 d.data.length ++ (d.data ++ pad).drop 4) key
    ((env.hashSha1 (env.nativeBytes 4 d.data.length ++ (d.data ++ pad).drop 4)).take 16)
  have hprefix : (env.nativeBytes 4 d.data.length ++ d.data.drop 4).length
      = d.data.length := by
    rw [List.length_append, hnat, List.length_drop]; omega
  refine ⟨env.nativeBytes 4 d.data.length ++ (d.data ++ pad).drop 4,
    ⟨by rw [hplen]; exact hpadmod, by rw [hplen]; omega, by rw [hplen]; omega⟩,
    List.take_left' hnat, ?_, ?_, by rw [hprep], by rw [hprep], ?_, ?_, ?_, ?_, ?_⟩
  · rw [hdrop4, ← List.append_assoc, List.take_left' hprefix]
    exact List.drop_left' hnat
  · rw [hplen, Nat.add_sub_cancel_left, hdrop4, ← List.append_assoc,
      List.drop_left' hprefix]
    exact hpad
  · rw [hprep]
    exact List.take_left' hsha
  · rw [hprep]
    exact List.drop_left' hsha
  · rw [hprep]
    simp only [List.length_append, hsha, henc]
  · rw [hprep]
    simp only [List.length_append, hsha, henc, hplen]; omega
  · rw [hprep]
    simp only [List.length_append, hsha, henc, hplen]; omega

/-- Witness of C11: the sized descriptor holding `1, 2, 3`, whose buffer has
7 bytes, gives 16 + 16 bytes. -/
theorem PrepareEncrypted_format_witness :
    ∃ plain : List Byte,
      (plain.length % 16 = 0
        ∧ ((EncryptedDescriptor.sized 3).write [1, 2, 3]).data.length ≤ plain.length
        ∧ plain.length < ((EncryptedDescriptor.sized 3).write [1, 2, 3]).data.length + 16)
      ∧ plain.take 4
          = toyEnv.nativeBytes 4 ((EncryptedDescriptor.sized 3).write [1, 2, 3]).data.length
      ∧ (plain.take ((EncryptedDescriptor.sized 3).write [1, 2, 3]).data.length).drop 4
          = ((EncryptedDescriptor.sized 3).write [1, 2, 3]).data.drop 4
      ∧ plain.drop ((EncryptedDescriptor.sized 3).write [1, 2, 3]).data.length
          = (List.range
              (plain.length - ((EncryptedDescriptor.sized 3).write [1, 2, 3]).data.length)).map
            (fun i => toyEnv.randByte i)
      ∧ (PrepareEncrypted toyEnv ((EncryptedDescriptor.sized 3).write [1, 2, 3]) [9]).2.data
          = plain
      ∧ (PrepareEncrypted toyEnv ((EncryptedDescriptor.sized 3).write [1, 2, 3]) [9]).1
          = (toyEnv.hashSha1 plain).take 16
            ++ toyEnv.aesEncryptLocal plain [9] ((toyEnv.hashSha1 plain).take 16)
      ∧ (PrepareEncrypted toyEnv ((EncryptedDescriptor.sized 3).write [1, 2, 3]) [9]).1.take 16
          = (toyEnv.hashSha1 plain).take 16
      ∧ (PrepareEncrypted toyEnv ((EncryptedDescriptor.sized 3).write [1, 2, 3]) [9]).1.drop 16
          = toyEnv.aesEncryptLocal plain [9] ((toyEnv.hashSha1 plain).take 16)
      ∧ (PrepareEncrypted toyEnv ((EncryptedDescriptor.sized 3).write [1, 2, 3]) [9]).1.length
          = 16 + plain.length
      ∧ 16 < (PrepareEncrypted toyEnv
          ((EncryptedDescriptor.sized 3).write [1, 2, 3]) [9]).1.length
      ∧ (PrepareEncrypted toyEnv
          ((EncryptedDescriptor.sized 3).write [1, 2, 3]) [9]).1.length % 16 = 0 :=
  PrepareEncrypted_format toyEnv ((EncryptedDescriptor.sized 3).write [1, 2, 3]) [9]
    (by decide) (by decide)

end Storage.details

namespace Storage.details

/-- The flag `ReadFile` returns and the descriptor it leaves, against the
first candidate, in the order the specification words, that passes the
checks. -/
theorem ReadFile_candidateOrder_accept (env : Env) (result : FileReadDescriptor) (fs : FileSystem)
    (name basePath : String) :
    (ReadFile env result fs name basePath).1
      = (ReadFile.firstValid env fs (ReadFile.candidateOrder fs name basePath)).isSome
    ∧ (ReadFile env result fs name basePath).2.1
      = (match ReadFile.firstValid env fs (ReadFile.candidateOrder fs name basePath) with
        | some (version, payload) => ReadFile.accept result version payload
        | none => result) := by
  have hcn : ReadFile.check env none = none := rfl
  cases hs : fs ((basePath ++ name).push 's') with
  | some fS =>
    have ht : ReadFile.toTry fs name basePath = ((basePath ++ name).push 's', "") := by
      simp [ReadFile.toTry, hs]
    cases hc : ReadFile.check env (some fS) <;>
      simp [ReadFile, ReadFile.candidateOrder, ReadFile.firstValid, ht, hs, hc,
        String.push_ne_empty]
  | none =>
    cases h0 : fs ((basePath ++ name).push '0') with
    | none =>
      have ht : ReadFile.toTry fs name basePath = ((basePath ++ name).push '1', "") := by
        simp [ReadFile.toTry, hs, h0]
      cases h1 : fs ((basePath ++ name).push '1') with
      | none =>
        simp [ReadFile, ReadFile.candidateOrder, ReadFile.firstValid, ht, hs, h0, h1, hcn,
          String.push_ne_empty]
      | some f1 =>
        cases hc : ReadFile.check env (some f1) <;>
          simp [ReadFile, ReadFile.candidateOrder, ReadFile.firstValid, ht, hs, h0, h1, hc,
            String.push_ne_empty]
    | some f0 =>
      cases h1 : fs ((basePath ++ name).push '1') with
      | none =>
        have ht : ReadFile.toTry fs name basePath = ((basePath ++ name).push '0', "") := by
          simp [ReadFile.toTry, hs, h0, h1]
        cases hc : ReadFile.check env (some f0) <;>
          simp [ReadFile, ReadFile.candidateOrder, ReadFile.firstValid, ht, hs, h0, h1, hc,
            String.push_ne_empty]
      | some f1 =>
        by_cases hm : f0.lastModified < f1.lastModified
        · have ht : ReadFile.toTry fs name basePath
              = ((basePath ++ name).push '1', (basePath ++ name).push '0') := by
            simp [ReadFile.toTry, hs, h0, h1, hm]
          cases hc0 : ReadFile.check env (some f0) <;>
            cases hc1 : ReadFile.check env (some f1) <;>
            simp [ReadFile, ReadFile.candidateOrder, ReadFile.firstValid, ht, hs, h0, h1, hc0,
              hc1, hm, String.push_ne_empty]
        · have ht : ReadFile.toTry fs name basePath
              = ((basePath ++ name).push '0', (basePath ++ name).push '1') := by
            simp [ReadFile.toTry, hs, h0, h1, hm]
          cases hc0 : ReadFile.check env (some f0) <;>
            cases hc1 : ReadFile.check env (some f1) <;>
            simp [ReadFile, ReadFile.candidateOrder, ReadFile.firstValid, ht, hs, h0, h1, hc0,
              hc1, hm, String.push_ne_empty]

/-- C12: read candidate order. The candidates, in the order the
specification words, are the `s` file alone when it exists; otherwise the
more recently modified of `0` and `1` first (`0` on equal times) and the
other as fallback; otherwise the one of them that exists. `ReadFile` returns
true exactly when one of them, tried in this order, passes validation;
`result.version` and `result.data` are then the version and the payload of
the first that does, and `result.stream` reads that payload from its start.
When none passes, `ReadFile` returns false and the descriptor is as before. -/
theorem ReadFile_candidateOrder (env : Env) (result : FileReadDescriptor) (fs : FileSystem)
    (name basePath : String) :
    (ReadFile env result fs name basePath).1
      = (ReadFile.firstValid env fs (ReadFile.candidateOrder fs name basePath)).isSome
    ∧ (∀ version payload,
        ReadFile.firstValid env fs (ReadFile.candidateOrder fs name basePath)
          = some (version, payload) →
        (ReadFile env result fs name basePath).1 = true
        ∧ (ReadFile env result fs name basePath).2.1.version = version
        ∧ (ReadFile env result fs name basePath).2.1.data = payload
        ∧ (ReadFile env result fs name basePath).2.1.stream
            = { data := payload, pos := 0, ok := result.ok })
    ∧ (ReadFile.firstValid env fs (ReadFile.candidateOrder fs name basePath) = none →
        (ReadFile env result fs name basePath).1 = false
        ∧ (ReadFile env result fs name basePath).2.1 = result) := by
  obtain ⟨hflag, hdesc⟩ := ReadFile_candidateOrder_accept env result fs name basePath
  refine ⟨hflag, ?_, ?_⟩
  · intro version payload hfirst
    rw [hfirst] at hflag hdesc
    rw [hdesc]
    exact ⟨hflag, ReadFile.accept_fields result version payload⟩
  · intro hfirst
    rw [hfirst] at hflag hdesc
    exact ⟨hflag, hdesc⟩

/-- Witness of C12: without an `s` copy, the newer `0` copy has a changed byte
and fails validation, and the version and payload of the `1` copy are read. -/
theorem ReadFile_candidateOrder_witness :
    ReadFile.candidateOrder flippedSimpleFs "0123456789ABCDEF" "/tdata/"
      = ["/tdata/0123456789ABCDEF0", "/tdata/0123456789ABCDEF1"]
    ∧ ReadFile.check toyEnv (flippedSimpleFs "/tdata/0123456789ABCDEF0") = none
    ∧ (ReadFile toyEnv {} flippedSimpleFs "0123456789ABCDEF" "/tdata/").1 = true
    ∧ (ReadFile toyEnv {} flippedSimpleFs "0123456789ABCDEF" "/tdata/").2.1.version = 2001008
    ∧ (ReadFile toyEnv {} flippedSimpleFs "0123456789ABCDEF" "/tdata/").2.1.data
        = scenarioFields.flatMap streamBytes
    ∧ (ReadFile toyEnv {} flippedSimpleFs "0123456789ABCDEF" "/tdata/").2.1.stream
        = { data := scenarioFields.flatMap streamBytes, pos := 0, ok := true } :=
  ⟨by set_option maxRecDepth 100000 in decide,
    by set_option maxRecDepth 100000 in decide,
    (ReadFile_candidateOrder toyEnv {} flippedSimpleFs "0123456789ABCDEF" "/tdata/").2.1
      2001008 (scenarioFields.flatMap streamBytes)
      (by set_option maxRecDepth 100000 in decide)⟩

end Storage.details

namespace Storage.details

end Storage.details

namespace Storage.details

/-! ## File keys -/

theorem ToFilePart.loop_data (n val : Nat) (result : String) :
    (ToFilePart.loop n val result).data
      = result.data ++ (List.range n).map (fun i => ToFilePart.digit ((val / 16 ^ i) % 16)) := by
  induction n generalizing val result with
  | zero => simp [ToFilePart.loop]
  | succ n ih =>
    rw [ToFilePart.loop, ih, List.range_succ_eq_map, String.data_push]
    simp only [List.map_cons, List.map_map, List.append_assoc, List.singleton_append,
      pow_zero, Nat.div_one]
    have hand : val &&& 0x0F = val % 16 := Nat.and_pow_two_sub_one_eq_mod val 4
    rw [hand]
    congr 2
    apply List.map_congr_left
    intro i _
    simp only [Function.comp, Nat.succ_eq_add_one]
    congr 2
    rw [Nat.shiftRight_eq_div_pow, Nat.div_div_eq_div_mul, pow_succ]
    congr 1
    ring

theorem ToFilePart.digit_eq_hexDigits (v : Nat) (h : v < 16) :
    some (ToFilePart.digit v) = hexDigits[v]? := by
  interval_cases v <;> rfl

theorem ToFilePart.digit_injective (a b : Nat) (ha : a < 16) (hb : b < 16)
    (h : ToFilePart.digit a = ToFilePart.digit b) : a = b := by
  interval_cases a <;> interval_cases b <;> first | rfl | (exact absurd h (by decide))

/-- Two numbers with the same first `n` nibbles agree modulo `16 ^ n`. -/
theorem nibbles_determine (n a b : Nat)
    (h : ∀ i < n, (a / 16 ^ i) % 16 = (b / 16 ^ i) % 16) : a % 16 ^ n = b % 16 ^ n := by
  induction n with
  | zero => simp [Nat.mod_one]
  | succ n ih =>
    rw [Nat.mod_pow_succ, Nat.mod_pow_succ, ih (fun i hi => h i (by omega)), h n (by omega)]

/-- C15: `FileKey` encoding. `ToFilePart k` has exactly 16 characters, the
character at position `i` is the hexadecimal digit (`0` to `9`, `A` to `F`)
of bits `4i` to `4i + 3` of `k`, least significant nibble first, and distinct
64-bit keys give distinct fragments. -/
theorem ToFilePart_spec (k : Nat) :
    (ToFilePart k).length = 16
    ∧ (∀ i, i < 16 → (ToFilePart k).data[i]? = hexDigits[(k / 2 ^ (4 * i)) % 16]?)
    ∧ (∀ k2, k < 2 ^ 64 → k2 < 2 ^ 64 → ToFilePart k = ToFilePart k2 → k = k2) := by
  have hdata : ∀ v, (ToFilePart v).data
      = (List.range 16).map (fun i => ToFilePart.digit ((v / 16 ^ i) % 16)) := by
    intro v
    have := ToFilePart.loop_data 16 v ""
    simpa [ToFilePart] using this
  refine ⟨?_, ?_, ?_⟩
  · show (ToFilePart k).data.length = 16
    rw [hdata]; simp
  · intro i hi
    rw [hdata, List.getElem?_map, List.getElem?_range hi, Option.map_some',
      ToFilePart.digit_eq_hexDigits _ (Nat.mod_lt _ (by decide))]
    rw [show (2 : Nat) ^ (4 * i) = 16 ^ i by rw [pow_mul]; norm_num]
  · intro k2 hk hk2 heq
    have hd : (ToFilePart k).data = (ToFilePart k2).data := by rw [heq]
    rw [hdata, hdata] at hd
    have hnib : ∀ i < 16, (k / 16 ^ i) % 16 = (k2 / 16 ^ i) % 16 := by
      intro i hi
      have h1 := congrArg (fun l => l[i]?) hd
      simp only [List.getElem?_map, List.getElem?_range hi, Option.map_some',
        Option.some.injEq] at h1
      exact ToFilePart.digit_injective _ _ (Nat.mod_lt _ (by decide))
        (Nat.mod_lt _ (by decide)) h1
    have := nibbles_determine 16 k k2 hnib
    rwa [Nat.mod_eq_of_lt (by norm_num at hk ⊢; omega),
      Nat.mod_eq_of_lt (by norm_num at hk2 ⊢; omega)] at this

/-- Witness of C15: the keys 255 and 4096 give different fragments. -/
theorem ToFilePart_spec_witness :
    (ToFilePart 255).length = 16 ∧ ToFilePart 255 ≠ ToFilePart 4096 :=
  ⟨(ToFilePart_spec 255).1,
    fun h => absurd ((ToFilePart_spec 255).2.2 4096 (by decide) (by decide) h) (by decide)⟩

end Storage.details

namespace Storage.details

theorem KeyAlreadyUsed_iff (fs : FileSystem) (name : String) :
    KeyAlreadyUsed fs name = true ↔
      ((fs (name.push '0')).isSome = true ∨ (fs (name.push '1')).isSome = true
        ∨ (fs (name.push 's')).isSome = true) := by
  unfold KeyAlreadyUsed
  cases (fs (name.push '0')).isSome <;> cases (fs (name.push '1')).isSome <;>
    cases (fs (name.push 's')).isSome <;> simp

/-- C16: fresh key generation. Whenever `GenerateKey` returns a key `k`, for
any sequence of random values and any set of existing files, `k` is nonzero
and none of the files `basePath + ToFilePart(k)` followed by `0`, `1`, `s`
exists; `KeyAlreadyUsed` returns true exactly when at least one of the three
files exists; and the loop does return a key once the random source yields a
nonzero 64-bit value whose three files do not exist. -/
theorem GenerateKey_fresh (rand : Nat → Nat) (fs : FileSystem) (basePath : String) :
    (∀ fuel i k, GenerateKey rand fs basePath fuel i = some k →
      k ≠ 0
      ∧ fs ((basePath ++ ToFilePart k).push '0') = none
      ∧ fs ((basePath ++ ToFilePart k).push '1') = none
      ∧ fs ((basePath ++ ToFilePart k).push 's') = none)
    ∧ (∀ name, KeyAlreadyUsed fs name = true ↔
      ((fs (name.push '0')).isSome = true ∨ (fs (name.push '1')).isSome = true
        ∨ (fs (name.push 's')).isSome = true))
    ∧ (∀ fuel i j, j < fuel → rand (i + j) % 2 ^ 64 ≠ 0 →
      KeyAlreadyUsed fs (basePath ++ ToFilePart (rand (i + j) % 2 ^ 64)) = false →
      (GenerateKey rand fs basePath fuel i).isSome = true) := by
  refine ⟨?_, KeyAlreadyUsed_iff fs, ?_⟩
  · intro fuel
    induction fuel with
    | zero => intro i k h; simp [GenerateKey] at h
    | succ fuel ih =>
      intro i k h
      unfold GenerateKey at h
      simp only at h
      by_cases hc : rand i % 2 ^ 64 = 0
          ∨ KeyAlreadyUsed fs (basePath ++ ToFilePart (rand i % 2 ^ 64)) = true
      · rw [if_pos hc] at h
        exact ih (i + 1) k h
      · rw [if_neg hc, Option.some.injEq] at h
        subst h
        have hused : ¬ KeyAlreadyUsed fs (basePath ++ ToFilePart (rand i % 2 ^ 64)) = true :=
          fun hu => hc (Or.inr hu)
        rw [KeyAlreadyUsed_iff] at hused
        refine ⟨fun h0 => hc (Or.inl h0), ?_, ?_, ?_⟩
        · cases hf : fs ((basePath ++ ToFilePart (rand i % 2 ^ 64)).push '0') with
          | none => rfl
          | some f => exact absurd (Or.inl (by rw [hf]; rfl)) hused
        · cases hf : fs ((basePath ++ ToFilePart (rand i % 2 ^ 64)).push '1') with
          | none => rfl
          | some f => exact absurd (Or.inr (Or.inl (by rw [hf]; rfl))) hused
        · cases hf : fs ((basePath ++ ToFilePart (rand i % 2 ^ 64)).push 's') with
          | none => rfl
          | some f => exact absurd (Or.inr (Or.inr (by rw [hf]; rfl))) hused
  · intro fuel
    induction fuel with
    | zero => intro i j hj; omega
    | succ fuel ih =>
      intro i j hj hne hfree
      unfold GenerateKey
      simp only
      by_cases hc : rand i % 2 ^ 64 = 0
          ∨ KeyAlreadyUsed fs (basePath ++ ToFilePart (rand i % 2 ^ 64)) = true
      · rw [if_pos hc]
        cases j with
        | zero =>
          rw [Nat.add_zero] at hne hfree
          rcases hc with hc | hc
          · exact absurd hc hne
          · rw [hfree] at hc; exact absurd hc (by decide)
        | succ j =>
          apply ih (i + 1) j (by omega)
          · rwa [show i + 1 + j = i + (j + 1) by omega]
          · rwa [show i + 1 + j = i + (j + 1) by omega]
      · rw [if_neg hc]; rfl

/-- Witness of C16: with the random values 0, 255, 255, 4096 and the key 255
taken, the key returned is 4096. -/
theorem GenerateKey_fresh_witness :
    GenerateKey scenarioRand takenFs "/tdata/" 10 0 = some 4096
    ∧ (4096 ≠ 0
      ∧ takenFs (("/tdata/" ++ ToFilePart 4096).push '0') = none
      ∧ takenFs (("/tdata/" ++ ToFilePart 4096).push '1') = none
      ∧ takenFs (("/tdata/" ++ ToFilePart 4096).push 's') = none) :=
  ⟨by decide, (GenerateKey_fresh scenarioRand takenFs "/tdata/").1 10 0 4096 (by decide)⟩

/-- C17: key derivation. `CreateLocalKey` returns PBKDF2-HMAC-SHA512 with
password `SHA512(salt || passcode || salt)`, salt `salt`, the key size as
output length and `N` iterations, where `N = 1` exactly when the passcode is
empty and `N = 100000` otherwise; the result depends only on the bytes of the
passcode and of the salt, and every input gives a key. -/
theorem CreateLocalKey_spec (lib : Openssl) (passcode salt : QByteArray) :
    CreateLocalKey lib passcode salt
      = lib.PKCS5_PBKDF2_HMAC_sha512
          (lib.Sha512 (salt.toList ++ passcode.toList ++ salt.toList)) salt.toList
          (CreateLocalKey.iterationsCount passcode) lib.keySize
    ∧ (CreateLocalKey.iterationsCount passcode = 1 ↔ passcode.isEmpty = true)
    ∧ (CreateLocalKey.iterationsCount passcode = 100000 ↔ passcode.isEmpty = false)
    ∧ (∀ passcode2 salt2 : QByteArray, passcode2.toList = passcode.toList →
        salt2.toList = salt.toList →
        CreateLocalKey lib passcode2 salt2 = CreateLocalKey lib passcode salt) := by
  refine ⟨rfl, ?_, ?_, ?_⟩
  · unfold CreateLocalKey.iterationsCount kStrongIterationsCount
    cases passcode.isEmpty <;> simp
  · unfold CreateLocalKey.iterationsCount kStrongIterationsCount
    cases passcode.isEmpty <;> simp
  · intro p2 s2 hp hs
    have he : p2.isEmpty = passcode.isEmpty := by
      simp only [QByteArray.isEmpty, QByteArray.size, hp]
    simp only [CreateLocalKey, CreateLocalKey.iterationsCount, hp, hs, he]

end Storage.details

namespace Storage.details

/-- Witness of C17: a null passcode and an empty passcode give the same key
under the salt `1`. -/
theorem CreateLocalKey_spec_witness :
    CreateLocalKey toyOpenssl (.bytes []) (.bytes [1])
      = CreateLocalKey toyOpenssl .null (.bytes [1]) :=
  (CreateLocalKey_spec toyOpenssl .null (.bytes [1])).2.2.2 (.bytes []) (.bytes [1]) rfl rfl

end Storage.details

namespace StorageFileLocation

/-! ## Cache keys -/

/-- C18: same object, same cache key. Two valid locations that are equal
under `operator==` have the same `cacheKey()`, for every function
`Data::DocumentCacheKey` of the dc id and the document id. -/
theorem cacheKey_eq_of_eq (DocumentCacheKey : Nat → Nat → Storage.Cache.Key)
    (a b : StorageFileLocation) (ha : a.valid = true) (hb : b.valid = true)
    (h : eq a b = true) :
    cacheKey DocumentCacheKey a = cacheKey DocumentCacheKey b := by
  have hta := type_lt_of_valid a ha
  obtain ⟨d, t, sl, li, id, ah, vi, ip, im, fr⟩ := a
  obtain ⟨d2, t2, sl2, li2, id2, ah2, vi2, ip2, im2, fr2⟩ := b
  simp only at hta
  unfold eq at h
  rw [ha, hb] at h
  simp only [bne_self_eq_false, Bool.false_eq_true, if_false, Bool.not_true] at h
  by_cases hty : t = t2
  · subst hty
    interval_cases t <;> simp at h <;> (try casesm* _ ∧ _) <;> subst_vars <;> rfl
  · simp [hty] at h

/-- Witness of C18: the scenario Photo location and a copy with another file
reference and access hash. -/
theorem cacheKey_eq_of_eq_witness :
    cacheKey toyDocumentCacheKey scenarioPhoto
      = cacheKey toyDocumentCacheKey
          { scenarioPhoto with _fileReference := .bytes [1, 2], _accessHash := 11 } :=
  cacheKey_eq_of_eq toyDocumentCacheKey scenarioPhoto
    { scenarioPhoto with _fileReference := .bytes [1, 2], _accessHash := 11 }
    (by decide) (by decide) (by decide)

end StorageFileLocation

namespace StorageFileLocation

/-- Bits 8 to 15 of a word assembled from a tag below 256 shifted by 8, a
byte, and a value shifted by 16. -/
theorem tag_bits (s d hi : Nat) (hs : s < 256) :
    ((s <<< 8) % 2 ^ 64 ||| (d &&& 0xFF) ||| (hi <<< 16)) / 2 ^ 8 % 2 ^ 8 = s := by
  have h1 : (s <<< 8) % 2 ^ 64 = 2 ^ 8 * s := by
    rw [Nat.shiftLeft_eq, Nat.mul_comm]; exact Nat.mod_eq_of_lt (by omega)
  have h2 : d &&& 0xFF = d % 2 ^ 8 := Nat.and_pow_two_sub_one_eq_mod d 8
  have h3 : 2 ^ 8 * s ||| d % 2 ^ 8 = 2 ^ 8 * s + d % 2 ^ 8 :=
    (Nat.mul_add_lt_is_or (Nat.mod_lt _ (by decide)) s).symm
  have h4 : hi <<< 16 = 2 ^ 16 * hi := by rw [Nat.shiftLeft_eq, Nat.mul_comm]
  have hlow : 2 ^ 8 * s + d % 2 ^ 8 < 2 ^ 16 := by
    have := Nat.mod_lt d (show 0 < 2 ^ 8 by decide); omega
  rw [h1, h2, h3, h4, Nat.or_comm, ← Nat.mul_add_lt_is_or hlow hi]
  have := Nat.mod_lt d (show 0 < 2 ^ 8 by decide)
  omega

theorem tag_bits_alone (s : Nat) (hs : s < 256) : (s <<< 8) % 2 ^ 64 / 2 ^ 8 % 2 ^ 8 = s := by
  have h1 : (s <<< 8) % 2 ^ 64 = 2 ^ 8 * s := by
    rw [Nat.shiftLeft_eq, Nat.mul_comm]; exact Nat.mod_eq_of_lt (by omega)
  rw [h1]; omega

theorem tag_bits_two (s d : Nat) (hs : s < 256) :
    ((s <<< 8) % 2 ^ 64 ||| (d &&& 0xFF)) / 2 ^ 8 % 2 ^ 8 = s := by
  have := tag_bits s d 0 hs
  simpa using this

/-- Bits 8 to 15 of the high word of a cache key that is not a legacy
document key hold the type plus 3. -/
theorem cacheKey_high_bits (DocumentCacheKey : Nat → Nat → Storage.Cache.Key)
    (x : StorageFileLocation) (ht : x._type < 8)
    (hd : ¬ (x._type = Type_.Document ∧ x._sizeLetter = 0)) :
    (cacheKey DocumentCacheKey x).high / 2 ^ 8 % 2 ^ 8 = x._type + 3 := by
  obtain ⟨d, t, sl, li, id, ah, vi, ip, im, fr⟩ := x
  simp only at ht hd
  interval_cases t
  · exact tag_bits 3 d (toUInt32 li) (by decide)
  · exact tag_bits_two 4 d (by decide)
  · have hsl : sl ≠ 0 := fun h => hd ⟨rfl, h⟩
    simp only [cacheKey, hsl, if_false]
    exact tag_bits 5 d sl (by decide)
  · exact tag_bits_two 6 d (by decide)
  · exact tag_bits_alone 7 (by decide)
  · exact tag_bits 8 d sl (by decide)
  · exact tag_bits 9 d (toUInt32 li) (by decide)
  · exact tag_bits 10 d (toUInt32 li) (by decide)

/-- C19: distinct variants never share a cache key. For two locations whose
types are different enumerators, neither being a Document with zero size
letter, bits 8 to 15 of the high word of each `cacheKey()` equal the type
plus 3, so the two cache keys differ. -/
theorem cacheKey_ne_of_type_ne (DocumentCacheKey : Nat → Nat → Storage.Cache.Key)
    (a b : StorageFileLocation) (hta : a._type < 8) (htb : b._type < 8)
    (hne : a._type ≠ b._type)
    (hda : ¬ (a._type = Type_.Document ∧ a._sizeLetter = 0))
    (hdb : ¬ (b._type = Type_.Document ∧ b._sizeLetter = 0)) :
    (cacheKey DocumentCacheKey a).high / 2 ^ 8 % 2 ^ 8 = a._type + 3
    ∧ (cacheKey DocumentCacheKey b).high / 2 ^ 8 % 2 ^ 8 = b._type + 3
    ∧ cacheKey DocumentCacheKey a ≠ cacheKey DocumentCacheKey b := by
  have h1 := cacheKey_high_bits DocumentCacheKey a hta hda
  have h2 := cacheKey_high_bits DocumentCacheKey b htb hdb
  refine ⟨h1, h2, fun h => ?_⟩
  rw [h] at h1
  omega

/-- Witness of C19: the scenario Photo location and the Secure location with
the same dc, id and access hash. -/
theorem cacheKey_ne_of_type_ne_witness :
    cacheKey toyDocumentCacheKey scenarioPhoto
      ≠ cacheKey toyDocumentCacheKey { scenarioPhoto with _type := Type_.Secure } :=
  (cacheKey_ne_of_type_ne toyDocumentCacheKey scenarioPhoto
    { scenarioPhoto with _type := Type_.Secure }
    (by decide) (by decide) (by decide) (by decide) (by decide)).2.2

end StorageFileLocation

/-! ## DownloadLocation -/

theorem ReadStream.drop_after_streamBytes (L : List Byte) (p : Nat) (f : QByteArray)
    (rest : List Byte) (h : L.drop p = streamBytes f ++ rest) :
    L.drop (p + (4 + f.size)) = rest := by
  rw [← List.drop_drop, h]
  exact List.drop_left' (streamBytes_length f)

namespace DownloadLocation

/-- The header of a non-storage serialization is refused by
`StorageFileLocation::FromSerialized` and sends
`DownloadLocation::FromSerialized` to the tagged decoding. -/
theorem header_reads (L rest : List Byte) (t : Nat)
    (hL : L = beBytes 2 0 ++ (beBytes 1 StorageFileLocation.kNonStorageLocationToken
      ++ (beBytes 1 t ++ rest))) :
    ReadStream.readUInt ⟨L, 0, true⟩ 2 = (0, ⟨L, 0 + 2, true⟩)
    ∧ ReadStream.readUInt ⟨L, 0 + 2, true⟩ 1
        = (StorageFileLocation.kNonStorageLocationToken, ⟨L, 0 + 2 + 1, true⟩)
    ∧ ReadStream.readUInt ⟨L, 0 + 2 + 1, true⟩ 1 = (t % 256 ^ 1, ⟨L, 0 + 2 + 1 + 1, true⟩)
    ∧ L.drop (0 + 2 + 1 + 1) = rest
    ∧ (QByteArray.bytes L).isEmpty = false
    ∧ StorageFileLocation.FromSerialized (.bytes L) = none := by
  have r1 := ReadStream.readUInt_at L 0 2 _ _ true (by rw [List.drop_zero]; exact hL)
  have r2 := ReadStream.readUInt_at L (0 + 2) 1 _ _ true r1.2
  have r3 := ReadStream.readUInt_at L (0 + 2 + 1) 1 _ _ true r2.2
  have hne : (QByteArray.bytes L).isEmpty = false := by
    have : 0 < L.length := by
      rw [hL]; simp only [List.length_append, beBytes_length]; omega
    simp only [QByteArray.isEmpty, QByteArray.size, QByteArray.toList, beq_eq_false_iff_ne]
    omega
  refine ⟨r1.1, r2.1, r3.1, r3.2, hne, ?_⟩
  unfold StorageFileLocation.FromSerialized
  rw [hne]
  simp only [QByteArray.toList, Bool.false_eq_true, if_false]
  rw [r1.1]
  simp only []
  rw [r2.1]
  simp [StorageFileLocation.kNonStorageLocationToken]

end DownloadLocation

namespace DownloadLocation

/-- After the header of a non-storage serialization `FromSerialized` runs the
tagged decoding on the rest. -/
theorem FromSerialized_header (codec : Utf8Codec) (L rest : List Byte) (t : Nat)
    (hL : L = beBytes 2 0 ++ (beBytes 1 StorageFileLocation.kNonStorageLocationToken
      ++ (beBytes 1 t ++ rest))) (ht : t < 256) :
    FromSerialized codec (.bytes L)
      = FromSerialized.tagged codec t ⟨L, 0 + 2 + 1 + 1, true⟩ := by
  obtain ⟨r1, r2, r3, -, -, -⟩ := header_reads L rest t hL
  have htm : t % 256 ^ 1 = t := Nat.mod_eq_of_lt (by omega)
  rw [htm] at r3
  unfold FromSerialized
  simp only [QByteArray.toList]
  rw [r1]
  simp only []
  rw [r2]
  simp only [ne_eq, not_true_eq_false, or_self, if_false]
  rw [r3]

theorem FromSerialized.tagged_web (codec : Utf8Codec) (s : ReadStream) :
    FromSerialized.tagged codec NonStorageLocationType.Web s = FromSerialized.web s := rfl

theorem FromSerialized.tagged_geo (codec : Utf8Codec) (s : ReadStream) :
    FromSerialized.tagged codec NonStorageLocationType.Geo s = FromSerialized.geo s := rfl

theorem FromSerialized.tagged_plainUrl (codec : Utf8Codec) (s : ReadStream) :
    FromSerialized.tagged codec NonStorageLocationType.Url s
      = FromSerialized.plainUrl codec s := rfl

theorem FromSerialized.tagged_inMemory (codec : Utf8Codec) (s : ReadStream) :
    FromSerialized.tagged codec NonStorageLocationType.Memory s
      = FromSerialized.inMemory s := rfl

theorem FromSerialized_web (codec : Utf8Codec) (data : WebFileLocation)
    (hu : data._url.size < 2 ^ 31) (ha : data._accessHash < 2 ^ 64) :
    FromSerialized codec (.bytes (beBytes 2 0
      ++ (beBytes 1 StorageFileLocation.kNonStorageLocationToken
      ++ (beBytes 1 NonStorageLocationType.Web
      ++ (streamBytes data._url ++ (beBytes 8 data._accessHash ++ []))))))
      = some ⟨.web data⟩ := by
  generalize hL : (beBytes 2 0
      ++ (beBytes 1 StorageFileLocation.kNonStorageLocationToken
      ++ (beBytes 1 NonStorageLocationType.Web
      ++ (streamBytes data._url ++ (beBytes 8 data._accessHash ++ []))))) = L
  obtain ⟨-, -, -, hrest, -, -⟩ := header_reads L _ _ hL.symm
  have r4 := ReadStream.readByteArray_at L (0 + 2 + 1 + 1) data._url _ true hu hrest
  have r5 := ReadStream.readUInt_at L (0 + 2 + 1 + 1 + (4 + data._url.size)) 8 _ _ true
    (ReadStream.drop_after_streamBytes L _ _ _ hrest)
  have e5 : data._accessHash % 256 ^ 8 = data._accessHash := Nat.mod_eq_of_lt (by omega)
  rw [FromSerialized_header codec L _ _ hL.symm (by decide)]
  rw [FromSerialized.tagged_web]
  unfold FromSerialized.web
  rw [r4]
  simp only []
  rw [r5.1, e5]
  simp

theorem FromSerialized_memory (codec : Utf8Codec) (data : InMemoryLocation)
    (hu : data.bytes.size < 2 ^ 31) :
    FromSerialized codec (.bytes (beBytes 2 0
      ++ (beBytes 1 StorageFileLocation.kNonStorageLocationToken
      ++ (beBytes 1 NonStorageLocationType.Memory ++ (streamBytes data.bytes ++ [])))))
      = some ⟨.inMemory data⟩ := by
  generalize hL : (beBytes 2 0
      ++ (beBytes 1 StorageFileLocation.kNonStorageLocationToken
      ++ (beBytes 1 NonStorageLocationType.Memory ++ (streamBytes data.bytes ++ [])))) = L
  obtain ⟨-, -, -, hrest, -, -⟩ := header_reads L _ _ hL.symm
  have r4 := ReadStream.readByteArray_at L (0 + 2 + 1 + 1) data.bytes _ true hu hrest
  rw [FromSerialized_header codec L _ _ hL.symm (by decide)]
  rw [FromSerialized.tagged_inMemory]
  unfold FromSerialized.inMemory
  rw [r4]
  simp

theorem FromSerialized_plainUrl (codec : Utf8Codec) (data : PlainUrlLocation)
    (hu : (codec.toUtf8 data.url).size < 2 ^ 31)
    (hutf : codec.FromUtf8Safe (codec.toUtf8 data.url) = data.url) :
    FromSerialized codec (.bytes (beBytes 2 0
      ++ (beBytes 1 StorageFileLocation.kNonStorageLocationToken
      ++ (beBytes 1 NonStorageLocationType.Url
      ++ (streamBytes (codec.toUtf8 data.url) ++ [])))))
      = some ⟨.plainUrl data⟩ := by
  generalize hL : (beBytes 2 0
      ++ (beBytes 1 StorageFileLocation.kNonStorageLocationToken
      ++ (beBytes 1 NonStorageLocationType.Url
      ++ (streamBytes (codec.toUtf8 data.url) ++ [])))) = L
  obtain ⟨-, -, -, hrest, -, -⟩ := header_reads L _ _ hL.symm
  have r4 := ReadStream.readByteArray_at L (0 + 2 + 1 + 1) (codec.toUtf8 data.url) _ true hu
    hrest
  rw [FromSerialized_header codec L _ _ hL.symm (by decide)]
  rw [FromSerialized.tagged_plainUrl]
  unfold FromSerialized.plainUrl
  rw [r4]
  simp [hutf]

theorem FromSerialized_geo (codec : Utf8Codec) (data : GeoPointLocation)
    (hw : data.lat < 2 ^ 64 ∧ data.lon < 2 ^ 64 ∧ data.access < 2 ^ 64
      ∧ (-(2 ^ 31) ≤ data.width ∧ data.width < 2 ^ 31)
      ∧ (-(2 ^ 31) ≤ data.height ∧ data.height < 2 ^ 31)
      ∧ (-(2 ^ 31) ≤ data.zoom ∧ data.zoom < 2 ^ 31)
      ∧ (-(2 ^ 31) ≤ data.scale ∧ data.scale < 2 ^ 31)) :
    FromSerialized codec (.bytes (beBytes 2 0
      ++ (beBytes 1 StorageFileLocation.kNonStorageLocationToken
      ++ (beBytes 1 NonStorageLocationType.Geo
      ++ (beBytes 8 data.lat ++ (beBytes 8 data.lon ++ (beBytes 8 data.access
      ++ (beBytes 4 (toUInt32 data.width) ++ (beBytes 4 (toUInt32 data.height)
      ++ (beBytes 4 (toUInt32 data.zoom) ++ (beBytes 4 (toUInt32 data.scale) ++ [])))))))))))
      = some ⟨.geo data⟩ := by
  obtain ⟨hlat, hlon, hacc, hwi, hhe, hzo, hsc⟩ := hw
  generalize hL : (beBytes 2 0
      ++ (beBytes 1 StorageFileLocation.kNonStorageLocationToken
      ++ (beBytes 1 NonStorageLocationType.Geo
      ++ (beBytes 8 data.lat ++ (beBytes 8 data.lon ++ (beBytes 8 data.access
      ++ (beBytes 4 (toUInt32 data.width) ++ (beBytes 4 (toUInt32 data.height)
      ++ (beBytes 4 (toUInt32 data.zoom) ++ (beBytes 4 (toUInt32 data.scale) ++ [])))))))))) = L
  obtain ⟨-, -, -, hrest, -, -⟩ := header_reads L _ _ hL.symm
  have r4 := ReadStream.readUInt_at L (0 + 2 + 1 + 1) 8 _ _ true hrest
  have r5 := ReadStream.readUInt_at L (0 + 2 + 1 + 1 + 8) 8 _ _ true r4.2
  have r6 := ReadStream.readUInt_at L (0 + 2 + 1 + 1 + 8 + 8) 8 _ _ true r5.2
  have r7 := ReadStream.readUInt_at L (0 + 2 + 1 + 1 + 8 + 8 + 8) 4 _ _ true r6.2
  have r8 := ReadStream.readUInt_at L (0 + 2 + 1 + 1 + 8 + 8 + 8 + 4) 4 _ _ true r7.2
  have r9 := ReadStream.readUInt_at L (0 + 2 + 1 + 1 + 8 + 8 + 8 + 4 + 4) 4 _ _ true r8.2
  have r10 := ReadStream.readUInt_at L (0 + 2 + 1 + 1 + 8 + 8 + 8 + 4 + 4 + 4) 4 _ _ true r9.2
  have e4 : data.lat % 256 ^ 8 = data.lat := Nat.mod_eq_of_lt (by omega)
  have e5 : data.lon % 256 ^ 8 = data.lon := Nat.mod_eq_of_lt (by omega)
  have e6 : data.access % 256 ^ 8 = data.access := Nat.mod_eq_of_lt (by omega)
  have i32 : ∀ i : Int, -(2 ^ 31) ≤ i ∧ i < 2 ^ 31 → toInt32 (toUInt32 i % 256 ^ 4) = i := by
    intro i hi
    have : toUInt32 i % 256 ^ 4 = toUInt32 i := by
      apply Nat.mod_eq_of_lt; unfold toUInt32; omega
    rw [this, toInt32_toUInt32 i hi]
  rw [FromSerialized_header codec L _ _ hL.symm (by decide)]
  rw [FromSerialized.tagged_geo]
  unfold FromSerialized.geo
  rw [r4.1]
  dsimp only
  rw [r5.1]
  dsimp only
  rw [r6.1]
  dsimp only
  rw [r7.1]
  dsimp only
  rw [r8.1]
  dsimp only
  rw [r9.1]
  dsimp only
  rw [r10.1]
  simp only [e4, e5, e6, i32 _ hwi, i32 _ hhe, i32 _ hzo, i32 _ hsc, if_true]

end DownloadLocation

namespace DownloadLocation

theorem header_take (rest : List Byte) :
    List.take 3 (beBytes 2 0 ++ (beBytes 1 StorageFileLocation.kNonStorageLocationToken ++ rest))
      = [0, 0, 0x10] := by
  have h1 : beBytes 2 0 = [0, 0] := by decide
  have h2 : beBytes 1 StorageFileLocation.kNonStorageLocationToken = [0x10] := by decide
  rw [h1, h2]
  rfl

/-- C20: non-storage locations round trip through the sentinel encoding. For
a valid `DownloadLocation` holding a Web, Geo, Url or InMemory alternative
whose fields are values of their types (for Url: whose url the UTF-8
conversions carry there and back), `serialize` gives bytes that start with a
16-bit zero and the token byte `0x10`, `StorageFileLocation::FromSerialized`
of them is nullopt, and `DownloadLocation::FromSerialized` of them is the
same alternative with the same field values. -/
theorem serialize_nonStorage_roundtrip (codec : Utf8Codec) (x : DownloadLocation)
    (hv : x.valid = true) (hns : x.isStorage = false) (hw : x.wellTyped codec)
    (hutf : ∀ u, x.data = .plainUrl u → codec.FromUtf8Safe (codec.toUtf8 u.url) = u.url) :
    ∃ bytes : List Byte, x.serialize codec = some (.bytes bytes)
      ∧ bytes.take 3 = [0, 0, 0x10]
      ∧ StorageFileLocation.FromSerialized (.bytes bytes) = none
      ∧ FromSerialized codec (.bytes bytes) = some x := by
  have hcond : (!x.valid || x.isStorage) = false := by rw [hv, hns]; rfl
  obtain ⟨data⟩ := x
  cases data with
  | storage d => simp [isStorage] at hns
  | web d =>
    refine ⟨beBytes 2 0 ++ (beBytes 1 StorageFileLocation.kNonStorageLocationToken
      ++ (beBytes 1 NonStorageLocationType.Web
      ++ (streamBytes d._url ++ (beBytes 8 d._accessHash ++ [])))), ?_, header_take _, ?_, ?_⟩
    · simp only [serialize, hcond, Bool.false_eq_true, if_false, WebFileLocation.url,
        WebFileLocation.accessHash, List.append_assoc, List.append_nil]
    · exact (header_reads _ _ _ rfl).2.2.2.2.2
    · exact FromSerialized_web codec d hw.1 hw.2
  | geo d =>
    refine ⟨beBytes 2 0 ++ (beBytes 1 StorageFileLocation.kNonStorageLocationToken
      ++ (beBytes 1 NonStorageLocationType.Geo
      ++ (beBytes 8 d.lat ++ (beBytes 8 d.lon ++ (beBytes 8 d.access
      ++ (beBytes 4 (toUInt32 d.width) ++ (beBytes 4 (toUInt32 d.height)
      ++ (beBytes 4 (toUInt32 d.zoom) ++ (beBytes 4 (toUInt32 d.scale) ++ []))))))))),
      ?_, header_take _, ?_, ?_⟩
    · simp only [serialize, hcond, Bool.false_eq_true, if_false, List.append_assoc,
        List.append_nil]
    · exact (header_reads _ _ _ rfl).2.2.2.2.2
    · exact FromSerialized_geo codec d hw
  | plainUrl d =>
    refine ⟨beBytes 2 0 ++ (beBytes 1 StorageFileLocation.kNonStorageLocationToken
      ++ (beBytes 1 NonStorageLocationType.Url
      ++ (streamBytes (codec.toUtf8 d.url) ++ []))), ?_, header_take _, ?_, ?_⟩
    · simp only [serialize, hcond, Bool.false_eq_true, if_false, List.append_assoc,
        List.append_nil]
    · exact (header_reads _ _ _ rfl).2.2.2.2.2
    · exact FromSerialized_plainUrl codec d hw (hutf d rfl)
  | inMemory d =>
    refine ⟨beBytes 2 0 ++ (beBytes 1 StorageFileLocation.kNonStorageLocationToken
      ++ (beBytes 1 NonStorageLocationType.Memory ++ (streamBytes d.bytes ++ []))),
      ?_, header_take _, ?_, ?_⟩
    · simp only [serialize, hcond, Bool.false_eq_true, if_false, List.append_assoc,
        List.append_nil]
    · exact (header_reads _ _ _ rfl).2.2.2.2.2
    · exact FromSerialized_memory codec d hw

/-- Witness of C20: the Url location `t.me/x`; the Web, Geo and InMemory
locations of the evaluations go through the same theorem. -/
theorem serialize_nonStorage_roundtrip_witness :
    (∃ bytes : List Byte, scenarioUrl.serialize toyCodec = some (.bytes bytes)
      ∧ bytes.take 3 = [0, 0, 0x10]
      ∧ StorageFileLocation.FromSerialized (.bytes bytes) = none
      ∧ FromSerialized toyCodec (.bytes bytes) = some scenarioUrl)
    ∧ (∃ bytes : List Byte, scenarioGeo.serialize toyCodec = some (.bytes bytes)
      ∧ bytes.take 3 = [0, 0, 0x10]
      ∧ StorageFileLocation.FromSerialized (.bytes bytes) = none
      ∧ FromSerialized toyCodec (.bytes bytes) = some scenarioGeo)
    ∧ (∃ bytes : List Byte, scenarioWeb.serialize toyCodec = some (.bytes bytes)
      ∧ bytes.take 3 = [0, 0, 0x10]
      ∧ StorageFileLocation.FromSerialized (.bytes bytes) = none
      ∧ FromSerialized toyCodec (.bytes bytes) = some scenarioWeb)
    ∧ (∃ bytes : List Byte, scenarioMemory.serialize toyCodec = some (.bytes bytes)
      ∧ bytes.take 3 = [0, 0, 0x10]
      ∧ StorageFileLocation.FromSerialized (.bytes bytes) = none
      ∧ FromSerialized toyCodec (.bytes bytes) = some scenarioMemory) :=
  ⟨serialize_nonStorage_roundtrip toyCodec scenarioUrl (by decide) (by decide)
      (by show (toyCodec.toUtf8 "t.me/x").size < 2 ^ 31; decide)
      (by intro u hu; cases hu; decide),
    serialize_nonStorage_roundtrip toyCodec scenarioGeo (by decide) (by decide)
      (by unfold wellTyped scenarioGeo; norm_num) (by intro u hu; cases hu),
    serialize_nonStorage_roundtrip toyCodec scenarioWeb (by decide) (by decide)
      (by unfold wellTyped scenarioWeb; norm_num [QByteArray.size, QByteArray.toList])
      (by intro u hu; cases hu),
    serialize_nonStorage_roundtrip toyCodec scenarioMemory (by decide) (by decide)
      (by unfold wellTyped scenarioMemory; norm_num [QByteArray.size, QByteArray.toList])
      (by intro u hu; cases hu)⟩

end DownloadLocation

namespace Storage.details

/-! ## Integrity of accepted records -/

/-- After any sequence of `writeData` calls `fullSize` is the byte length of
the staged payload and the bytes fed to the running MD5 are the staged payload
(per field the big-endian length word, `0xFFFFFFFF` for a null blob, then the
raw bytes); the record built from such a descriptor ends with the MD5 of
payload, payload length, `AppVersion` and magic and passes the checks of
`ReadFile`. -/
theorem writeData_feed (env : Env) (fields : List QByteArray) (name basePath : String)
    (now : Nat) :
    (fields.foldl (FileWriteDescriptor.writeData env)
        (FileWriteDescriptor.create name basePath)).fullSize
      = ((fields.foldl (FileWriteDescriptor.writeData env)
          (FileWriteDescriptor.create name basePath)).safeData.length : Int)
    ∧ (fields.foldl (FileWriteDescriptor.writeData env)
        (FileWriteDescriptor.create name basePath)).md5
      = (fields.foldl (FileWriteDescriptor.writeData env)
          (FileWriteDescriptor.create name basePath)).safeData
    ∧ (fields.foldl (FileWriteDescriptor.writeData env)
        (FileWriteDescriptor.create name basePath)).md5
      = fields.flatMap (fun f =>
          (if f.isNull then beBytes 4 0xFFFFFFFF else beBytes 4 f.size) ++ f.toList)
    ∧ FileWriteDescriptor.record env (fields.foldl (FileWriteDescriptor.writeData env)
        (FileWriteDescriptor.create name basePath))
      = [84, 68, 70, 36] ++ env.nativeBytes 4 (toUInt32 env.AppVersion)
        ++ (fields.foldl (FileWriteDescriptor.writeData env)
            (FileWriteDescriptor.create name basePath)).safeData
        ++ env.hashMd5 ((fields.foldl (FileWriteDescriptor.writeData env)
              (FileWriteDescriptor.create name basePath)).safeData
            ++ env.nativeBytes 4 (toUInt32 (((fields.foldl (FileWriteDescriptor.writeData env)
              (FileWriteDescriptor.create name basePath)).safeData.length : Nat) : Int))
            ++ env.nativeBytes 4 (toUInt32 env.AppVersion) ++ [84, 68, 70, 36])
    ∧ ReadFile.check env
        (some ⟨FileWriteDescriptor.record env (fields.foldl (FileWriteDescriptor.writeData env)
          (FileWriteDescriptor.create name basePath)), now, true⟩)
      = some (env.AppVersion, (fields.foldl (FileWriteDescriptor.writeData env)
          (FileWriteDescriptor.create name basePath)).safeData) := by
  obtain ⟨h1, h2, h3, -, -⟩ := FileWriteDescriptor.foldl_writeData env fields
    (FileWriteDescriptor.create name basePath) rfl
  have hsd : (fields.foldl (FileWriteDescriptor.writeData env)
      (FileWriteDescriptor.create name basePath)).safeData = fields.flatMap streamBytes := by
    rw [h1]; rfl
  have hmd : (fields.foldl (FileWriteDescriptor.writeData env)
      (FileWriteDescriptor.create name basePath)).md5 = fields.flatMap streamBytes := by
    rw [h2]; rfl
  have hfs : (fields.foldl (FileWriteDescriptor.writeData env)
      (FileWriteDescriptor.create name basePath)).fullSize
      = ((fields.flatMap streamBytes).length : Int) := by
    rw [h3]; simp [FileWriteDescriptor.create]
  have hfun : streamBytes = fun f : QByteArray =>
      (if f.isNull then beBytes 4 0xFFFFFFFF else beBytes 4 f.size) ++ f.toList := by
    funext f
    cases f <;> simp [streamBytes, QByteArray.isNull, QByteArray.size, QByteArray.toList]
  refine ⟨by rw [hfs, hsd], by rw [hmd, hsd], by rw [hmd, hfun], ?_,
    ReadFile.check_record env _ now (by rw [hmd, hsd]) (by rw [hfs, hsd])⟩
  unfold FileWriteDescriptor.record
  rw [hmd, hfs, hsd, List.take_of_length_le (by rw [env.hashMd5_length])]
  rfl

/-- With every removal taking effect and the whole record reaching the plain
file, `finishWith` is `finish`. -/
theorem FileWriteDescriptor.finishWith_effective (env : Env) (w : FileWriteDescriptor)
    (io : FileWriteDescriptor.Outcome) (fx : FileWriteDescriptor.Effects) (now : Nat)
    (fs : FileSystem) (h0 : fx.removesSimple = true) (h1 : fx.removesBackup = true)
    (hs : fx.removesSafe = true)
    (hfull : (FileWriteDescriptor.record env w).length ≤ fx.plainWritten) :
    FileWriteDescriptor.finishWith env w io fx now fs
      = FileWriteDescriptor.finish env w io now fs := by
  unfold FileWriteDescriptor.finishWith FileWriteDescriptor.finish
  simp only [h0, h1, hs, if_true, List.take_of_length_le hfull]

/-- The file system after `finishWith` took the plain path with the whole
record reaching the `0` file. -/
theorem FileWriteDescriptor.finishWith_plain (env : Env) (w : FileWriteDescriptor)
    (io : FileWriteDescriptor.Outcome) (fx : FileWriteDescriptor.Effects) (now : Nat)
    (fs : FileSystem) (hdev : w.device = true)
    (hsafe : (io.saveOpens && io.saveCommits) = false) (hplain : io.plainOpens = true)
    (hfull : (FileWriteDescriptor.record env w).length ≤ fx.plainWritten) :
    (FileWriteDescriptor.finishWith env w io fx now fs).2
      = if io.renames then
          (((if fx.removesBackup then
              (fs.write (w.base.push '0') ⟨FileWriteDescriptor.record env w, now, true⟩).remove
                (w.base.push '1')
            else fs.write (w.base.push '0') ⟨FileWriteDescriptor.record env w, now, true⟩).write
            (w.base.push 's') ⟨FileWriteDescriptor.record env w, now, true⟩).remove
            (w.base.push '0'))
        else if fx.removesSafe then
          (if fx.removesBackup then
              (fs.write (w.base.push '0') ⟨FileWriteDescriptor.record env w, now, true⟩).remove
                (w.base.push '1')
            else fs.write (w.base.push '0') ⟨FileWriteDescriptor.record env w, now, true⟩).remove
            (w.base.push 's')
        else
          (if fx.removesBackup then
              (fs.write (w.base.push '0') ⟨FileWriteDescriptor.record env w, now, true⟩).remove
                (w.base.push '1')
            else fs.write (w.base.push '0') ⟨FileWriteDescriptor.record env w, now, true⟩) := by
  unfold FileWriteDescriptor.finishWith
  simp only [hdev, hsafe, hplain, List.take_of_length_le hfull, FileWriteDescriptor.path,
    Bool.not_true, Bool.false_eq_true, if_false, if_true]
  cases io.renames <;> rfl

/-- When the `s` file exists it alone is read: `ReadFile` returns true exactly
when it passes the checks, with its version and payload. -/
theorem ReadFile_safe_only (env : Env) (result : FileReadDescriptor) (fs : FileSystem)
    (name basePath : String) (f : File) (hs : fs ((basePath ++ name).push 's') = some f) :
    (ReadFile env result fs name basePath).1 = (ReadFile.check env (some f)).isSome
    ∧ (∀ v d, ReadFile.check env (some f) = some (v, d) →
        (ReadFile env result fs name basePath).2.1.version = v
        ∧ (ReadFile env result fs name basePath).2.1.data = d) := by
  have ht : ReadFile.toTry fs name basePath = ((basePath ++ name).push 's', "") := by
    simp [ReadFile.toTry, hs]
  cases hc : ReadFile.check env (some f) with
  | none => simp [ReadFile, ht, String.push_ne_empty, hs, hc]
  | some vd =>
    obtain ⟨v, d⟩ := vd
    rw [ReadFile_of_safe env result fs name basePath f v d hs hc]
    refine ⟨rfl, ?_⟩
    intro v2 d2 h
    have := Option.some.inj h
    simp only [Prod.mk.injEq] at this
    obtain ⟨rfl, rfl⟩ := this
    exact ⟨rfl, rfl⟩

/-- C14 as stated fails: an older record sits under the `s` name, the safe
write and the rename fail and the `s` file cannot be removed. The new record
is in the `0` file and passes the checks, yet the `s` file is still there and
a following `ReadFile` returns true with the payload of the older record. -/
theorem finish_degraded_counterexample :
    ReadFile.check toyEnv
        ((FileWriteDescriptor.finishWith toyEnv
          (scenarioFields.foldl (FileWriteDescriptor.writeData toyEnv)
            (FileWriteDescriptor.create "0123456789ABCDEF" "/tdata/"))
          degraded safeStuck 7 staleFs).2 "/tdata/0123456789ABCDEF0")
      = some (2001008, scenarioFields.flatMap streamBytes)
    ∧ (FileWriteDescriptor.finishWith toyEnv
          (scenarioFields.foldl (FileWriteDescriptor.writeData toyEnv)
            (FileWriteDescriptor.create "0123456789ABCDEF" "/tdata/"))
          degraded safeStuck 7 staleFs).2 "/tdata/0123456789ABCDEFs"
      = staleFs "/tdata/0123456789ABCDEFs"
    ∧ (ReadFile toyEnv {} (FileWriteDescriptor.finishWith toyEnv
          (scenarioFields.foldl (FileWriteDescriptor.writeData toyEnv)
            (FileWriteDescriptor.create "0123456789ABCDEF" "/tdata/"))
          degraded safeStuck 7 staleFs).2 "0123456789ABCDEF" "/tdata/").1 = true
    ∧ (ReadFile toyEnv {} (FileWriteDescriptor.finishWith toyEnv
          (scenarioFields.foldl (FileWriteDescriptor.writeData toyEnv)
            (FileWriteDescriptor.create "0123456789ABCDEF" "/tdata/"))
          degraded safeStuck 7 staleFs).2 "0123456789ABCDEF" "/tdata/").2.1.data
      = streamBytes (.bytes [1])
    ∧ streamBytes (.bytes [1]) ≠ scenarioFields.flatMap streamBytes := by
  set_option maxRecDepth 100000 in decide

/-- C14 (amended): degraded write path of `finish`. After any sequence of
`writeData` calls, when the safe write fails, the `0` file can be opened for
writing and the writes to it take effect: the `1` file is gone when there was
none or its removal takes effect. When the rename also fails, the `0` file
holds the full record (header, payload, digest); when in addition there was no
`s` file or its removal takes effect, no `s` file exists, and with the `1`
file gone a following `ReadFile` of the same name returns true with
`AppVersion` and the payload just written; when there was an `s` file and its
removal fails, it stays and `ReadFile` reads it alone: the flag, version and
payload are the ones of that older file. When the rename succeeds the record
is in the `s` file, the `0` file is gone and `ReadFile` returns true with the
payload just written. -/
theorem finish_degraded (env : Env) (fields : List QByteArray) (name basePath : String)
    (io : FileWriteDescriptor.Outcome) (fx : FileWriteDescriptor.Effects) (now : Nat)
    (fs : FileSystem) (result : FileReadDescriptor)
    (hsafe : (io.saveOpens && io.saveCommits) = false) (hplain : io.plainOpens = true)
    (hfull : (FileWriteDescriptor.record env (fields.foldl (FileWriteDescriptor.writeData env)
      (FileWriteDescriptor.create name basePath))).length ≤ fx.plainWritten) :
    ((fx.removesBackup = true ∨ fs ((basePath ++ name).push '1') = none) →
      (FileWriteDescriptor.finishWith env
        (fields.foldl (FileWriteDescriptor.writeData env)
          (FileWriteDescriptor.create name basePath)) io fx now fs).2
        ((basePath ++ name).push '1') = none)
    ∧ (io.renames = false →
      (FileWriteDescriptor.finishWith env
        (fields.foldl (FileWriteDescriptor.writeData env)
          (FileWriteDescriptor.create name basePath)) io fx now fs).2
        ((basePath ++ name).push '0')
        = some ⟨[84, 68, 70, 36] ++ env.nativeBytes 4 (toUInt32 env.AppVersion)
            ++ fields.flatMap streamBytes
            ++ env.hashMd5 (fields.flatMap streamBytes
              ++ env.nativeBytes 4 (toUInt32 ((fields.flatMap streamBytes).length : Int))
              ++ env.nativeBytes 4 (toUInt32 env.AppVersion) ++ [84, 68, 70, 36]), now, true⟩
      ∧ ((fx.removesSafe = true ∨ fs ((basePath ++ name).push 's') = none) →
        (FileWriteDescriptor.finishWith env
          (fields.foldl (FileWriteDescriptor.writeData env)
            (FileWriteDescriptor.create name basePath)) io fx now fs).2
          ((basePath ++ name).push 's') = none
        ∧ ((fx.removesBackup = true ∨ fs ((basePath ++ name).push '1') = none) →
          (ReadFile env result (FileWriteDescriptor.finishWith env
            (fields.foldl (FileWriteDescriptor.writeData env)
              (FileWriteDescriptor.create name basePath)) io fx now fs).2 name basePath).1
            = true
          ∧ (ReadFile env result (FileWriteDescriptor.finishWith env
            (fields.foldl (FileWriteDescriptor.writeData env)
              (FileWriteDescriptor.create name basePath)) io fx now fs).2
              name basePath).2.1.version = env.AppVersion
          ∧ (ReadFile env result (FileWriteDescriptor.finishWith env
            (fields.foldl (FileWriteDescriptor.writeData env)
              (FileWriteDescriptor.create name basePath)) io fx now fs).2
              name basePath).2.1.data = fields.flatMap streamBytes))
      ∧ (fx.removesSafe = false → ∀ f, fs ((basePath ++ name).push 's') = some f →
        (FileWriteDescriptor.finishWith env
          (fields.foldl (FileWriteDescriptor.writeData env)
            (FileWriteDescriptor.create name basePath)) io fx now fs).2
          ((basePath ++ name).push 's') = some f
        ∧ (ReadFile env result (FileWriteDescriptor.finishWith env
            (fields.foldl (FileWriteDescriptor.writeData env)
              (FileWriteDescriptor.create name basePath)) io fx now fs).2 name basePath).1
            = (ReadFile.check env (some f)).isSome
        ∧ (∀ v d, ReadFile.check env (some f) = some (v, d) →
          (ReadFile env result (FileWriteDescriptor.finishWith env
            (fields.foldl (FileWriteDescriptor.writeData env)
              (FileWriteDescriptor.create name basePath)) io fx now fs).2
              name basePath).2.1.version = v
          ∧ (ReadFile env result (FileWriteDescriptor.finishWith env
            (fields.foldl (FileWriteDescriptor.writeData env)
              (FileWriteDescriptor.create name basePath)) io fx now fs).2
              name basePath).2.1.data = d)))
    ∧ (io.renames = true →
      (FileWriteDescriptor.finishWith env
        (fields.foldl (FileWriteDescriptor.writeData env)
          (FileWriteDescriptor.create name basePath)) io fx now fs).2
        ((basePath ++ name).push 's')
        = some ⟨[84, 68, 70, 36] ++ env.nativeBytes 4 (toUInt32 env.AppVersion)
            ++ fields.flatMap streamBytes
            ++ env.hashMd5 (fields.flatMap streamBytes
              ++ env.nativeBytes 4 (toUInt32 ((fields.flatMap streamBytes).length : Int))
              ++ env.nativeBytes 4 (toUInt32 env.AppVersion) ++ [84, 68, 70, 36]), now, true⟩
      ∧ (FileWriteDescriptor.finishWith env
        (fields.foldl (FileWriteDescriptor.writeData env)
          (FileWriteDescriptor.create name basePath)) io fx now fs).2
        ((basePath ++ name).push '0') = none
      ∧ (ReadFile env result (FileWriteDescriptor.finishWith env
          (fields.foldl (FileWriteDescriptor.writeData env)
            (FileWriteDescriptor.create name basePath)) io fx now fs).2 name basePath).1
          = true
      ∧ (ReadFile env result (FileWriteDescriptor.finishWith env
          (fields.foldl (FileWriteDescriptor.writeData env)
            (FileWriteDescriptor.create name basePath)) io fx now fs).2
            name basePath).2.1.version = env.AppVersion
      ∧ (ReadFile env result (FileWriteDescriptor.finishWith env
          (fields.foldl (FileWriteDescriptor.writeData env)
            (FileWriteDescriptor.create name basePath)) io fx now fs).2
            name basePath).2.1.data = fields.flatMap streamBytes) := by
  obtain ⟨hfsz, hmd, -, hrec, hchk⟩ := writeData_feed env fields name basePath now
  obtain ⟨h1, -, -, h4, h5⟩ := FileWriteDescriptor.foldl_writeData env fields
    (FileWriteDescriptor.create name basePath) rfl
  have hsd : (fields.foldl (FileWriteDescriptor.writeData env)
      (FileWriteDescriptor.create name basePath)).safeData = fields.flatMap streamBytes := by
    rw [h1]; rfl
  have hbase : (fields.foldl (FileWriteDescriptor.writeData env)
      (FileWriteDescriptor.create name basePath)).base = basePath ++ name := by
    rw [h5]; rfl
  have hfs := FileWriteDescriptor.finishWith_plain env _ io fx now fs h4 hsafe hplain hfull
  rw [hbase] at hfs
  rw [hsd] at hrec hchk
  rw [← hrec]
  clear h1 h5 hbase hsd hrec hfsz hmd
  generalize FileWriteDescriptor.record env (fields.foldl (FileWriteDescriptor.writeData env)
      (FileWriteDescriptor.create name basePath)) = R at hfs hchk hfull ⊢
  generalize (FileWriteDescriptor.finishWith env (fields.foldl (FileWriteDescriptor.writeData env)
      (FileWriteDescriptor.create name basePath)) io fx now fs).2 = fs2 at hfs ⊢
  have hs0 : (basePath ++ name).push 's' ≠ (basePath ++ name).push '0' :=
    String.push_ne_push _ _ _ (by decide)
  have hs1 : (basePath ++ name).push 's' ≠ (basePath ++ name).push '1' :=
    String.push_ne_push _ _ _ (by decide)
  have h01 : (basePath ++ name).push '0' ≠ (basePath ++ name).push '1' :=
    String.push_ne_push _ _ _ (by decide)
  have hp1 : (fx.removesBackup = true ∨ fs ((basePath ++ name).push '1') = none) →
      fs2 ((basePath ++ name).push '1') = none := by
    intro hb
    have hb2 : fx.removesBackup = false → fs ((basePath ++ name).push '1') = none := by
      intro h
      rcases hb with hb | hb
      · rw [h] at hb; cases hb
      · exact hb
    rw [hfs]
    cases hren : io.renames <;> cases hrs : fx.removesSafe <;> cases hrb : fx.removesBackup <;>
      simp [FileSystem.remove, FileSystem.write, hs1.symm, h01.symm] <;> exact hb2 hrb
  refine ⟨hp1, ?_, ?_⟩
  · intro hren
    have hp0 : fs2 ((basePath ++ name).push '0') = some ⟨R, now, true⟩ := by
      rw [hfs]
      cases hrs : fx.removesSafe <;> cases hrb : fx.removesBackup <;>
        simp [hren, FileSystem.remove, FileSystem.write, hs0.symm, h01]
    refine ⟨hp0, ?_, ?_⟩
    · intro hs
      have hs2 : fx.removesSafe = false → fs ((basePath ++ name).push 's') = none := by
        intro h
        rcases hs with hs | hs
        · rw [h] at hs; cases hs
        · exact hs
      have hps : fs2 ((basePath ++ name).push 's') = none := by
        rw [hfs]
        cases hrs : fx.removesSafe <;> cases hrb : fx.removesBackup <;>
          simp [hren, FileSystem.remove, FileSystem.write, hs0, hs1] <;> exact hs2 hrs
      refine ⟨hps, ?_⟩
      intro hb
      rw [ReadFile_of_simple env result fs2 name basePath _ _ _ hps hp0 (hp1 hb) hchk]
      exact ⟨rfl, rfl, rfl⟩
    · intro hrs f hf
      have hps : fs2 ((basePath ++ name).push 's') = some f := by
        rw [hfs]
        cases hrb : fx.removesBackup <;>
          simp [hren, hrs, hf, FileSystem.remove, FileSystem.write, hs0, hs1]
      exact ⟨hps, ReadFile_safe_only env result fs2 name basePath f hps⟩
  · intro hren
    have hps : fs2 ((basePath ++ name).push 's') = some ⟨R, now, true⟩ := by
      rw [hfs]
      cases hrb : fx.removesBackup <;>
        simp [hren, FileSystem.remove, FileSystem.write, hs0]
    have hp0 : fs2 ((basePath ++ name).push '0') = none := by
      rw [hfs]
      cases hrb : fx.removesBackup <;>
        simp [hren, FileSystem.remove, FileSystem.write]
    refine ⟨hps, hp0, ?_⟩
    rw [ReadFile_of_safe env result fs2 name basePath _ _ _ hps hchk]
    exact ⟨rfl, rfl, rfl⟩

/-- Witness of the amended C14: the scenario fields written while an older
record sits under the `s` name and a stale `1` file exists, the commit and
the rename failing and the removals taking effect; the new payload is read
back. -/
theorem finish_degraded_witness :
    (ReadFile toyEnv {} (FileWriteDescriptor.finishWith toyEnv
        (scenarioFields.foldl (FileWriteDescriptor.writeData toyEnv)
          (FileWriteDescriptor.create "0123456789ABCDEF" "/tdata/"))
        degraded allEffective 7 staleFs).2 "0123456789ABCDEF" "/tdata/").1 = true
    ∧ (ReadFile toyEnv {} (FileWriteDescriptor.finishWith toyEnv
        (scenarioFields.foldl (FileWriteDescriptor.writeData toyEnv)
          (FileWriteDescriptor.create "0123456789ABCDEF" "/tdata/"))
        degraded allEffective 7 staleFs).2 "0123456789ABCDEF" "/tdata/").2.1.version
      = toyEnv.AppVersion
    ∧ (ReadFile toyEnv {} (FileWriteDescriptor.finishWith toyEnv
        (scenarioFields.foldl (FileWriteDescriptor.writeData toyEnv)
          (FileWriteDescriptor.create "0123456789ABCDEF" "/tdata/"))
        degraded allEffective 7 staleFs).2 "0123456789ABCDEF" "/tdata/").2.1.data
      = scenarioFields.flatMap streamBytes :=
  ((((finish_degraded toyEnv scenarioFields "0123456789ABCDEF" "/tdata/" degraded allEffective
    7 staleFs {} rfl rfl (by set_option maxRecDepth 100000 in decide)).2.1 rfl).2.1
      (Or.inl rfl)).2 (Or.inl rfl))

/-- C23: writer digest agrees with reader digest. After any sequence of
`writeData` calls `fullSize` is the byte length of the staged payload and the
bytes fed to the running MD5 are the staged payload (per field the big-endian
length word, `0xFFFFFFFF` for a null blob, then the raw bytes). `finish` then
feeds the payload length, `AppVersion` and the magic, and the file it writes
(the `s` file when the safe write succeeds; otherwise, when the plain write
takes effect, the `s` file after the rename or else the `0` file) is magic,
version, payload and a 16-byte footer equal to the MD5 of payload, payload
length, `AppVersion` and magic; the checks of `ReadFile`, which recompute this
digest over the payload, accept the file with `AppVersion` and the payload. -/
theorem writeData_digest (env : Env) (fields : List QByteArray) (name basePath : String)
    (io : FileWriteDescriptor.Outcome) (fx : FileWriteDescriptor.Effects) (now : Nat)
    (fs : FileSystem) :
    (fields.foldl (FileWriteDescriptor.writeData env)
        (FileWriteDescriptor.create name basePath)).fullSize
      = ((fields.foldl (FileWriteDescriptor.writeData env)
          (FileWriteDescriptor.create name basePath)).safeData.length : Int)
    ∧ (fields.foldl (FileWriteDescriptor.writeData env)
        (FileWriteDescriptor.create name basePath)).md5
      = (fields.foldl (FileWriteDescriptor.writeData env)
          (FileWriteDescriptor.create name basePath)).safeData
    ∧ (fields.foldl (FileWriteDescriptor.writeData env)
        (FileWriteDescriptor.create name basePath)).md5
      = fields.flatMap (fun f =>
          (if f.isNull then beBytes 4 0xFFFFFFFF else beBytes 4 f.size) ++ f.toList)
    ∧ (FileWriteDescriptor.finishWith env (fields.foldl (FileWriteDescriptor.writeData env)
        (FileWriteDescriptor.create name basePath)) io fx now fs).1.md5
      = fields.flatMap streamBytes
        ++ env.nativeBytes 4 (toUInt32 ((fields.flatMap streamBytes).length : Int))
        ++ env.nativeBytes 4 (toUInt32 env.AppVersion) ++ [84, 68, 70, 36]
    ∧ (((io.saveOpens = true ∧ io.saveCommits = true)
        ∨ (io.plainOpens = true
          ∧ (FileWriteDescriptor.record env (fields.foldl (FileWriteDescriptor.writeData env)
              (FileWriteDescriptor.create name basePath))).length ≤ fx.plainWritten)) →
      ∃ path f,
        (path = (basePath ++ name).push 's' ∨ path = (basePath ++ name).push '0')
        ∧ (FileWriteDescriptor.finishWith env (fields.foldl (FileWriteDescriptor.writeData env)
            (FileWriteDescriptor.create name basePath)) io fx now fs).2 path = some f
        ∧ f.content = [84, 68, 70, 36] ++ env.nativeBytes 4 (toUInt32 env.AppVersion)
            ++ fields.flatMap streamBytes
            ++ env.hashMd5 (fields.flatMap streamBytes
              ++ env.nativeBytes 4 (toUInt32 ((fields.flatMap streamBytes).length : Int))
              ++ env.nativeBytes 4 (toUInt32 env.AppVersion) ++ [84, 68, 70, 36])
        ∧ (env.hashMd5 (fields.flatMap streamBytes
              ++ env.nativeBytes 4 (toUInt32 ((fields.flatMap streamBytes).length : Int))
              ++ env.nativeBytes 4 (toUInt32 env.AppVersion) ++ [84, 68, 70, 36])).length = 16
        ∧ ReadFile.check env (some f) = some (env.AppVersion, fields.flatMap streamBytes)) := by
  obtain ⟨hfsz, hmd, hmd2, hrec, hchk⟩ := writeData_feed env fields name basePath now
  obtain ⟨h1, h2, h3, h4, h5⟩ := FileWriteDescriptor.foldl_writeData env fields
    (FileWriteDescriptor.create name basePath) rfl
  have hsd : (fields.foldl (FileWriteDescriptor.writeData env)
      (FileWriteDescriptor.create name basePath)).safeData = fields.flatMap streamBytes := by
    rw [h1]; rfl
  have hbase : (fields.foldl (FileWriteDescriptor.writeData env)
      (FileWriteDescriptor.create name basePath)).base = basePath ++ name := by
    rw [h5]; rfl
  have hs0 : (basePath ++ name).push 's' ≠ (basePath ++ name).push '0' :=
    String.push_ne_push _ _ _ (by decide)
  have hs1 : (basePath ++ name).push 's' ≠ (basePath ++ name).push '1' :=
    String.push_ne_push _ _ _ (by decide)
  have h01 : (basePath ++ name).push '0' ≠ (basePath ++ name).push '1' :=
    String.push_ne_push _ _ _ (by decide)
  refine ⟨hfsz, hmd, hmd2, ?_, ?_⟩
  · have hfeed : (FileWriteDescriptor.finishWith env
        (fields.foldl (FileWriteDescriptor.writeData env)
          (FileWriteDescriptor.create name basePath)) io fx now fs).1.md5
        = (fields.foldl (FileWriteDescriptor.writeData env)
            (FileWriteDescriptor.create name basePath)).md5
          ++ env.nativeBytes 4 (toUInt32 (fields.foldl (FileWriteDescriptor.writeData env)
            (FileWriteDescriptor.create name basePath)).fullSize)
          ++ env.nativeBytes 4 (toUInt32 env.AppVersion) ++ TdfMagic := by
      unfold FileWriteDescriptor.finishWith
      simp only [h4, Bool.not_true, Bool.false_eq_true, if_false]
      split_ifs <;> rfl
    rw [hfeed, hmd, hfsz, hsd]
    rfl
  · intro hio
    rw [hsd] at hrec hchk
    generalize hR : FileWriteDescriptor.record env
      (fields.foldl (FileWriteDescriptor.writeData env)
        (FileWriteDescriptor.create name basePath)) = R at hrec hchk
    have hlen := env.hashMd5_length (fields.flatMap streamBytes
      ++ env.nativeBytes 4 (toUInt32 ((fields.flatMap streamBytes).length : Int))
      ++ env.nativeBytes 4 (toUInt32 env.AppVersion) ++ [84, 68, 70, 36])
    by_cases hsafe : (io.saveOpens && io.saveCommits) = true
    · refine ⟨_, ⟨R, now, true⟩, Or.inl rfl, ?_, hrec, hlen, hchk⟩
      unfold FileWriteDescriptor.finishWith
      simp only [h4, hsafe, Bool.not_true, Bool.false_eq_true, if_false, if_true,
        FileWriteDescriptor.path, hbase, hR]
      cases fx.removesSimple <;> cases fx.removesBackup <;>
        simp [FileSystem.remove, FileSystem.write, hs0, hs1]
    · have hsafe2 : (io.saveOpens && io.saveCommits) = false := by
        simpa using hsafe
      obtain ⟨hplain, hfull⟩ : io.plainOpens = true
          ∧ (FileWriteDescriptor.record env (fields.foldl (FileWriteDescriptor.writeData env)
            (FileWriteDescriptor.create name basePath))).length ≤ fx.plainWritten := by
        rcases hio with ⟨ha, hb⟩ | h
        · rw [ha, hb] at hsafe2; cases hsafe2
        · exact h
      have hfs := FileWriteDescriptor.finishWith_plain env _ io fx now fs h4 hsafe2 hplain hfull
      rw [hbase, hR] at hfs
      rw [hfs]
      cases hren : io.renames with
      | true =>
        refine ⟨_, ⟨R, now, true⟩, Or.inl rfl, ?_, hrec, hlen, hchk⟩
        cases fx.removesBackup <;> simp [FileSystem.remove, FileSystem.write, hs0]
      | false =>
        refine ⟨_, ⟨R, now, true⟩, Or.inr rfl, ?_, hrec, hlen, hchk⟩
        cases fx.removesSafe <;> cases fx.removesBackup <;>
          simp [FileSystem.remove, FileSystem.write, hs0.symm, h01]

/-- Witness of C23: the scenario fields committed to the `s` file on a file
system that held an older record. -/
theorem writeData_digest_witness :
    ∃ path f,
      (path = ("/tdata/" ++ "0123456789ABCDEF").push 's'
        ∨ path = ("/tdata/" ++ "0123456789ABCDEF").push '0')
      ∧ (FileWriteDescriptor.finishWith toyEnv
          (scenarioFields.foldl (FileWriteDescriptor.writeData toyEnv)
            (FileWriteDescriptor.create "0123456789ABCDEF" "/tdata/"))
          allSucceed safeStuck 7 staleFs).2 path = some f
      ∧ f.content = [84, 68, 70, 36] ++ toyEnv.nativeBytes 4 (toUInt32 toyEnv.AppVersion)
          ++ scenarioFields.flatMap streamBytes
          ++ toyEnv.hashMd5 (scenarioFields.flatMap streamBytes
            ++ toyEnv.nativeBytes 4 (toUInt32 ((scenarioFields.flatMap streamBytes).length : Int))
            ++ toyEnv.nativeBytes 4 (toUInt32 toyEnv.AppVersion) ++ [84, 68, 70, 36])
      ∧ (toyEnv.hashMd5 (scenarioFields.flatMap streamBytes
            ++ toyEnv.nativeBytes 4 (toUInt32 ((scenarioFields.flatMap streamBytes).length : Int))
            ++ toyEnv.nativeBytes 4 (toUInt32 toyEnv.AppVersion) ++ [84, 68, 70, 36])).length = 16
      ∧ ReadFile.check toyEnv (some f)
          = some (toyEnv.AppVersion, scenarioFields.flatMap streamBytes) :=
  (writeData_digest toyEnv scenarioFields "0123456789ABCDEF" "/tdata/" allSucceed safeStuck 7
    staleFs).2.2.2.2 (Or.inl ⟨rfl, rfl⟩)

end Storage.details

namespace Storage.details

/-- C24: redundant-copy pruning on read. When no `s` file exists and both the
`0` and the `1` file exist and `ReadFile` succeeds, the file system afterwards
is the one before without the candidate that was not accepted, and the
accepted file is still there; when there is a single candidate, or when
`ReadFile` returns false, the file system is unchanged. -/
theorem ReadFile_pruning (env : Env) (result : FileReadDescriptor) (fs : FileSystem)
    (name basePath : String) :
    ((ReadFile env result fs name basePath).1 = false →
      (ReadFile env result fs name basePath).2.2 = fs)
    ∧ (¬ (fs ((basePath ++ name).push 's') = none
          ∧ (fs ((basePath ++ name).push '0')).isSome = true
          ∧ (fs ((basePath ++ name).push '1')).isSome = true) →
      (ReadFile env result fs name basePath).2.2 = fs)
    ∧ (fs ((basePath ++ name).push 's') = none →
      (fs ((basePath ++ name).push '0')).isSome = true →
      (fs ((basePath ++ name).push '1')).isSome = true →
      (ReadFile env result fs name basePath).1 = true →
      ∃ accepted other,
        ((accepted = (basePath ++ name).push '0' ∧ other = (basePath ++ name).push '1')
          ∨ (accepted = (basePath ++ name).push '1' ∧ other = (basePath ++ name).push '0'))
        ∧ ReadFile.check env (fs accepted)
            = some ((ReadFile env result fs name basePath).2.1.version,
                (ReadFile env result fs name basePath).2.1.data)
        ∧ (ReadFile env result fs name basePath).2.2 = fs.remove other
        ∧ (ReadFile env result fs name basePath).2.2 accepted = fs accepted
        ∧ (ReadFile env result fs name basePath).2.2 other = none) := by
  have h01 : (basePath ++ name).push '0' ≠ (basePath ++ name).push '1' :=
    String.push_ne_push _ _ _ (by decide)
  refine ⟨fun h => by rw [ReadFile_false env result fs name basePath h], ?_, ?_⟩
  · intro hnot
    have ht2 : (ReadFile.toTry fs name basePath).2 = "" := by
      unfold ReadFile.toTry
      cases hs : fs ((basePath ++ name).push 's') with
      | some fS => simp [hs]
      | none =>
        cases h0 : fs ((basePath ++ name).push '0') with
        | none => simp [hs, h0]
        | some f0 =>
          cases h1 : fs ((basePath ++ name).push '1') with
          | none => simp [hs, h0, h1]
          | some f1 => exact absurd ⟨hs, by rw [h0]; rfl, by rw [h1]; rfl⟩ hnot
    unfold ReadFile
    by_cases ht1 : (ReadFile.toTry fs name basePath).1 = ""
    · simp only [ht1, if_true]
    · simp only [ht1, if_false, ht2, ne_eq, not_true_eq_false, if_true]
      cases hc : ReadFile.check env (fs (ReadFile.toTry fs name basePath).1) <;> rfl
  · intro hs h0 h1 htrue
    obtain ⟨f0, hf0⟩ := Option.isSome_iff_exists.mp h0
    obtain ⟨f1, hf1⟩ := Option.isSome_iff_exists.mp h1
    have hcases : ReadFile.toTry fs name basePath
          = ((basePath ++ name).push '0', (basePath ++ name).push '1')
        ∨ ReadFile.toTry fs name basePath
          = ((basePath ++ name).push '1', (basePath ++ name).push '0') := by
      by_cases hm : f0.lastModified < f1.lastModified
      · right; simp [ReadFile.toTry, hs, hf0, hf1, hm]
      · left; simp [ReadFile.toTry, hs, hf0, hf1, hm]
    have key : ∀ p q : String, p ≠ q → p ≠ "" → q ≠ "" →
        ReadFile.toTry fs name basePath = (p, q) →
        ∃ accepted other, ((accepted = p ∧ other = q) ∨ (accepted = q ∧ other = p))
          ∧ ReadFile.check env (fs accepted)
              = some ((ReadFile env result fs name basePath).2.1.version,
                  (ReadFile env result fs name basePath).2.1.data)
          ∧ (ReadFile env result fs name basePath).2.2 = fs.remove other
          ∧ (ReadFile env result fs name basePath).2.2 accepted = fs accepted
          ∧ (ReadFile env result fs name basePath).2.2 other = none := by
      intro p q hpq hp hq ht
      unfold ReadFile at htrue ⊢
      rw [ht] at htrue ⊢
      simp only [hp, hq, if_false, ne_eq, not_false_eq_true, if_true] at htrue ⊢
      cases hc : ReadFile.check env (fs p) with
      | some vd =>
        refine ⟨p, q, Or.inl ⟨rfl, rfl⟩, ?_, rfl, ?_, ?_⟩
        · rw [hc]; rfl
        · exact FileSystem.remove_other fs q p hpq
        · exact FileSystem.remove_same fs q
      | none =>
        rw [hc] at htrue
        simp only [] at htrue ⊢
        cases hc2 : ReadFile.check env (fs q) with
        | none => rw [hc2] at htrue; simp at htrue
        | some vd =>
          refine ⟨q, p, Or.inr ⟨rfl, rfl⟩, ?_, rfl, ?_, ?_⟩
          · rw [hc2]; rfl
          · exact FileSystem.remove_other fs p q (Ne.symm hpq)
          · exact FileSystem.remove_same fs p
    rcases hcases with ht | ht
    · obtain ⟨a, o, hao, hrest⟩ := key _ _ h01 (String.push_ne_empty _ _)
        (String.push_ne_empty _ _) ht
      exact ⟨a, o, hao, hrest⟩
    · obtain ⟨a, o, hao, hrest⟩ := key _ _ (Ne.symm h01) (String.push_ne_empty _ _)
        (String.push_ne_empty _ _) ht
      exact ⟨a, o, hao.symm, hrest⟩

/-- Witness of C24: with a valid `1` copy next to a newer `0` copy with a
changed byte, the `1` copy is accepted and the `0` copy removed. -/
theorem ReadFile_pruning_witness :
    ∃ accepted other,
      ((accepted = ("/tdata/" ++ "0123456789ABCDEF").push '0'
          ∧ other = ("/tdata/" ++ "0123456789ABCDEF").push '1')
        ∨ (accepted = ("/tdata/" ++ "0123456789ABCDEF").push '1'
          ∧ other = ("/tdata/" ++ "0123456789ABCDEF").push '0'))
      ∧ ReadFile.check toyEnv (flippedSimpleFs accepted)
          = some ((ReadFile toyEnv {} flippedSimpleFs "0123456789ABCDEF" "/tdata/").2.1.version,
              (ReadFile toyEnv {} flippedSimpleFs "0123456789ABCDEF" "/tdata/").2.1.data)
      ∧ (ReadFile toyEnv {} flippedSimpleFs "0123456789ABCDEF" "/tdata/").2.2
          = flippedSimpleFs.remove other
      ∧ (ReadFile toyEnv {} flippedSimpleFs "0123456789ABCDEF" "/tdata/").2.2 accepted
          = flippedSimpleFs accepted
      ∧ (ReadFile toyEnv {} flippedSimpleFs "0123456789ABCDEF" "/tdata/").2.2 other = none :=
  (ReadFile_pruning toyEnv {} flippedSimpleFs "0123456789ABCDEF" "/tdata/").2.2
    (by set_option maxRecDepth 100000 in decide)
    (by set_option maxRecDepth 100000 in decide)
    (by set_option maxRecDepth 100000 in decide)
    (by set_option maxRecDepth 100000 in decide)

end Storage.details

/-! ## Sizes and big-file cache keys -/

namespace StorageFileLocation

theorem serialize_size_eq (x : StorageFileLocation) : x.serialize.size = x.serializeSize := by
  unfold serialize serializeSize
  cases hv : x.valid with
  | false => simp [QByteArray.size, QByteArray.toList]
  | true =>
    simp only [if_true, QByteArray.size, QByteArray.toList, List.length_append, beBytes_length,
      streamBytes_length, Serialize.bytearraySize]

end StorageFileLocation

namespace StorageImageLocation

/-- C29: declared size equals actual size. For every `StorageFileLocation`
the size of `serialize()` is `serializeSize()`, which is 0 when the location
is invalid and otherwise 40 + 4 + the length of the file reference (a null
reference counting as length 0); and for every `StorageImageLocation` the
size of `serialize()` is `serializeSize()`. -/
theorem serialize_size (x : StorageFileLocation) (y : StorageImageLocation) :
    x.serialize.size = x.serializeSize
    ∧ (x.valid = false → x.serializeSize = 0)
    ∧ (x.valid = true → x.serializeSize = 40 + 4 + x._fileReference.toList.length)
    ∧ y.serialize.size = y.serializeSize := by
  refine ⟨StorageFileLocation.serialize_size_eq x, ?_, ?_, ?_⟩
  · intro hv; simp [StorageFileLocation.serializeSize, hv]
  · intro hv
    simp [StorageFileLocation.serializeSize, hv, Serialize.bytearraySize, QByteArray.size]
    omega
  · have hfile := StorageFileLocation.serialize_size_eq y._file
    unfold serialize serializeSize
    have hempty : (!y._file.serialize.isEmpty) = decide (y._file.serializeSize > 0) := by
      rw [← hfile]
      simp only [QByteArray.isEmpty]
      cases hs : y._file.serialize.size with
      | zero => simp
      | succ n => simp
    simp only [hempty]
    have hb : ∀ l : List Byte, (QByteArray.bytes l).size = l.length := fun l => rfl
    split
    · rw [hb]
      simp only [List.length_append, beBytes_length]
      have : y._file.serialize.toList.length = y._file.serializeSize := hfile
      omega
    · rename_i hc
      rw [hfile]
      simp only [Bool.or_eq_true, decide_eq_true_eq, not_or, not_lt] at hc
      omega

/-- Witness of C29: the scenario Photo location, alone and with dimensions. -/
theorem serialize_size_witness :
    StorageFileLocation.scenarioPhoto.serializeSize
        = 40 + 4 + StorageFileLocation.scenarioPhoto._fileReference.toList.length
    ∧ scenarioImage.serialize.size = scenarioImage.serializeSize :=
  ⟨(serialize_size StorageFileLocation.scenarioPhoto scenarioImage).2.2.1 (by decide),
    (serialize_size StorageFileLocation.scenarioPhoto scenarioImage).2.2.2⟩

end StorageImageLocation

namespace StorageFileLocation

theorem dc_term_zero (d mask : Nat) (hm : mask = 0xFF00) : ((d <<< 16) % 2 ^ 64) &&& mask = 0 := by
  subst hm
  have h1 : (0xFF00 : Nat) = (2 ^ 16 - 1) &&& 0xFF00 := by decide
  rw [h1, ← Nat.and_assoc, Nat.and_pow_two_sub_one_eq_mod, Nat.shiftLeft_eq]
  have : d * 2 ^ 16 % 2 ^ 64 % 2 ^ 16 = 0 := by omega
  rw [this]
  exact Nat.zero_and _

theorem low_byte_zero_16 (v : Nat) : ((v <<< 16) % 2 ^ 64) &&& 0xFF = 0 := by
  have h := Nat.and_pow_two_sub_one_eq_mod ((v <<< 16) % 2 ^ 64) 8
  have h2 : (0xFF : Nat) = 2 ^ 8 - 1 := by decide
  rw [h2, h, Nat.shiftLeft_eq]
  omega

theorem low_byte_zero_8 (v : Nat) : ((v <<< 8) % 2 ^ 64) &&& 0xFF = 0 := by
  have h := Nat.and_pow_two_sub_one_eq_mod ((v <<< 8) % 2 ^ 64) 8
  have h2 : (0xFF : Nat) = 2 ^ 8 - 1 := by decide
  rw [h2, h, Nat.shiftLeft_eq]
  omega

theorem tag_or (tag i : Nat) (hi : i < 2 ^ 64) (htag : tag = 0x10000 ∨ tag = 0x20000) :
    tag ||| 0 ||| (i >>> 48) = tag + i / 2 ^ 48 ∧ i / 2 ^ 48 < 2 ^ 16 := by
  have hlt : i / 2 ^ 48 < 2 ^ 16 := by omega
  rw [Nat.or_zero, Nat.shiftRight_eq_div_pow]
  refine ⟨?_, hlt⟩
  rcases htag with rfl | rfl
  · exact (Nat.mul_add_lt_is_or hlt 1).symm
  · exact (Nat.mul_add_lt_is_or hlt 2).symm

/-- What `bigFileBaseCacheKey` returns for a Document or a Photo. -/
theorem bigFileBaseCacheKey_tagged (x : StorageFileLocation) (tag : Nat)
    (h : (x._type = Type_.Document ∧ tag = kDocumentBaseCacheTag)
      ∨ (x._type = Type_.Photo ∧ tag = kPhotoBaseCacheTag)) :
    x.bigFileBaseCacheKey
      = some { high := tag ||| 0 ||| (x._id >>> 48), low := (x._id <<< 16) % 2 ^ 64 } := by
  obtain ⟨d, t, sl, li, id, ah, vi, ip, im, fr⟩ := x
  simp only at h
  rcases h with ⟨rfl, rfl⟩ | ⟨rfl, rfl⟩
  · have hz := dc_term_zero d kDocumentBaseCacheMask rfl
    simp only [bigFileBaseCacheKey, ensuresLow, low_byte_zero_16, if_true]
    rw [hz]
  · have hz := dc_term_zero d kPhotoBaseCacheMask rfl
    simp only [bigFileBaseCacheKey, ensuresLow, low_byte_zero_16, if_true]
    rw [hz]

/-- C30: big-file base cache key bit layout. For a Document or a Photo
location `bigFileBaseCacheKey()` has `low = id << 16` and
`high = tag | (id >> 48)` with tag `0x10000` for Document and `0x20000` for
Photo, the dc term `(dcId << 16) & 0xFF00` being zero, so the key does not
depend on the dc id; for a StickerSetThumb `low = volumeId << 8`; in all
three cases the assertion `(low & 0xFF) == 0` holds and a key is returned;
and a Document key never equals a Photo key. -/
theorem bigFileBaseCacheKey_layout (x y : StorageFileLocation) :
    (x._type = Type_.Document →
      x.bigFileBaseCacheKey
        = some { high := 0x10000 ||| (x._id >>> 48), low := (x._id <<< 16) % 2 ^ 64 })
    ∧ (x._type = Type_.Photo →
      x.bigFileBaseCacheKey
        = some { high := 0x20000 ||| (x._id >>> 48), low := (x._id <<< 16) % 2 ^ 64 })
    ∧ (((x._dcId <<< 16) % 2 ^ 64) &&& 0xFF00 = 0)
    ∧ (x._type = Type_.StickerSetThumb →
      ∃ key, x.bigFileBaseCacheKey = some key ∧ key.low = (x._volumeId <<< 8) % 2 ^ 64)
    ∧ ((x._type = Type_.Document ∨ x._type = Type_.Photo ∨ x._type = Type_.StickerSetThumb) →
      ∃ key, x.bigFileBaseCacheKey = some key ∧ key.low &&& 0xFF = 0)
    ∧ (x._type = Type_.Document → y._type = Type_.Photo → x._id < 2 ^ 64 → y._id < 2 ^ 64 →
      x.bigFileBaseCacheKey ≠ y.bigFileBaseCacheKey) := by
  have hdoc : x._type = Type_.Document → x.bigFileBaseCacheKey
      = some { high := 0x10000 ||| (x._id >>> 48), low := (x._id <<< 16) % 2 ^ 64 } := by
    intro h
    rw [bigFileBaseCacheKey_tagged x _ (Or.inl ⟨h, rfl⟩)]
    simp [kDocumentBaseCacheTag]
  have hphoto : ∀ z : StorageFileLocation, z._type = Type_.Photo → z.bigFileBaseCacheKey
      = some { high := 0x20000 ||| (z._id >>> 48), low := (z._id <<< 16) % 2 ^ 64 } := by
    intro z h
    rw [bigFileBaseCacheKey_tagged z _ (Or.inr ⟨h, rfl⟩)]
    simp [kPhotoBaseCacheTag]
  have hthumb : x._type = Type_.StickerSetThumb →
      ∃ key, x.bigFileBaseCacheKey = some key ∧ key.low = (x._volumeId <<< 8) % 2 ^ 64
        ∧ key.low &&& 0xFF = 0 := by
    intro h
    obtain ⟨d, t, sl, li, id, ah, vi, ip, im, fr⟩ := x
    simp only at h
    subst h
    simp only [bigFileBaseCacheKey, ensuresLow, low_byte_zero_8, if_true]
    exact ⟨_, rfl, rfl, low_byte_zero_8 vi⟩
  refine ⟨hdoc, hphoto x, dc_term_zero _ _ rfl, ?_, ?_, ?_⟩
  · intro h
    obtain ⟨key, h1, h2, -⟩ := hthumb h
    exact ⟨key, h1, h2⟩
  · rintro (h | h | h)
    · exact ⟨_, hdoc h, low_byte_zero_16 _⟩
    · exact ⟨_, hphoto x h, low_byte_zero_16 _⟩
    · obtain ⟨key, h1, -, h3⟩ := hthumb h
      exact ⟨key, h1, h3⟩
  · intro hx hy hxi hyi heq
    rw [hdoc hx, hphoto y hy] at heq
    simp only [Option.some.injEq, Storage.Cache.Key.mk.injEq] at heq
    have h1 := tag_or 0x10000 x._id hxi (Or.inl rfl)
    have h2 := tag_or 0x20000 y._id hyi (Or.inr rfl)
    simp only [Nat.or_zero] at h1 h2
    rw [h1.1, h2.1] at heq
    omega

/-- Witness of C30: the scenario Photo location and the Document with the
same fields have different big-file keys. -/
theorem bigFileBaseCacheKey_layout_witness :
    ({ scenarioPhoto with _type := Type_.Document } : StorageFileLocation).bigFileBaseCacheKey
      ≠ scenarioPhoto.bigFileBaseCacheKey :=
  (bigFileBaseCacheKey_layout { scenarioPhoto with _type := Type_.Document }
    scenarioPhoto).2.2.2.2.2 rfl rfl (by decide) (by decide)

end StorageFileLocation

/-! ## Streams that stayed in the `Ok` state -/

theorem ReadStream.readUInt_ok (s : ReadStream) (w : Nat) (hw : 0 < w)
    (h : (s.readUInt w).2.ok = true) :
    s.ok = true ∧ (s.readUInt w).2.pos = s.pos + w ∧ s.pos + w ≤ s.data.length
    ∧ (s.readUInt w).2.data = s.data
    ∧ (s.readUInt w).1 = beVal ((s.data.drop s.pos).take w)
    ∧ ((s.data.drop s.pos).take w).length = w := by
  unfold ReadStream.readUInt at h ⊢
  by_cases hc : ((s.readRawData w).1).length = w
  · rw [if_pos hc] at h ⊢
    have hc2 : ((s.data.drop s.pos).take w).length = w := hc
    have hlen := hc2
    rw [List.length_take, List.length_drop] at hlen
    have hle : w ≤ s.data.length - s.pos := by rw [← hlen]; exact Nat.min_le_right _ _
    refine ⟨h, ?_, by omega, rfl, rfl, hc2⟩
    show s.pos + ((s.data.drop s.pos).take w).length = s.pos + w
    rw [hc2]
  · rw [if_neg hc] at h
    simp at h

theorem ReadStream.readByteArray_ok (s : ReadStream) (h : (s.readByteArray).2.ok = true) :
    s.ok = true ∧ (s.readByteArray).2.data = s.data
    ∧ (s.readByteArray).2.pos = s.pos + 4 + (s.readByteArray).1.size
    ∧ (s.readByteArray).2.pos ≤ s.data.length := by
  unfold ReadStream.readByteArray at h ⊢
  by_cases hm : (s.readUInt 4).1 = 0xFFFFFFFF
  · rw [if_pos hm] at h ⊢
    obtain ⟨h1, h2, h3, h4, -, -⟩ := ReadStream.readUInt_ok s 4 (by decide) h
    refine ⟨h1, h4, ?_, ?_⟩
    · rw [h2]; rfl
    · rw [h2]; exact h3
  · rw [if_neg hm] at h ⊢
    by_cases hc : (((s.readUInt 4).2.readRawData (s.readUInt 4).1).1).length = (s.readUInt 4).1
    · rw [if_pos hc] at h ⊢
      have hok : (s.readUInt 4).2.ok = true := h
      obtain ⟨h1, h2, h3, h4, -, -⟩ := ReadStream.readUInt_ok s 4 (by decide) hok
      have hc2 : (((s.readUInt 4).2.data.drop (s.readUInt 4).2.pos).take
          (s.readUInt 4).1).length = (s.readUInt 4).1 := hc
      have hlen := hc2
      rw [List.length_take, List.length_drop, h4, h2] at hlen
      have hle : (s.readUInt 4).1 ≤ s.data.length - (s.pos + 4) := by
        rw [← hlen]; exact Nat.min_le_right _ _
      refine ⟨h1, h4, ?_, ?_⟩
      · show (s.readUInt 4).2.pos + (((s.readUInt 4).2.data.drop (s.readUInt 4).2.pos).take
          (s.readUInt 4).1).length = s.pos + 4 + _
        rw [hc2, h2]
        show _ = s.pos + 4 + (((s.readUInt 4).2.data.drop (s.readUInt 4).2.pos).take
          (s.readUInt 4).1).length
        rw [hc2]
      · show (s.readUInt 4).2.pos + (((s.readUInt 4).2.data.drop (s.readUInt 4).2.pos).take
          (s.readUInt 4).1).length ≤ _
        rw [hc2, h2]
        omega
    · rw [if_neg hc] at h
      simp at h

namespace StorageFileLocation

theorem valid_iff_validInWords (x : StorageFileLocation) : x.valid = true ↔ x.validInWords := by
  obtain ⟨d, t, sl, li, id, ah, vi, ip, im, fr⟩ := x
  unfold validInWords
  by_cases ht : t < 8
  · interval_cases t <;>
      simp [valid, Type_.Legacy, Type_.Encrypted, Type_.Secure, Type_.Document, Type_.Photo,
        Type_.Takeout, Type_.PeerPhoto, Type_.StickerSetThumb, and_assoc]
  · have hv : valid ⟨d, t, sl, li, id, ah, vi, ip, im, fr⟩ = false := by
      cases hvv : valid ⟨d, t, sl, li, id, ah, vi, ip, im, fr⟩ with
      | false => rfl
      | true => exact absurd (type_lt_of_valid _ hvv) ht
    rw [hv]
    simp only [Type_.Legacy, Type_.Encrypted, Type_.Secure, Type_.Document, Type_.Photo,
      Type_.Takeout, Type_.PeerPhoto, Type_.StickerSetThumb]
    constructor
    · intro h; simp at h
    · intro h; omega

end StorageFileLocation

/-! ## What deserialization yields -/

theorem ReadStream.readByteArray_ok_size (s : ReadStream)
    (h : (s.readByteArray).2.ok = true) :
    (s.readUInt 4).1 = beVal ((s.data.drop s.pos).take 4)
    ∧ (((s.readUInt 4).1 = 0xFFFFFFFF ∧ (s.readByteArray).1.size = 0)
      ∨ (s.readUInt 4).1 = (s.readByteArray).1.size) := by
  unfold ReadStream.readByteArray at h ⊢
  by_cases hm : (s.readUInt 4).1 = 0xFFFFFFFF
  · rw [if_pos hm] at h ⊢
    exact ⟨(ReadStream.readUInt_ok s 4 (by decide) h).2.2.2.2.1, Or.inl ⟨hm, rfl⟩⟩
  · rw [if_neg hm] at h ⊢
    by_cases hc : (((s.readUInt 4).2.readRawData (s.readUInt 4).1).1).length = (s.readUInt 4).1
    · rw [if_pos hc] at h ⊢
      have hok : (s.readUInt 4).2.ok = true := h
      exact ⟨(ReadStream.readUInt_ok s 4 (by decide) hok).2.2.2.2.1, Or.inr hc.symm⟩
    · rw [if_neg hc] at h
      simp at h

namespace StorageFileLocation

theorem byte_at (L : List Byte) (p : Nat) (h : ((L.drop p).take 1).length = 1) :
    ∃ t : Byte, L[p]? = some t ∧ beVal ((L.drop p).take 1) = t.val := by
  obtain ⟨t, ht⟩ := List.length_eq_one.mp h
  refine ⟨t, ?_, ?_⟩
  · have h0 : ((L.drop p).take 1)[0]? = some t := by rw [ht]; rfl
    simpa using h0
  · rw [ht]; simp [beVal]

theorem FromSerialized_fields (L : List Byte) (hL : L ≠ []) (x : StorageFileLocation)
    (h : FromSerialized (.bytes L) = some x) :
    x.valid = true ∧ 36 + x._fileReference.size ≤ L.length
    ∧ ∃ t : Byte, L[2]? = some t ∧ t.val ≠ kNonStorageLocationToken
      ∧ x._type = (if t.val &&& kSerializeTypeShift ≠ 0 then t.val &&& 0xF7 else t.val)
      ∧ (t.val &&& kSerializeTypeShift ≠ 0 → 44 + x._fileReference.size ≤ L.length)
      ∧ ∃ p, p = (if t.val &&& kSerializeTypeShift ≠ 0 then 40 else 32)
        ∧ ((beVal ((L.drop p).take 4) = 0xFFFFFFFF ∧ x._fileReference.size = 0)
          ∨ beVal ((L.drop p).take 4) = x._fileReference.size) := by
  have hne : (QByteArray.bytes L).isEmpty = false := by
    cases L with
    | nil => exact absurd rfl hL
    | cons a l => rfl
  unfold FromSerialized at h
  rw [hne] at h
  dsimp only [QByteArray.toList] at h
  rw [if_neg (by simp)] at h
  generalize hs1 : ReadStream.readUInt ⟨L, 0, true⟩ 2 = r1 at h
  generalize hs2 : r1.2.readUInt 1 = r2 at h
  generalize hs3 : r2.2.readUInt 1 = r3 at h
  generalize hs4 : r3.2.readUInt 4 = r4 at h
  generalize hs5 : r4.2.readUInt 8 = r5 at h
  generalize hs6 : r5.2.readUInt 8 = r6 at h
  generalize hs7 : r6.2.readUInt 8 = r7 at h
  by_cases htok : r2.1 = kNonStorageLocationToken
  · rw [if_pos htok] at h; exact absurd h (by simp)
  rw [if_neg htok] at h
  have chain : r7.2.ok = true → r7.2.data = L ∧ r7.2.pos = 32
      ∧ ∃ t : Byte, L[2]? = some t ∧ r2.1 = t.val := by
    intro hok
    have k7 := ReadStream.readUInt_ok r6.2 8 (by decide) (by rw [hs7]; exact hok)
    have k6 := ReadStream.readUInt_ok r5.2 8 (by decide) (by rw [hs6]; exact k7.1)
    have k5 := ReadStream.readUInt_ok r4.2 8 (by decide) (by rw [hs5]; exact k6.1)
    have k4 := ReadStream.readUInt_ok r3.2 4 (by decide) (by rw [hs4]; exact k5.1)
    have k3 := ReadStream.readUInt_ok r2.2 1 (by decide) (by rw [hs3]; exact k4.1)
    have k2 := ReadStream.readUInt_ok r1.2 1 (by decide) (by rw [hs2]; exact k3.1)
    have k1 := ReadStream.readUInt_ok ⟨L, 0, true⟩ 2 (by decide) (by rw [hs1]; exact k2.1)
    rw [hs7] at k7; rw [hs6] at k6; rw [hs5] at k5; rw [hs4] at k4; rw [hs3] at k3
    rw [hs2] at k2; rw [hs1] at k1
    obtain ⟨-, p1, -, d1, -, -⟩ := k1
    obtain ⟨-, p2, -, d2, v2, l2⟩ := k2
    obtain ⟨-, p3, -, d3, -, -⟩ := k3
    obtain ⟨-, p4, -, d4, -, -⟩ := k4
    obtain ⟨-, p5, -, d5, -, -⟩ := k5
    obtain ⟨-, p6, -, d6, -, -⟩ := k6
    obtain ⟨-, p7, -, d7, -, -⟩ := k7
    simp only at p1 d1
    refine ⟨by rw [d7, d6, d5, d4, d3, d2, d1], by omega, ?_⟩
    rw [d1, p1] at l2 v2
    obtain ⟨t, ht, hv⟩ := byte_at L 2 l2
    exact ⟨t, ht, by rw [v2]; exact hv⟩
  by_cases hsh : r2.1 &&& kSerializeTypeShift ≠ 0
  · simp only [if_pos hsh] at h
    generalize hs8 : r7.2.readUInt 4 = r8 at h
    generalize hs9 : r8.2.readUInt 4 = r9 at h
    generalize hs10 : r9.2.readByteArray = r10 at h
    split at h
    · rename_i hc
      rw [Bool.and_eq_true] at hc
      obtain ⟨hok, hval⟩ := hc
      have hx := Option.some.inj h
      subst hx
      have k10 := ReadStream.readByteArray_ok r9.2 (by rw [hs10]; exact hok)
      have k9 := ReadStream.readUInt_ok r8.2 4 (by decide) (by rw [hs9]; exact k10.1)
      have k8 := ReadStream.readUInt_ok r7.2 4 (by decide) (by rw [hs8]; exact k9.1)
      obtain ⟨d7, p7, t, ht, hv⟩ := chain k8.1
      rw [hs10] at k10; rw [hs9] at k9; rw [hs8] at k8
      obtain ⟨-, d10, p10, b10⟩ := k10
      obtain ⟨-, p9, -, d9, -, -⟩ := k9
      obtain ⟨-, p8, -, d8, -, -⟩ := k8
      rw [d9, d8, d7] at b10
      have hsz : 44 + r10.1.size ≤ L.length := by omega
      have z10 := ReadStream.readByteArray_ok_size r9.2 (by rw [hs10]; exact hok)
      rw [hs10, d9, d8, d7, p9, p8, p7] at z10
      refine ⟨hval, by simp only; omega, t, ht, by rw [← hv]; exact htok, ?_, ?_, 40, ?_, ?_⟩
      · simp only; rw [← hv]; rw [if_pos hsh]
      · intro _; exact hsz
      · rw [← hv, if_pos hsh]
      · rw [← z10.1]; exact z10.2
    · exact absurd h (by simp)
  · simp only [if_neg hsh] at h
    generalize hs10 : r7.2.readByteArray = r10 at h
    split at h
    · rename_i hc
      rw [Bool.and_eq_true] at hc
      obtain ⟨hok, hval⟩ := hc
      have hx := Option.some.inj h
      subst hx
      have k10 := ReadStream.readByteArray_ok r7.2 (by rw [hs10]; exact hok)
      obtain ⟨d7, p7, t, ht, hv⟩ := chain k10.1
      rw [hs10] at k10
      obtain ⟨-, d10, p10, b10⟩ := k10
      rw [d7] at b10
      have z10 := ReadStream.readByteArray_ok_size r7.2 (by rw [hs10]; exact hok)
      rw [hs10, d7, p7] at z10
      refine ⟨hval, by simp only; omega, t, ht, by rw [← hv]; exact htok, ?_, ?_, 32, ?_, ?_⟩
      · simp only; rw [← hv]; rw [if_neg hsh]
      · intro hs; rw [← hv] at hs; exact absurd hs hsh
      · rw [← hv, if_neg hsh]
      · rw [← z10.1]; exact z10.2
    · exact absurd h (by simp)

end StorageFileLocation

namespace StorageFileLocation

theorem take_drop_window (l : List Byte) (k n : Nat) (h : n + 4 ≤ k) :
    ((l.take k).drop n).take 4 = (l.drop n).take 4 := by
  apply List.ext_getElem?
  intro i
  simp only [List.getElem?_take, List.getElem?_drop]
  by_cases hi : i < 4
  · rw [if_pos hi, if_pos hi, if_pos (by omega)]
  · rw [if_neg hi, if_neg hi]

/-- A serialized location cut short anywhere before its end is not read. -/
theorem FromSerialized_truncated (x : StorageFileLocation) (hw : x.wellTyped)
    (hv : x.valid = true) (k : Nat) (hk0 : 0 < k) (hk : k < x.serialize.size) :
    FromSerialized (.bytes (x.serialize.toList.take k)) = none := by
  obtain ⟨-, -, -, -, -, -, -, -, -, hfr⟩ := hw
  have ht := type_lt_of_valid x hv
  obtain ⟨-, hshift, -⟩ := typeByte_facts x._type ht
  have hsize := serialize_size_eq x
  simp only [serializeSize, hv, if_true, Serialize.bytearraySize] at hsize
  have hS : x.serialize.toList = (beBytes 2 x._dcId
      ++ beBytes 1 (kSerializeTypeShift ||| (x._type % 2 ^ 8))
      ++ beBytes 1 x._sizeLetter
      ++ beBytes 4 (toUInt32 x._localId)
      ++ beBytes 8 x._id
      ++ beBytes 8 x._accessHash
      ++ beBytes 8 x._volumeId
      ++ beBytes 4 (toUInt32 x._inMessagePeerId)
      ++ beBytes 4 (toUInt32 x._inMessageId))
      ++ streamBytes x._fileReference := by
    simp only [serialize, hv, if_true, QByteArray.toList]
  generalize hH : (beBytes 2 x._dcId
      ++ beBytes 1 (kSerializeTypeShift ||| (x._type % 2 ^ 8))
      ++ beBytes 1 x._sizeLetter
      ++ beBytes 4 (toUInt32 x._localId)
      ++ beBytes 8 x._id
      ++ beBytes 8 x._accessHash
      ++ beBytes 8 x._volumeId
      ++ beBytes 4 (toUInt32 x._inMessagePeerId)
      ++ beBytes 4 (toUInt32 x._inMessageId)) = H at hS
  have hHlen : H.length = 40 := by
    rw [← hH]; simp only [List.length_append, beBytes_length]
  have hH2 : H[2]? = some (byteOfNat (kSerializeTypeShift ||| (x._type % 2 ^ 8))) := by
    rw [← hH]; simp [beBytes]
  generalize hSS : x.serialize.toList = S at hS
  have hSlen : S.length = 8 * 5 + (4 + x._fileReference.size) := by
    rw [← hSS]; exact hsize
  have hk2 : k < S.length := by rw [← hSS]; exact hk
  cases hres : FromSerialized (.bytes (S.take k)) with
  | none => rfl
  | some y =>
    exfalso
    have hP : S.take k ≠ [] := by
      intro hnil
      have := congrArg List.length hnil
      rw [List.length_take] at this
      simp only [List.length_nil] at this
      omega
    obtain ⟨-, h36, t, ht2, -, -, h44, p, hp, hword⟩ := FromSerialized_fields _ hP y hres
    have hPlen : (S.take k).length = k := by rw [List.length_take]; omega
    rw [hPlen] at h36 h44
    have ht3 : S[2]? = some t := by
      rw [List.getElem?_take, if_pos (by omega)] at ht2
      exact ht2
    have ht4 : t = byteOfNat (kSerializeTypeShift ||| (x._type % 2 ^ 8)) := by
      rw [hS, List.getElem?_append_left (by omega), hH2] at ht3
      exact (Option.some.inj ht3).symm
    have hsh : t.val &&& kSerializeTypeShift ≠ 0 := by
      rw [ht4]; exact hshift
    have h44b := h44 hsh
    rw [if_pos hsh] at hp
    subst hp
    rw [take_drop_window S k 40 (by omega)] at hword
    have hdrop : S.drop 40 = streamBytes x._fileReference := by
      rw [hS, ← hHlen]; exact List.drop_left' rfl
    rw [hdrop] at hword
    cases hf : x._fileReference with
    | null =>
      rw [hf] at hSlen
      simp only [QByteArray.size, QByteArray.toList, List.length_nil] at hSlen
      omega
    | bytes b =>
      rw [hf] at hSlen hword hfr
      have hb : (QByteArray.bytes b).size = b.length := rfl
      rw [hb] at hSlen hfr
      have htake : (streamBytes (QByteArray.bytes b)).take 4 = beBytes 4 b.length := by
        simp only [streamBytes]
        exact List.take_left' (beBytes_length 4 _)
      rw [htake, beVal_beBytes, Nat.mod_eq_of_lt (by omega)] at hword
      omega

/-- C25: deserialization only yields valid locations. For a non-empty byte
string, `FromSerialized` gives `nullopt` or a location that is valid, which is
the validity of the type in the words of the specification (Legacy: dc id,
volume id and local id nonzero; Photo: dc id, id and size letter nonzero;
Encrypted, Secure, Document, PeerPhoto, StickerSetThumb: dc id and id nonzero;
Takeout: always; another type tag: never), has one of the eight type tags and
fits, with its file reference, in the input. An input shorter than the fixed
fields, an input whose type byte is not one of the eight tags, and a serialized
location cut short before its end all give `nullopt`. -/
theorem FromSerialized_only_valid (L : List Byte) (hL : L ≠ []) :
    (FromSerialized (.bytes L) = none
      ∨ ∃ x, FromSerialized (.bytes L) = some x ∧ x.valid = true ∧ x.validInWords
        ∧ x._type < 8 ∧ 36 + x._fileReference.size ≤ L.length)
    ∧ (L.length < 36 → FromSerialized (.bytes L) = none)
    ∧ (∀ t : Byte, L[2]? = some t
        → 8 ≤ (if t.val &&& kSerializeTypeShift ≠ 0 then t.val &&& 0xF7 else t.val)
        → FromSerialized (.bytes L) = none)
    ∧ (∀ (x : StorageFileLocation) (k : Nat), x.wellTyped → x.valid = true
        → 0 < k → k < x.serialize.size → L = x.serialize.toList.take k
        → FromSerialized (.bytes L) = none) := by
  refine ⟨?_, ?_, ?_, ?_⟩
  · cases hres : FromSerialized (.bytes L) with
    | none => exact Or.inl rfl
    | some x =>
      obtain ⟨hv, h36, -⟩ := FromSerialized_fields L hL x hres
      exact Or.inr ⟨x, rfl, hv, (valid_iff_validInWords x).mp hv, type_lt_of_valid x hv, h36⟩
  · intro hlen
    cases hres : FromSerialized (.bytes L) with
    | none => rfl
    | some x =>
      obtain ⟨-, h36, -⟩ := FromSerialized_fields L hL x hres
      omega
  · intro t ht h8
    cases hres : FromSerialized (.bytes L) with
    | none => rfl
    | some x =>
      obtain ⟨hv, -, t2, ht2, -, hty, -⟩ := FromSerialized_fields L hL x hres
      have hlt := type_lt_of_valid x hv
      rw [ht] at ht2
      have := Option.some.inj ht2
      subst this
      omega
  · intro x k hw hv hk0 hk hLx
    rw [hLx]
    exact FromSerialized_truncated x hw hv k hk0 hk

set_option maxRecDepth 100000 in
/-- Witness of C25: the serialized scenario Photo location is read as a valid
location, and its first twenty bytes are not read. -/
theorem FromSerialized_only_valid_witness :
    (FromSerialized (.bytes scenarioPhoto.serialize.toList) = none
      ∨ ∃ x, FromSerialized (.bytes scenarioPhoto.serialize.toList) = some x
        ∧ x.valid = true ∧ x.validInWords
        ∧ x._type < 8 ∧ 36 + x._fileReference.size ≤ scenarioPhoto.serialize.toList.length)
    ∧ FromSerialized (.bytes (scenarioPhoto.serialize.toList.take 20)) = none :=
  ⟨(FromSerialized_only_valid scenarioPhoto.serialize.toList (by decide)).1,
    (FromSerialized_only_valid (scenarioPhoto.serialize.toList.take 20) (by decide)).2.1
      (by decide)⟩

end StorageFileLocation

/-! ## Ordering and equality -/

namespace StorageFileLocation

theorem valid_cmp (a b : StorageFileLocation) (ha : a.valid = false ∨ b.valid = false) :
    eq a b = (!a.valid && !b.valid) ∧ lt a b = (!a.valid && b.valid) := by
  unfold eq lt
  cases hva : a.valid <;> cases hvb : b.valid <;> simp_all

theorem type_cmp (a b : StorageFileLocation) (ha : a.valid = true) (hb : b.valid = true)
    (h : a._type ≠ b._type) : eq a b = false ∧ lt a b = decide (a._type < b._type) := by
  unfold eq lt
  simp [ha, hb, h]

set_option maxHeartbeats 1000000 in
theorem same_type_trichotomy (a b : StorageFileLocation) (ha : a.valid = true)
    (hb : b.valid = true) (h : a._type = b._type) :
    (lt a b = true ∧ lt b a = false ∧ eq a b = false)
    ∨ (lt a b = false ∧ lt b a = true ∧ eq a b = false)
    ∨ (lt a b = false ∧ lt b a = false ∧ eq a b = true) := by
  have ht := type_lt_of_valid a ha
  obtain ⟨d, t, sl, li, id, ah, vi, ip, im, fr⟩ := a
  obtain ⟨d2, t2, sl2, li2, id2, ah2, vi2, ip2, im2, fr2⟩ := b
  simp only at h ht
  subst h
  unfold eq lt
  rw [ha, hb]
  interval_cases t <;> simp [tieLt] <;> omega

end StorageFileLocation

namespace StorageFileLocation

set_option maxHeartbeats 4000000 in
theorem same_type_trans (a b c : StorageFileLocation) (ha : a.valid = true)
    (hb : b.valid = true) (hc : c.valid = true) (h : a._type = b._type)
    (h2 : b._type = c._type) :
    (lt a b = true → lt b c = true → lt a c = true)
    ∧ (eq a b = true → eq b c = true → eq a c = true) := by
  have ht := type_lt_of_valid a ha
  obtain ⟨d, t, sl, li, id, ah, vi, ip, im, fr⟩ := a
  obtain ⟨d2, t2, sl2, li2, id2, ah2, vi2, ip2, im2, fr2⟩ := b
  obtain ⟨d3, t3, sl3, li3, id3, ah3, vi3, ip3, im3, fr3⟩ := c
  simp only at h h2 ht
  subst h
  subst h2
  unfold eq lt
  rw [ha, hb, hc]
  interval_cases t <;> simp [tieLt] <;> omega

theorem eq_symm_of (a b : StorageFileLocation) (h : eq a b = true) : eq b a = true := by
  cases hva : a.valid with
  | false =>
    have h1 := (valid_cmp a b (Or.inl hva)).1
    rw [(valid_cmp b a (Or.inr hva)).1]
    rw [h1] at h
    rw [Bool.and_comm]; exact h
  | true =>
    cases hvb : b.valid with
    | false =>
      rw [(valid_cmp a b (Or.inr hvb)).1, hva] at h
      simp at h
    | true =>
      by_cases ht : a._type = b._type
      · rcases same_type_trichotomy a b hva hvb ht with h1 | h1 | h1
        · rw [h1.2.2] at h; simp at h
        · rw [h1.2.2] at h; simp at h
        · rcases same_type_trichotomy b a hvb hva ht.symm with h2 | h2 | h2
          · exact absurd h2.1 (by rw [h1.2.1]; simp)
          · exact absurd h2.2.1 (by rw [h1.1]; simp)
          · exact h2.2.2
      · rw [(type_cmp a b hva hvb ht).1] at h; simp at h

theorem eq_valid_type (a b : StorageFileLocation) (h : eq a b = true) :
    a.valid = b.valid ∧ (a.valid = true → a._type = b._type) := by
  cases hva : a.valid with
  | false =>
    rw [(valid_cmp a b (Or.inl hva)).1, hva] at h
    simp at h
    exact ⟨h.symm, by simp⟩
  | true =>
    cases hvb : b.valid with
    | false =>
      rw [(valid_cmp a b (Or.inr hvb)).1, hva] at h
      simp at h
    | true =>
      refine ⟨rfl, fun _ => ?_⟩
      by_contra ht
      rw [(type_cmp a b hva hvb ht).1] at h; simp at h

theorem eq_trans_of (a b c : StorageFileLocation) (h : eq a b = true) (h2 : eq b c = true) :
    eq a c = true := by
  obtain ⟨v1, t1⟩ := eq_valid_type a b h
  obtain ⟨v2, t2⟩ := eq_valid_type b c h2
  cases hva : a.valid with
  | false =>
    rw [(valid_cmp a c (Or.inl hva)).1, ← v2, ← v1, hva]; rfl
  | true =>
    have hvb : b.valid = true := by rw [← v1]; exact hva
    have hvc : c.valid = true := by rw [← v2]; exact hvb
    exact (same_type_trans a b c hva hvb hvc (t1 hva) (t2 hvb)).2 h h2

theorem lt_irrefl_of (a : StorageFileLocation) : lt a a = false := by
  cases hva : a.valid with
  | false => rw [(valid_cmp a a (Or.inl hva)).2, hva]; rfl
  | true =>
    rcases same_type_trichotomy a a hva hva rfl with h1 | h1 | h1
    · rw [h1.1] at h1; simp at h1
    · exact h1.1
    · exact h1.1

theorem lt_trans_of (a b c : StorageFileLocation) (h : lt a b = true) (h2 : lt b c = true) :
    lt a c = true := by
  cases hva : a.valid with
  | false =>
    rw [(valid_cmp a b (Or.inl hva)).2, hva] at h
    simp at h
    cases hvc : c.valid with
    | false =>
      rw [(valid_cmp b c (Or.inr hvc)).2, h] at h2
      simp at h2
    | true => rw [(valid_cmp a c (Or.inl hva)).2, hva, hvc]; rfl
  | true =>
    cases hvb : b.valid with
    | false =>
      rw [(valid_cmp a b (Or.inr hvb)).2, hva] at h
      simp at h
    | true =>
      cases hvc : c.valid with
      | false =>
        rw [(valid_cmp b c (Or.inr hvc)).2, hvb] at h2
        simp at h2
      | true =>
        by_cases t1 : a._type = b._type
        · by_cases t2 : b._type = c._type
          · exact (same_type_trans a b c hva hvb hvc t1 t2).1 h h2
          · rw [(type_cmp b c hvb hvc t2).2] at h2
            have t3 : a._type ≠ c._type := by rw [t1]; exact t2
            rw [(type_cmp a c hva hvc t3).2, t1]; exact h2
        · rw [(type_cmp a b hva hvb t1).2] at h
          by_cases t2 : b._type = c._type
          · have t3 : a._type ≠ c._type := by rw [← t2]; exact t1
            rw [(type_cmp a c hva hvc t3).2, ← t2]; exact h
          · rw [(type_cmp b c hvb hvc t2).2] at h2
            simp only [decide_eq_true_eq] at h h2
            have t3 : a._type ≠ c._type := by omega
            rw [(type_cmp a c hva hvc t3).2]
            simp only [decide_eq_true_eq]
            omega

theorem trichotomy_of (a b : StorageFileLocation) :
    (lt a b = true ∧ lt b a = false ∧ eq a b = false)
    ∨ (lt a b = false ∧ lt b a = true ∧ eq a b = false)
    ∨ (lt a b = false ∧ lt b a = false ∧ eq a b = true) := by
  cases hva : a.valid with
  | false =>
    rw [(valid_cmp a b (Or.inl hva)).1, (valid_cmp a b (Or.inl hva)).2,
      (valid_cmp b a (Or.inr hva)).2, hva]
    cases hvb : b.valid <;> simp
  | true =>
    cases hvb : b.valid with
    | false =>
      rw [(valid_cmp a b (Or.inr hvb)).1, (valid_cmp a b (Or.inr hvb)).2,
        (valid_cmp b a (Or.inl hvb)).2, hva, hvb]
      simp
    | true =>
      by_cases t1 : a._type = b._type
      · exact same_type_trichotomy a b hva hvb t1
      · rw [(type_cmp a b hva hvb t1).1, (type_cmp a b hva hvb t1).2,
          (type_cmp b a hvb hva (Ne.symm t1)).2]
        rcases Nat.lt_or_gt_of_ne t1 with hlt | hgt
        · left; simp; omega
        · right; left; simp; omega

/-- C26: the ordering is consistent with equality. For all locations, valid
or not and of any types, exactly one of `a < b`, `b < a` and `a == b` holds;
`operator==` is reflexive, symmetric and transitive; `operator<` is
irreflexive and transitive. -/
theorem lt_eq_consistent (a b c : StorageFileLocation) :
    ((lt a b = true ∧ lt b a = false ∧ eq a b = false)
      ∨ (lt a b = false ∧ lt b a = true ∧ eq a b = false)
      ∨ (lt a b = false ∧ lt b a = false ∧ eq a b = true))
    ∧ eq a a = true
    ∧ (eq a b = true → eq b a = true)
    ∧ (eq a b = true → eq b c = true → eq a c = true)
    ∧ lt a a = false
    ∧ (lt a b = true → lt b c = true → lt a c = true) :=
  ⟨trichotomy_of a b, eq_self a, eq_symm_of a b, eq_trans_of a b c, lt_irrefl_of a,
    lt_trans_of a b c⟩

set_option maxRecDepth 100000 in
/-- Witness of C26: the invalid default location is below the scenario
location taken as a Document, which is below the scenario Photo location; so
the default location is below the Photo location. -/
theorem lt_eq_consistent_witness :
    lt {} scenarioPhoto = true :=
  (lt_eq_consistent {} { scenarioPhoto with _type := Type_.Document } scenarioPhoto).2.2.2.2.2
    (by decide) (by decide)

end StorageFileLocation

/-! ## Serializing download locations that are not valid -/

namespace DownloadLocation

/-- An invalid location that holds no storage location is read as one by both
`serialize` and `serializeSize`. -/
theorem serialize_invalid_nonStorage (codec : Utf8Codec) (x : DownloadLocation)
    (hv : x.valid = false) (hs : x.isStorage = false) :
    x.serialize codec = none ∧ x.serializeSize codec = none := by
  unfold serialize serializeSize
  rw [hv]
  unfold isStorage at hs
  cases hd : x.data <;> simp_all

/-- A valid location and a location holding a storage location are serialized. -/
theorem serialize_defined (codec : Utf8Codec) (x : DownloadLocation)
    (h : x.valid = true ∨ x.isStorage = true) :
    (x.serialize codec).isSome = true ∧ (x.serializeSize codec).isSome = true := by
  unfold serialize serializeSize
  cases hd : x.data with
  | storage d => simp [isStorage, hd]
  | web d =>
    have hv : x.valid = true := by
      rcases h with h | h
      · exact h
      · simp [isStorage, hd] at h
    simp [isStorage, hd, hv]
  | geo d =>
    have hv : x.valid = true := by
      rcases h with h | h
      · exact h
      · simp [isStorage, hd] at h
    simp [isStorage, hd, hv]
  | plainUrl d =>
    have hv : x.valid = true := by
      rcases h with h | h
      · exact h
      · simp [isStorage, hd] at h
    simp [isStorage, hd, hv]
  | inMemory d =>
    have hv : x.valid = true := by
      rcases h with h | h
      · exact h
      · simp [isStorage, hd] at h
    simp [isStorage, hd, hv]

set_option maxRecDepth 100000 in
/-- C27: `DownloadLocation::serialize` and `serializeSize` on the invalid
non-storage locations. The null web location, the url location with an empty
url and the in-memory location without bytes are not valid and hold no storage
location, and both methods read them as a storage location: the model gives no
result for any of the three. -/
theorem serialize_not_total :
    (nullWeb.valid = false ∧ nullWeb.isStorage = false
      ∧ nullWeb.serialize toyCodec = none ∧ nullWeb.serializeSize toyCodec = none)
    ∧ (emptyUrl.valid = false ∧ emptyUrl.isStorage = false
      ∧ emptyUrl.serialize toyCodec = none ∧ emptyUrl.serializeSize toyCodec = none)
    ∧ (emptyMemory.valid = false ∧ emptyMemory.isStorage = false
      ∧ emptyMemory.serialize toyCodec = none ∧ emptyMemory.serializeSize toyCodec = none) := by
  decide

end DownloadLocation

/-! ## Image locations -/

namespace StorageImageLocation

set_option maxRecDepth 100000 in
/-- C21: the image location without a file and with dimensions 5 by 7. Its
serialized form is the eight bytes of the two dimensions, which is not empty,
and `FromSerialized` gives `nullopt` for it: the file location is read first,
from the whole buffer, and eight bytes do not hold one. -/
theorem FromSerialized_dimensionsOnly :
    dimensionsOnly._file.valid = false
    ∧ dimensionsOnly.serialize = .bytes [0, 0, 0, 5, 0, 0, 0, 7]
    ∧ dimensionsOnly.serialize.isEmpty = false
    ∧ FromSerialized dimensionsOnly.serialize = none := by
  decide

end StorageImageLocation

namespace StorageFileLocation

/-- A valid location is read back from its serialized form followed by any
further bytes. -/
theorem FromSerialized_serialize_append (x : StorageFileLocation) (hw : x.wellTyped)
    (hv : x.valid = true) (rest : List Byte) :
    FromSerialized (.bytes (x.serialize.toList ++ rest)) = some x := by
  obtain ⟨hd, -, hsl, hli, hid, hah, hvi, hip, him, hfr⟩ := hw
  have ht := type_lt_of_valid x hv
  obtain ⟨htok, hshift, hmask⟩ := typeByte_facts x._type ht
  have hser : x.serialize.toList ++ rest = (beBytes 2 x._dcId
      ++ (beBytes 1 (kSerializeTypeShift ||| (x._type % 2 ^ 8))
      ++ (beBytes 1 x._sizeLetter
      ++ (beBytes 4 (toUInt32 x._localId)
      ++ (beBytes 8 x._id
      ++ (beBytes 8 x._accessHash
      ++ (beBytes 8 x._volumeId
      ++ (beBytes 4 (toUInt32 x._inMessagePeerId)
      ++ (beBytes 4 (toUInt32 x._inMessageId)
      ++ (streamBytes x._fileReference ++ rest)))))))))) := by
    simp only [serialize, hv, if_true, QByteArray.toList, List.append_assoc]
  generalize hL : (beBytes 2 x._dcId
      ++ (beBytes 1 (kSerializeTypeShift ||| (x._type % 2 ^ 8))
      ++ (beBytes 1 x._sizeLetter
      ++ (beBytes 4 (toUInt32 x._localId)
      ++ (beBytes 8 x._id
      ++ (beBytes 8 x._accessHash
      ++ (beBytes 8 x._volumeId
      ++ (beBytes 4 (toUInt32 x._inMessagePeerId)
      ++ (beBytes 4 (toUInt32 x._inMessageId)
      ++ (streamBytes x._fileReference ++ rest)))))))))) = L at hser
  have hne : (QByteArray.bytes L).isEmpty = false := by
    have : 0 < L.length := by
      rw [← hL]; simp only [List.length_append, beBytes_length]; omega
    simp only [QByteArray.isEmpty, QByteArray.size, QByteArray.toList, beq_eq_false_iff_ne]
    omega
  have r1 := ReadStream.readUInt_at L 0 2 _ _ true (by rw [List.drop_zero]; exact hL.symm)
  have r2 := ReadStream.readUInt_at L (0 + 2) 1 _ _ true r1.2
  have r3 := ReadStream.readUInt_at L (0 + 2 + 1) 1 _ _ true r2.2
  have r4 := ReadStream.readUInt_at L (0 + 2 + 1 + 1) 4 _ _ true r3.2
  have r5 := ReadStream.readUInt_at L (0 + 2 + 1 + 1 + 4) 8 _ _ true r4.2
  have r6 := ReadStream.readUInt_at L (0 + 2 + 1 + 1 + 4 + 8) 8 _ _ true r5.2
  have r7 := ReadStream.readUInt_at L (0 + 2 + 1 + 1 + 4 + 8 + 8) 8 _ _ true r6.2
  have r8 := ReadStream.readUInt_at L (0 + 2 + 1 + 1 + 4 + 8 + 8 + 8) 4 _ _ true r7.2
  have r9 := ReadStream.readUInt_at L (0 + 2 + 1 + 1 + 4 + 8 + 8 + 8 + 4) 4 _ _ true r8.2
  have r10 := ReadStream.readByteArray_at L (0 + 2 + 1 + 1 + 4 + 8 + 8 + 8 + 4 + 4)
    x._fileReference rest true hfr r9.2
  have e1 : x._dcId % 256 ^ 2 = x._dcId := Nat.mod_eq_of_lt (by omega)
  have e3 : x._sizeLetter % 256 ^ 1 = x._sizeLetter := Nat.mod_eq_of_lt (by omega)
  have e5 : x._id % 256 ^ 8 = x._id := Nat.mod_eq_of_lt (by omega)
  have e6 : x._accessHash % 256 ^ 8 = x._accessHash := Nat.mod_eq_of_lt (by omega)
  have e7 : x._volumeId % 256 ^ 8 = x._volumeId := Nat.mod_eq_of_lt (by omega)
  have i32 : ∀ i : Int, -(2 ^ 31) ≤ i ∧ i < 2 ^ 31 → toInt32 (toUInt32 i % 256 ^ 4) = i := by
    intro i hi
    have : toUInt32 i % 256 ^ 4 = toUInt32 i := by
      apply Nat.mod_eq_of_lt; unfold toUInt32; omega
    rw [this, toInt32_toUInt32 i hi]
  rw [hser]
  unfold FromSerialized
  rw [hne]
  simp only [QByteArray.toList, Bool.false_eq_true, if_false]
  rw [r1.1]
  simp only []
  rw [r2.1]
  simp only [htok, if_false]
  rw [r3.1]
  simp only []
  rw [r4.1]
  simp only []
  rw [r5.1]
  simp only []
  rw [r6.1]
  simp only []
  rw [r7.1]
  simp only [hshift, ne_eq, not_false_eq_true, if_true]
  rw [r8.1]
  simp only []
  rw [r9.1]
  simp only []
  rw [r10]
  simp only [hmask, e1, e3, e5, e6, e7, i32 _ hli, i32 _ hip, i32 _ him, hv, Bool.and_self,
    if_true]

end StorageFileLocation

namespace StorageImageLocation

/-- An image location with a valid file location is read back from its
serialized form, dimensions included. -/
theorem FromSerialized_serialize_file_valid (x : StorageImageLocation)
    (hw : x._file.wellTyped) (hv : x._file.valid = true)
    (hwidth : -(2 ^ 31) ≤ x._width ∧ x._width < 2 ^ 31)
    (hheight : -(2 ^ 31) ≤ x._height ∧ x._height < 2 ^ 31) :
    FromSerialized x.serialize = some x := by
  have hsize := StorageFileLocation.serialize_size_eq x._file
  simp only [StorageFileLocation.serializeSize, hv, if_true, Serialize.bytearraySize] at hsize
  have hfile := StorageFileLocation.FromSerialized_serialize_append x._file hw hv
    (beBytes 4 (toUInt32 x._width) ++ beBytes 4 (toUInt32 x._height))
  generalize hS : x._file.serialize.toList = S at hfile
  have hSlen : S.length = 8 * 5 + (4 + x._file._fileReference.size) := by
    rw [← hS]; exact hsize
  have hne : x._file.serialize.isEmpty = false := by
    unfold QByteArray.isEmpty
    rw [hsize]; simp
  have hser : x.serialize
      = .bytes (S ++ (beBytes 4 (toUInt32 x._width) ++ beBytes 4 (toUInt32 x._height))) := by
    unfold serialize
    simp only [hne, Bool.not_false, Bool.true_or, if_true, hS, List.append_assoc]
  rw [hser]
  unfold FromSerialized
  rw [hfile]
  have hb : ∀ l : List Byte, (QByteArray.bytes l).size = l.length := fun l => rfl
  have hfull : (QByteArray.bytes
      (S ++ (beBytes 4 (toUInt32 x._width) ++ beBytes 4 (toUInt32 x._height)))).size
      = S.length + 8 := by
    rw [hb]; simp only [List.length_append, beBytes_length]
  have hdrop : (S ++ (beBytes 4 (toUInt32 x._width) ++ beBytes 4 (toUInt32 x._height))).drop
      (S.length + 8 - 2 * 4)
      = beBytes 4 (toUInt32 x._width) ++ beBytes 4 (toUInt32 x._height) := by
    have : S.length + 8 - 2 * 4 = S.length := by omega
    rw [this]; exact List.drop_left' rfl
  dsimp only
  rw [hfull, if_neg (by omega), if_pos (by omega)]
  simp only [QByteArray.toList]
  rw [hdrop]
  generalize hD : beBytes 4 (toUInt32 x._width) ++ beBytes 4 (toUInt32 x._height) = D
  have r1 := ReadStream.readUInt_at D 0 4 (toUInt32 x._width) (beBytes 4 (toUInt32 x._height))
    true (by rw [List.drop_zero]; exact hD.symm)
  have r2 := ReadStream.readUInt_at D (0 + 4) 4 (toUInt32 x._height) [] true
    (by rw [r1.2, List.append_nil])
  have i32 : ∀ i : Int, -(2 ^ 31) ≤ i ∧ i < 2 ^ 31 → toInt32 (toUInt32 i % 256 ^ 4) = i := by
    intro i hi
    have : toUInt32 i % 256 ^ 4 = toUInt32 i := by
      apply Nat.mod_eq_of_lt; unfold toUInt32; omega
    rw [this, toInt32_toUInt32 i hi]
  rw [r1.1]
  dsimp only
  rw [r2.1]
  simp only [if_true, i32 _ hwidth, i32 _ hheight]

/-- An image location without a valid file location and without a positive
dimension has an empty serialized form, read as the default location with
dimensions 0 by 0. -/
theorem FromSerialized_serialize_empty (x : StorageImageLocation)
    (hv : x._file.valid = false) (hwidth : x._width ≤ 0) (hheight : x._height ≤ 0) :
    x.serialize.isEmpty = true
    ∧ FromSerialized x.serialize = some { _file := {}, _width := 0, _height := 0 } := by
  have hfile : x._file.serialize = .null := by
    simp [StorageFileLocation.serialize, hv]
  have hser : x.serialize = .null := by
    unfold serialize
    rw [hfile]
    have h1 : ¬ (x._width > 0) := by omega
    have h2 : ¬ (x._height > 0) := by omega
    simp [QByteArray.isEmpty, QByteArray.size, QByteArray.toList, h1, h2]
  rw [hser]
  exact ⟨rfl, rfl⟩

/-- An image location without a valid file location and with a positive
dimension has a serialized form of eight bytes, which is not read. -/
theorem FromSerialized_serialize_dimensions (x : StorageImageLocation)
    (hv : x._file.valid = false) (hdim : 0 < x._width ∨ 0 < x._height) :
    x.serialize.size = 8 ∧ FromSerialized x.serialize = none := by
  have hfile : x._file.serialize = .null := by
    simp [StorageFileLocation.serialize, hv]
  have hser : x.serialize
      = .bytes (beBytes 4 (toUInt32 x._width) ++ beBytes 4 (toUInt32 x._height)) := by
    unfold serialize
    rw [hfile]
    rcases hdim with h | h <;>
      simp [QByteArray.isEmpty, QByteArray.size, QByteArray.toList, h]
  rw [hser]
  have hb : ∀ l : List Byte, (QByteArray.bytes l).size = l.length := fun l => rfl
  refine ⟨by rw [hb]; simp only [List.length_append, beBytes_length], ?_⟩
  unfold FromSerialized
  have hlen : (beBytes 4 (toUInt32 x._width) ++ beBytes 4 (toUInt32 x._height)).length = 8 := by
    simp only [List.length_append, beBytes_length]
  cases hres : StorageFileLocation.FromSerialized
      (.bytes (beBytes 4 (toUInt32 x._width) ++ beBytes 4 (toUInt32 x._height))) with
  | none => rfl
  | some y =>
    obtain ⟨-, h36, -⟩ := StorageFileLocation.FromSerialized_fields _
      (by intro h0; rw [h0] at hlen; simp at hlen) y hres
    omega

end StorageImageLocation

/-! ## The protocol form round trip -/

theorem and_PeerIdTypeMask (id : Nat) : id &&& PeerIdTypeMask = 2 ^ 32 * (id / 2 ^ 32 % 16) := by
  apply Nat.eq_of_testBit_eq
  intro i
  have hm : PeerIdTypeMask = 2 ^ 32 * (2 ^ 4 - 1) := by decide
  rw [Nat.testBit_and, hm, Nat.testBit_mul_pow_two, Nat.testBit_mul_pow_two,
    Nat.testBit_two_pow_sub_one]
  have h16 : (16 : Nat) = 2 ^ 4 := by decide
  rw [h16, Nat.testBit_mod_two_pow, ← Nat.shiftRight_eq_div_pow, Nat.testBit_shiftRight]
  by_cases h32 : 32 ≤ i
  · have : 32 + (i - 32) = i := by omega
    rw [this]
    by_cases h4 : i - 32 < 4 <;> simp [h32, h4]
  · simp [h32]

theorem and_PeerIdMask (id : Nat) : id &&& PeerIdMask = id % 2 ^ 32 := by
  have hm : PeerIdMask = 2 ^ 32 - 1 := by decide
  rw [hm, Nat.and_pow_two_sub_one_eq_mod]

theorem toUInt32_toInt32 (u : Nat) : toUInt32 (toInt32 u) = u % 2 ^ 32 := by
  unfold toUInt32 toInt32
  split <;> omega

theorem shift_or (k u : Nat) (hu : u < 2 ^ 32) : (2 ^ 32 * k) ||| u = 2 ^ 32 * k + u :=
  (Nat.mul_add_lt_is_or hu k).symm

theorem toUInt32_lt (i : Int) : toUInt32 i < 2 ^ 32 := by
  unfold toUInt32; omega

/-- A peer id with a user, chat or channel shift and a 32-bit bare id is
rebuilt from the bare id `GenerateInputPeer` hands on. -/
theorem peer_canonical (id : Nat) (h : id < 0x300000000) :
    (peerIsUser id = true → peerFromUser (peerToBareMTPInt id) = id)
    ∧ (peerIsUser id = false → peerIsChat id = true → peerFromChat (peerToBareMTPInt id) = id)
    ∧ (peerIsUser id = false → peerIsChat id = false
      → peerIsChannel id = true ∧ peerFromChannel (peerToBareMTPInt id) = id) := by
  unfold peerIsUser peerIsChat peerIsChannel peerFromUser peerFromChat peerFromChannel
    peerToBareMTPInt peerToBareInt
  rw [and_PeerIdTypeMask, and_PeerIdMask, toUInt32_toInt32]
  have hlt : id % 2 ^ 32 % 2 ^ 32 < 2 ^ 32 := Nat.mod_lt _ (by decide)
  have h0 : PeerIdUserShift = 2 ^ 32 * 0 := by decide
  have h1 : PeerIdChatShift = 2 ^ 32 * 1 := by decide
  have h2 : PeerIdChannelShift = 2 ^ 32 * 2 := by decide
  rw [h0, h1, h2, shift_or 0 _ hlt, shift_or 1 _ hlt, shift_or 2 _ hlt]
  simp only [beq_iff_eq, beq_eq_false_iff_ne, ne_eq]
  refine ⟨?_, ?_, ?_⟩
  · intro a; omega
  · intro a b; omega
  · intro a b; omega

namespace StorageFileLocation

theorem fillOuter_plain (id accessHash : Nat) (self : Int) (r : StorageFileLocation) :
    fillOuter self r (GenerateInputPeer.plain_ id accessHash self)
      = fillInner self r (GenerateInputPeer.plain_ id accessHash self) := by
  unfold GenerateInputPeer.plain_
  split_ifs <;> rfl

theorem fillInner_plain (id accessHash : Nat) (self : Int) (r : StorageFileLocation)
    (h : id < 0x300000000) :
    (fillInner self r (GenerateInputPeer.plain_ id accessHash self))._id = id
    ∧ (fillInner self r (GenerateInputPeer.plain_ id accessHash self))._dcId = r._dcId
    ∧ (fillInner self r (GenerateInputPeer.plain_ id accessHash self))._type = r._type := by
  obtain ⟨hu, hc, hch⟩ := peer_canonical id h
  unfold GenerateInputPeer.plain_
  by_cases h0 : id = 0
  · rw [if_pos h0]; exact ⟨h0.symm, rfl, rfl⟩
  rw [if_neg h0]
  by_cases hs : id = peerFromUser self
  · rw [if_pos hs]; exact ⟨hs.symm, rfl, rfl⟩
  rw [if_neg hs]
  cases h1 : peerIsUser id with
  | true => rw [if_pos rfl]; exact ⟨hu h1, rfl, rfl⟩
  | false =>
    rw [if_neg (by simp)]
    cases h2 : peerIsChat id with
    | true => rw [if_pos rfl]; exact ⟨hc h1 h2, rfl, rfl⟩
    | false =>
      rw [if_neg (by simp), (hch h1 h2).1, if_pos rfl]
      exact ⟨(hch h1 h2).2, rfl, rfl⟩

theorem fillOuter_GenerateInputPeer (id accessHash : Nat) (inMessagePeerId inMessageId self : Int)
    (r : StorageFileLocation) (h : id < 0x300000000) :
    (fillOuter self r (GenerateInputPeer id accessHash inMessagePeerId inMessageId self))._id = id
    ∧ (fillOuter self r
        (GenerateInputPeer id accessHash inMessagePeerId inMessageId self))._dcId = r._dcId
    ∧ (fillOuter self r
        (GenerateInputPeer id accessHash inMessagePeerId inMessageId self))._type = r._type := by
  have hp := fillInner_plain id accessHash self r h
  unfold GenerateInputPeer
  by_cases h1 : inMessagePeerId > 0 ∧ inMessageId ≠ 0
  · rw [if_pos h1]; exact hp
  rw [if_neg h1]
  by_cases h2 : inMessagePeerId < 0 ∧ inMessageId ≠ 0
  · rw [if_pos h2]; exact hp
  rw [if_neg h2, fillOuter_plain]
  exact hp

theorem dcId_stored (d : Nat) (h : d < 2 ^ 16) : toUInt32 (d : Int) % 2 ^ 16 = d := by
  unfold toUInt32; omega

theorem thumbLetter_written (sl : Nat) (h : sl < 2 ^ 8) :
    thumbLetter (if sl ≠ 0 then .bytes [byteOfNat sl] else .bytes []) = sl
    ∧ thumbLetter (.bytes [byteOfNat sl]) = sl := by
  have hm : sl % 256 = sl := Nat.mod_eq_of_lt (by omega)
  by_cases h0 : sl = 0
  · subst h0; exact ⟨rfl, rfl⟩
  · rw [if_pos h0]
    exact ⟨hm, hm⟩

end StorageFileLocation

namespace StorageFileLocation

/-- The protocol form of an Encrypted location is the one of a Secure
location, and the location built from it has the type Secure. -/
theorem tl_Encrypted (x : StorageFileLocation) (self : Int) (hw : x.wellTyped)
    (hv : x.valid = true) (h : x._type = Type_.Encrypted) :
    x.tl self = some (.inputSecureFileLocation x._id x._accessHash)
    ∧ ∃ y, (x.tl self).bind (fromTl x.dcId self) = some y ∧ y._type = Type_.Secure
      ∧ eq y x = false := by
  obtain ⟨hd, -⟩ := hw
  have hdc := dcId_stored x._dcId hd
  obtain ⟨d, t, sl, li, id, ah, vi, ip, im, fr⟩ := x
  simp only at h hdc
  subst h
  refine ⟨rfl, _, rfl, rfl, ?_⟩
  simp only [dcId, hdc]
  unfold eq
  simp [valid, Type_.Secure, Type_.Encrypted] at hv ⊢
  simp [hv]

set_option maxHeartbeats 1000000 in
/-- C28: protocol form round trip. For every valid location whose fields hold
values of their types, of type Legacy, Document, Secure, Takeout, Photo or
StickerSetThumb, or of type PeerPhoto with the size letter `a` or `c` and an
id below `0x300000000` (a user, chat or channel shift and a 32-bit bare id),
and for every self id, the location built from `dcId()`, the self id and
`tl(self)` has the type of the original and is equal to it under
`operator==`. -/
theorem tl_roundtrip (x : StorageFileLocation) (self : Int) (hw : x.wellTyped)
    (hv : x.valid = true) (hE : x._type ≠ Type_.Encrypted)
    (hP : x._type = Type_.PeerPhoto
      → (x._sizeLetter = 97 ∨ x._sizeLetter = 99) ∧ x._id < 0x300000000) :
    ∃ y, (x.tl self).bind (fromTl x.dcId self) = some y ∧ y._type = x._type
      ∧ eq y x = true := by
  obtain ⟨hd, -, hsl, -⟩ := hw
  have ht := type_lt_of_valid x hv
  have hdc := dcId_stored x._dcId hd
  obtain ⟨hth1, hth2⟩ := thumbLetter_written x._sizeLetter hsl
  obtain ⟨d, t, sl, li, id, ah, vi, ip, im, fr⟩ := x
  simp only at ht hdc hth1 hth2 hE hP hd hsl
  interval_cases t
  · refine ⟨_, rfl, rfl, ?_⟩
    simp only [dcId, hdc]
    unfold eq
    simp [valid, Type_.Legacy, Type_.Encrypted, Type_.Secure, Type_.Document, Type_.Photo,
      Type_.Takeout, Type_.PeerPhoto, Type_.StickerSetThumb] at hv ⊢
  · exact absurd rfl hE
  · refine ⟨_, rfl, rfl, ?_⟩
    simp only [dcId, hdc, hth1]
    unfold eq
    simp [valid, Type_.Legacy, Type_.Encrypted, Type_.Secure, Type_.Document, Type_.Photo,
      Type_.Takeout, Type_.PeerPhoto, Type_.StickerSetThumb] at hv ⊢
  · refine ⟨_, rfl, rfl, ?_⟩
    simp only [dcId, hdc]
    unfold eq
    simp [valid, Type_.Legacy, Type_.Encrypted, Type_.Secure, Type_.Document, Type_.Photo,
      Type_.Takeout, Type_.PeerPhoto, Type_.StickerSetThumb] at hv ⊢
  · refine ⟨_, rfl, rfl, ?_⟩
    unfold eq
    simp [valid, Type_.Takeout]
  · refine ⟨_, rfl, rfl, ?_⟩
    simp only [dcId, hdc, hth2]
    unfold eq
    simp [valid, Type_.Legacy, Type_.Encrypted, Type_.Secure, Type_.Document, Type_.Photo,
      Type_.Takeout, Type_.PeerPhoto, Type_.StickerSetThumb] at hv ⊢
  · obtain ⟨hsz, hid⟩ := hP rfl
    obtain ⟨f1, f2, f3⟩ := fillOuter_GenerateInputPeer id ah ip im self
      { _dcId := toUInt32 (d : Int) % 2 ^ 16, _type := Type_.PeerPhoto } hid
    refine ⟨_, rfl, f3, ?_⟩
    have hletter : (if (sl == 99) = true then 99 else 97 : Nat) = sl := by
      rcases hsz with h | h <;> subst h <;> rfl
    simp only [dcId] at f1 f2 f3 ⊢
    generalize fillOuter self _ _ = F at f1 f2 f3 ⊢
    obtain ⟨Fd, Ft, Fsl, Fli, Fid, Fah, Fvi, Fip, Fim, Ffr⟩ := F
    simp only at f1 f2 f3
    rw [hdc] at f2
    subst f1 f2 f3
    unfold eq
    simp [valid, hletter, Type_.PeerPhoto] at hv ⊢
    right
    rcases hsz with h | h <;> subst h <;> rfl
  · refine ⟨_, rfl, rfl, ?_⟩
    simp only [dcId, hdc]
    unfold eq
    simp [valid, Type_.Legacy, Type_.Encrypted, Type_.Secure, Type_.Document, Type_.Photo,
      Type_.Takeout, Type_.PeerPhoto, Type_.StickerSetThumb] at hv ⊢

end StorageFileLocation

namespace StorageFileLocation

set_option maxRecDepth 100000 in
/-- Witness of C28: the scenario Photo location and a PeerPhoto location of a
channel, taken from a message, with the size letter `c`. -/
theorem tl_roundtrip_witness :
    (∃ y, (scenarioPhoto.tl 1).bind (fromTl scenarioPhoto.dcId 1) = some y
      ∧ y._type = scenarioPhoto._type ∧ eq y scenarioPhoto = true)
    ∧ (∃ y, (peerPhotoChannel.tl 1).bind (fromTl peerPhotoChannel.dcId 1) = some y
      ∧ y._type = peerPhotoChannel._type ∧ eq y peerPhotoChannel = true) :=
  ⟨tl_roundtrip scenarioPhoto 1 (by decide) (by decide) (by decide) (by decide),
    tl_roundtrip peerPhotoChannel 1 (by decide) (by decide) (by decide) (by decide)⟩

set_option maxRecDepth 100000 in
/-- Counterexample to C28 as stated: the valid PeerPhoto location of user 5
with the size letter `b`. Its protocol form holds only the flag `big`, which
is not set, and the location built from it has the size letter `a`: it has
the same type and is not equal to the original. -/
theorem tl_roundtrip_counterexample :
    peerPhotoB.wellTyped ∧ peerPhotoB.valid = true
    ∧ (peerPhotoB.tl 1).bind (fromTl peerPhotoB.dcId 1)
        = some { peerPhotoB with _sizeLetter := 97 }
    ∧ eq { peerPhotoB with _sizeLetter := 97 } peerPhotoB = false := by
  decide

set_option maxRecDepth 100000 in
/-- The protocol form of the Encrypted location of the scenario is built into
a Secure location. -/
theorem tl_scenarioEncrypted :
    scenarioEncrypted.valid = true
    ∧ scenarioEncrypted.tl 1 = some (.inputSecureFileLocation 7 9)
    ∧ (scenarioEncrypted.tl 1).bind (fromTl scenarioEncrypted.dcId 1)
        = some { scenarioEncrypted with _type := Type_.Secure }
    ∧ eq { scenarioEncrypted with _type := Type_.Secure } scenarioEncrypted = false := by
  decide

end StorageFileLocation
